import Mathlib

/-!
Multitool: the yt-dlp download pipeline.

A shallow embedding of `src/main/downloadHandlers.ts`, `src/main/ipc.ts`,
`src/main/preload.ts`, `src/utils/downloadUtils.ts`, `src/utils/pdfUtils.js`,
`src/services/analyticsService.js` and `scripts/install-dependencies.js`.

Conventions of the embedding

* JavaScript strings are Lean strings; regular expressions work on the list
  of characters of the string (one Lean character per JavaScript code unit,
  which is exact for text in the Basic Multilingual Plane).
* The numbers parsed from the output of yt-dlp are `JSNumber`: `NaN`, the two
  infinities, or an exact rational value (binary rounding of doubles, and
  their overflow to an infinity, are not modelled there).
* The numbers of `formatDuration` and `formatFileSize` are doubles: `toDouble`
  rounds a rational to 53 bits, `numberToString` prints a double as the
  language does.
* Effects (IPC calls, `spawn`, callbacks) are recorded in explicit results
  and state: a handler is a function from the state before to the state after.
-/

namespace Multitool

/-! ## Regular expressions (the fragment of ECMAScript used by the program) -/

/-- Abstract syntax of the regular expressions that occur in the sources.
`cls p` matches one character satisfying `p`; `star` is the greedy `*`;
`group i` is the `i`-th capturing group; `bol` and `eol` are `^` and `$`
(without the `m` flag). -/
inductive Regex where
  | empty : Regex
  | cls (p : Char → Bool) : Regex
  | seq (a b : Regex) : Regex
  | alt (a b : Regex) : Regex
  | star (a : Regex) : Regex
  | group (i : Nat) (a : Regex) : Regex
  | bol : Regex
  | eol : Regex

/-- Capture registers: group number to captured text (`none` is `undefined`). -/
abbrev Caps := Nat → Option (List Char)

/-- No group has captured anything yet. -/
def noCaps : Caps := fun _ => none

/-- Store the text `w` in capture register `i`. -/
def setCap (c : Caps) (i : Nat) (w : List Char) : Caps :=
  fun j => if j = i then some w else c j

/-- A continuation of the backtracking matcher: what remains to be matched
after the current sub-expression, given the rest of the input and the captures. -/
abbrev Cont (R : Type) := List Char → Caps → Option R

/-- Greedy repetition: try one more iteration of `step` (which has to consume
at least one character), and fall back to the continuation. The fuel is the
length of the remaining input, which bounds the number of iterations. -/
def starLoop {R : Type} (step : List Char → Caps → Cont R → Option R) :
    Nat → List Char → Caps → Cont R → Option R
  | 0, s, c, k => k s c
  | fuel + 1, s, c, k =>
    match step s c (fun s1 c1 =>
        if s1.length < s.length then starLoop step fuel s1 c1 k else none) with
    | some r => some r
    | none => k s c

/-- The backtracking matcher of ECMAScript (continuation-passing, leftmost
alternative first, greedy repetition). `n` is the length of the whole input,
so that `^` can tell whether the current position is the start. -/
def Regex.run {R : Type} : Regex → Nat → List Char → Caps → Cont R → Option R
  | .empty, _, s, c, k => k s c
  | .cls p, _, s, c, k =>
    match s with
    | [] => none
    | ch :: t => if p ch then k t c else none
  | .seq a b, n, s, c, k => a.run n s c (fun s1 c1 => b.run n s1 c1 k)
  | .alt a b, n, s, c, k =>
    match a.run n s c k with
    | some r => some r
    | none => b.run n s c k
  | .star a, n, s, c, k => starLoop (a.run n) s.length s c k
  | .group i a, n, s, c, k =>
    a.run n s c (fun s1 c1 => k s1 (setCap c1 i (s.take (s.length - s1.length))))
  | .bol, n, s, c, k => if s.length = n then k s c else none
  | .eol, _, s, c, k =>
    match s with
    | [] => k [] c
    | _ :: _ => none

/-- The result of a successful match: index of the match, matched text
(`match[0]`) and the capture registers (`match[i]`). -/
structure MatchResult where
  index : Nat
  text : List Char
  caps : Caps

/-- Try to match at the current position only. -/
def Regex.matchHere (r : Regex) (n : Nat) (s : List Char) : Option MatchResult :=
  r.run n s noCaps (fun s1 c1 =>
    some { index := n - s.length, text := s.take (s.length - s1.length), caps := c1 })

/-- Scan the start positions from left to right; the first position with a
match wins. -/
def Regex.searchFrom (r : Regex) (n : Nat) : List Char → Option MatchResult
  | [] => r.matchHere n []
  | ch :: t =>
    match r.matchHere n (ch :: t) with
    | some res => some res
    | none => r.searchFrom n t

/-- The call `str.match(re)` and `re.exec(str)` for a regular expression without flags. -/
def Regex.exec (r : Regex) (str : String) : Option MatchResult :=
  r.searchFrom str.data.length str.data

/-- The call `re.test(str)`. -/
def Regex.test (r : Regex) (str : String) : Bool :=
  (r.exec str).isSome

/-- One given character. -/
def Regex.chr (ch : Char) : Regex := .cls (fun x => x == ch)

/-- A literal text. -/
def Regex.lit : List Char → Regex
  | [] => .empty
  | ch :: t => .seq (.chr ch) (Regex.lit t)

/-- Greedy `a?`. -/
def Regex.opt (a : Regex) : Regex := .alt a .empty

/-- Greedy `a+`. -/
def Regex.plus (a : Regex) : Regex := .seq a (.star a)

/-- Concatenation of a list of expressions. -/
def Regex.cat : List Regex → Regex
  | [] => .empty
  | a :: rest => .seq a (Regex.cat rest)

/-- A position of the matcher: the rest of the input and the captures. -/
abbrev Config := List Char × Caps

/-- Declarative reading of an expression as a relation between the position
before and the position after a match of it. An iteration of `star` consumes
at least one character. -/
def Regex.Sem (n : Nat) : Regex → Config → Config → Prop
  | .empty, x, y => y = x
  | .cls p, x, y => ∃ ch, x.1 = ch :: y.1 ∧ p ch = true ∧ y.2 = x.2
  | .seq a b, x, y => ∃ m, a.Sem n x m ∧ b.Sem n m y
  | .alt a b, x, y => a.Sem n x y ∨ b.Sem n x y
  | .star a, x, y =>
    Relation.ReflTransGen (fun u v => a.Sem n u v ∧ v.1.length < u.1.length) x y
  | .group i a, x, y =>
    ∃ m, a.Sem n x m ∧ y = (m.1, setCap m.2 i (x.1.take (x.1.length - m.1.length)))
  | .bol, x, y => y = x ∧ x.1.length = n
  | .eol, x, y => y = x ∧ x.1 = []

/-- Line terminators of ECMAScript: LF, CR, LS, PS. -/
def isLineTerminator (ch : Char) : Bool :=
  ch.toNat == 0x0A || ch.toNat == 0x0D || ch.toNat == 0x2028 || ch.toNat == 0x2029

/-- The class `.` (without the `s` flag): anything but a line terminator. -/
def isDot (ch : Char) : Bool := !isLineTerminator ch

/-- The class `\d`. -/
def isDigit (ch : Char) : Bool := decide (48 ≤ ch.toNat ∧ ch.toNat ≤ 57)

/-- The class `\s`: white space and line terminators. -/
def isSpace (ch : Char) : Bool :=
  ch.toNat == 0x09 || ch.toNat == 0x0A || ch.toNat == 0x0B || ch.toNat == 0x0C ||
  ch.toNat == 0x0D || ch.toNat == 0x20 || ch.toNat == 0xA0 || ch.toNat == 0x1680 ||
  decide (0x2000 ≤ ch.toNat ∧ ch.toNat ≤ 0x200A) ||
  ch.toNat == 0x2028 || ch.toNat == 0x2029 || ch.toNat == 0x202F ||
  ch.toNat == 0x205F || ch.toNat == 0x3000 || ch.toNat == 0xFEFF

/-- The class `[a-zA-Z0-9_]`. -/
def isWord (ch : Char) : Bool :=
  decide (97 ≤ ch.toNat ∧ ch.toNat ≤ 122) || decide (65 ≤ ch.toNat ∧ ch.toNat ≤ 90) ||
  isDigit ch || ch == '_'

/-- The optional scheme `(https?:\/\/)?`, first group of every URL pattern. -/
def schemeOpt : Regex :=
  .opt (.group 1 (.cat [.lit "http".data, .opt (.chr 's'), .lit "://".data]))

/-- The pattern of `isValidYouTubeUrl`:
`/^(https?:\/\/)?(www\.)?(youtube\.com|youtu\.?be)\/.+$/`. -/
def youtubeRegex : Regex :=
  .cat [.bol,
    schemeOpt,
    .opt (.group 2 (.lit "www.".data)),
    .group 3 (.alt (.lit "youtube.com".data)
      (.cat [.lit "youtu".data, .opt (.chr '.'), .lit "be".data])),
    .chr '/',
    .plus (.cls isDot),
    .eol]

/-- Method `DownloadManager.isValidYouTubeUrl` of `downloadUtils.ts` (the
same text as in `downloadUtils.js`). -/
def isValidYouTubeUrl (url : String) : Bool :=
  if url = "" then false else youtubeRegex.test url

/-- The class `[a-zA-Z0-9_.-]` of the `twimg.com` pattern. -/
def isHostChar (ch : Char) : Bool := isWord ch || ch == '.' || ch == '-'

/-- The second class of the `twimg.com` pattern: letters, digits, `_`, `/`, `-`. -/
def isPathChar (ch : Char) : Bool := isWord ch || ch == '/' || ch == '-'

/-- The group `(twitter\.com|x\.com)`. -/
def twitterHost : Regex :=
  .group 3 (.alt (.lit "twitter.com".data) (.lit "x.com".data))

/-- The six patterns of `isValidTwitterUrl` in `downloadUtils.ts`, in source order. -/
def twitterRegexPatterns : List Regex :=
  [ -- /^(https?:\/\/)?(www\.)?(twitter\.com|x\.com)\/[a-zA-Z0-9_]+\/status\/\d+/
    .cat [.bol, schemeOpt, .opt (.group 2 (.lit "www.".data)), twitterHost,
      .chr '/', .plus (.cls isWord), .lit "/status/".data, .plus (.cls isDigit)],
    -- /^(https?:\/\/)?(video\.)?(twitter\.com|x\.com)\/[a-zA-Z0-9_]+\/videos?\/\d+/
    .cat [.bol, schemeOpt, .opt (.group 2 (.lit "video.".data)), twitterHost,
      .chr '/', .plus (.cls isWord), .lit "/video".data, .opt (.chr 's'), .chr '/',
      .plus (.cls isDigit)],
    -- /^(https?:\/\/)?(mobile\.)?(twitter\.com|x\.com)\/[a-zA-Z0-9_]+\/status\/\d+/
    .cat [.bol, schemeOpt, .opt (.group 2 (.lit "mobile.".data)), twitterHost,
      .chr '/', .plus (.cls isWord), .lit "/status/".data, .plus (.cls isDigit)],
    -- /^(https?:\/\/)?(www\.)?(twitter\.com|x\.com)\/[a-zA-Z0-9_]+\/status\/\d+\?.+/
    .cat [.bol, schemeOpt, .opt (.group 2 (.lit "www.".data)), twitterHost,
      .chr '/', .plus (.cls isWord), .lit "/status/".data, .plus (.cls isDigit),
      .chr '?', .plus (.cls isDot)],
    -- the `twimg.com` pattern: scheme, host characters, `.twimg.com`, optional path,
    -- `/vid/` or `/video/`, digits
    .cat [.bol, schemeOpt, .plus (.cls isHostChar), .chr '.',
      .group 2 (.lit "twimg.com".data),
      .opt (.group 3 (.cat [.chr '/', .plus (.cls isPathChar)])),
      .chr '/', .group 4 (.alt (.lit "vid".data) (.lit "video".data)), .chr '/',
      .plus (.cls isDigit)],
    -- /^(https?:\/\/)?(t\.co)\/[a-zA-Z0-9_]+$/
    .cat [.bol, schemeOpt, .group 2 (.lit "t.co".data), .chr '/',
      .plus (.cls isWord), .eol] ]

/-- Method `DownloadManager.isValidTwitterUrl` of `downloadUtils.ts`. -/
def isValidTwitterUrl (url : String) : Bool :=
  if url = "" then false else twitterRegexPatterns.any (fun regex => regex.test url)

/-! ## Numbers -/

/-- A JavaScript number: `NaN`, an infinity, or an exact rational value. -/
inductive JSNumber where
  | nan : JSNumber
  | inf (negative : Bool) : JSNumber
  | fin (q : ℚ) : JSNumber
  deriving DecidableEq

/-- Value of a decimal digit. -/
def digitValue (ch : Char) : Nat := ch.toNat - 48

/-- Value of a sequence of decimal digits. -/
def digitsValue (ds : List Char) : Nat :=
  ds.foldl (fun acc ch => 10 * acc + digitValue ch) 0

/-- A decimal literal as read from text: sign, the integer and fraction
digits read as one natural number, the number of fraction digits, and the
exponent. -/
structure DecimalLiteral where
  negative : Bool
  digits : Nat
  scale : Nat
  exponent : Int
  deriving DecidableEq

/-- The number denoted by a decimal literal. -/
def DecimalLiteral.value (d : DecimalLiteral) : ℚ :=
  (if d.negative then -1 else 1) * ((d.digits : ℚ) / 10 ^ d.scale) * 10 ^ d.exponent

/-- What `parseFloat` finds at the start of a text. -/
inductive NumericPrefix where
  | absent : NumericPrefix
  | infinity (negative : Bool) : NumericPrefix
  | decimal (d : DecimalLiteral) : NumericPrefix
  deriving DecidableEq

/-- The exponent part `e[+-]?\d+` of a decimal literal, 0 when there is none. -/
def exponentValue : List Char → Int
  | ch :: t =>
    if ch == 'e' || ch == 'E' then
      match t with
      | '-' :: ds => -(digitsValue (ds.takeWhile isDigit) : Int)
      | '+' :: ds => (digitsValue (ds.takeWhile isDigit) : Int)
      | ds => (digitsValue (ds.takeWhile isDigit) : Int)
    else 0
  | [] => 0

/-- The longest prefix, after leading white space, that is a decimal literal:
sign, then `Infinity` or digits, fraction and exponent. -/
def scanNumber (s : List Char) : NumericPrefix :=
  let s1 := s.dropWhile isSpace
  let neg := s1.head? == some '-'
  let s2 := match s1 with
    | '-' :: t => t
    | '+' :: t => t
    | _ => s1
  if "Infinity".data.isPrefixOf s2 then .infinity neg else
  let ip := s2.takeWhile isDigit
  let r1 := s2.dropWhile isDigit
  let fp := match r1 with
    | '.' :: t => t.takeWhile isDigit
    | _ => []
  let r2 := match r1 with
    | '.' :: t => t.dropWhile isDigit
    | _ => r1
  if ip = [] ∧ fp = [] then .absent else
  .decimal { negative := neg, digits := digitsValue (ip ++ fp), scale := fp.length,
             exponent := exponentValue r2 }

/-- The global function `parseFloat`; `NaN` when the text does not start with
a number. -/
def parseFloat (s : List Char) : JSNumber :=
  match scanNumber s with
  | .absent => .nan
  | .infinity negative => .inf negative
  | .decimal d => .fin d.value

/-! ## Main process: `src/main/downloadHandlers.ts` -/

/-- The options object `DownloadOptions`; an absent property is `none`. The
callback `onProgress` is not a field: its calls are recorded in `JobState`. -/
structure DownloadOptions where
  outputDir : Option String
  quality : Option String
  format : Option String

/-- What the handlers use of Node: `__dirname`, `os.platform()`, `os.homedir()`,
`path.join`, `fs.existsSync` and `fs.mkdirSync` (an error is the thrown message). -/
structure MainEnv where
  dirname : String
  platform : String
  homedir : String
  join : List String → String
  existsSync : String → Bool
  mkdirSync : String → Except String Unit

/-- Function `getYtDlpPath`. -/
def getYtDlpPath (env : MainEnv) : String :=
  let binDir := env.join [env.dirname, "..", "..", "bin"]
  let execName := if env.platform = "win32" then "yt-dlp.exe" else "yt-dlp"
  env.join [binDir, execName]

/-- Function `checkYtDlpInstalled`. -/
def checkYtDlpInstalled (env : MainEnv) : Bool :=
  env.existsSync (getYtDlpPath env)

/-- Effects on the outside world of the first phase of a job. -/
inductive MainEffect where
  | mkdir (dir : String) : MainEffect
  | spawn (command : String) (args : List String) : MainEffect
  deriving DecidableEq

/-- State of a job after the synchronous part of the promise executor: the
effects performed, in order, and the rejection if the promise is already
rejected (`none`: the process runs and the promise is pending). -/
structure Started where
  effects : List MainEffect
  rejected : Option String
  deriving DecidableEq

/-- Whether `spawn` was called. -/
def Started.spawned (st : Started) : Bool :=
  st.effects.any (fun e => match e with
    | .spawn _ _ => true
    | .mkdir _ => false)

/-- The argument vector of `getTwitterVideoInfo`. -/
def getTwitterVideoInfo.args (url : String) : List String :=
  ["--no-warnings", "--print", "id,title,uploader,duration,thumbnail",
   "--no-playlist", "--no-download", url]

/-- Function `getTwitterVideoInfo`, up to and including `spawn`. -/
def getTwitterVideoInfo.start (env : MainEnv) (url : String) : Started :=
  if url = "" then { effects := [], rejected := some "URL invalide" }
  else { effects := [.spawn (getYtDlpPath env) (getTwitterVideoInfo.args url)],
         rejected := none }

/-- The conditional expression `qualityOption` of `downloadTwitterVideo`. -/
def downloadTwitterVideo.qualityOption (quality : String) : String :=
  if quality = "best" then "bestvideo+bestaudio/best"
  else if quality = "high" then "bestvideo[height<=720]+bestaudio/best[height<=720]"
  else if quality = "medium" then "bestvideo[height<=480]+bestaudio/best[height<=480]"
  else "worstvideo+worstaudio/worst"

/-- The argument vector of `downloadTwitterVideo`. -/
def downloadTwitterVideo.args (qualityOption outputTemplate url : String) : List String :=
  ["--no-warnings", "-f", qualityOption, "-o", outputTemplate, "--no-playlist",
   "--write-info-json", url]

/-- The statement `if (!fs.existsSync(outputDir)) fs.mkdirSync(outputDir, ...)`
followed by `spawn(getYtDlpPath(), args)`. -/
def ensureDirThenSpawn (env : MainEnv) (outputDir : String) (args : List String) : Started :=
  if env.existsSync outputDir then
    { effects := [.spawn (getYtDlpPath env) args], rejected := none }
  else
    match env.mkdirSync outputDir with
    | .error message => { effects := [.mkdir outputDir], rejected := some message }
    | .ok _ =>
      { effects := [.mkdir outputDir, .spawn (getYtDlpPath env) args], rejected := none }

/-- Function `downloadTwitterVideo`, up to and including `spawn`. -/
def downloadTwitterVideo.start (env : MainEnv) (url : String) (options : DownloadOptions) :
    Started :=
  if url = "" then { effects := [], rejected := some "URL invalide" }
  else
    let outputDir := options.outputDir.getD (env.join [env.homedir, "Downloads"])
    let quality := options.quality.getD "best"
    let outputTemplate := env.join [outputDir, "twitter_%(id)s.%(ext)s"]
    ensureDirThenSpawn env outputDir
      (downloadTwitterVideo.args (downloadTwitterVideo.qualityOption quality) outputTemplate url)

/-- The conditional expression `qualityOption` of `extractYouTubeAudio`. -/
def extractYouTubeAudio.qualityOption (quality : String) : String :=
  if quality = "best" then "0"
  else if quality = "high" then "2"
  else if quality = "medium" then "5"
  else "9"

/-- The argument vector of `extractYouTubeAudio`. -/
def extractYouTubeAudio.args (format qualityOption outputTemplate url : String) : List String :=
  ["--no-warnings", "-x", "--audio-format", format, "--audio-quality", qualityOption,
   "-o", outputTemplate, "--no-playlist", "--write-info-json", url]

/-- Function `extractYouTubeAudio`, up to and including `spawn`. -/
def extractYouTubeAudio.start (env : MainEnv) (url : String) (options : DownloadOptions) :
    Started :=
  if url = "" then { effects := [], rejected := some "URL invalide" }
  else
    let outputDir := options.outputDir.getD (env.join [env.homedir, "Downloads"])
    let format := options.format.getD "mp3"
    let quality := options.quality.getD "medium"
    let outputTemplate := env.join [outputDir, "%(title)s.%(ext)s"]
    ensureDirThenSpawn env outputDir
      (extractYouTubeAudio.args format (extractYouTubeAudio.qualityOption quality)
        outputTemplate url)

/-- The pattern `/\[download\]\s+(\d+(?:\.\d+)?)%/` (`progressRegex`). -/
def progressRegex : Regex :=
  .cat [.lit "[download]".data, .plus (.cls isSpace),
    .group 1 (.cat [.plus (.cls isDigit), .opt (.cat [.chr '.', .plus (.cls isDigit)])]),
    .chr '%']

/-- The pattern `/\[download\] Destination: (.+)/`. -/
def destinationRegex : Regex :=
  .cat [.lit "[download] Destination: ".data, .group 1 (.plus (.cls isDot))]

/-- The variables of the promise executor that the event handlers update:
`stdout`, `stderr`, `outputFile`, and the arguments of the calls of
`onProgress` made so far, oldest first. -/
structure JobState where
  stdout : String
  stderr : String
  outputFile : Option String
  progress : List JSNumber
  deriving DecidableEq

/-- The variables right after `spawn`. -/
def JobState.init : JobState :=
  { stdout := "", stderr := "", outputFile := none, progress := [] }

/-- The condition `match && match[1]`: there is a match and its first group
is a non-empty string; the value is that group. -/
def truthyGroup1 (result : Option MatchResult) : Option (List Char) :=
  match result with
  | none => none
  | some res =>
    match res.caps 1 with
    | none => none
    | some g => if g = [] then none else some g

/-- The listener `process.stdout.on('data', ...)`, the same text in
`downloadTwitterVideo` and in `extractYouTubeAudio`. -/
def onStdoutData (st : JobState) (output : String) : JobState :=
  let st1 := { st with stdout := st.stdout ++ output }
  let st2 :=
    match truthyGroup1 (progressRegex.exec output) with
    | some g => { st1 with progress := st1.progress ++ [parseFloat g] }
    | none => st1
  match truthyGroup1 (destinationRegex.exec output) with
  | some g => { st2 with outputFile := some (String.mk g) }
  | none => st2

/-- The listener `process.stderr.on('data', ...)`. -/
def onStderrData (st : JobState) (data : String) : JobState :=
  { st with stderr := st.stderr ++ data }

/-- The job state after the stdout chunks `chunks` arrived in this order. -/
def feedStdout (st : JobState) (chunks : List String) : JobState :=
  chunks.foldl onStdoutData st

/-! ## Main process: `src/main/ipc.ts` -/

/-- A message `event.sender.send(channel, percent)` to the renderer. -/
structure ProgressMessage where
  channel : String
  percent : JSNumber
  deriving DecidableEq

/-- The `progressCallback` of the `download-twitter-video` handler. -/
def twitterProgressCallback (percent : JSNumber) : ProgressMessage :=
  { channel := "twitter-download-progress", percent := percent }

/-- The `progressCallback` of the `extract-youtube-audio` handler. -/
def youtubeProgressCallback (percent : JSNumber) : ProgressMessage :=
  { channel := "youtube-extract-progress", percent := percent }

/-- The environment after a successful `fs.mkdirSync(dir, { recursive: true })`:
the directory `dir` exists. -/
def MainEnv.afterMkdir (env : MainEnv) (dir : String) : MainEnv :=
  { env with existsSync := fun path => path = dir || env.existsSync path }

/-- The `download-twitter-video` handler up to `spawn`: it picks the output
directory, creates it, and calls `downloadTwitterVideo` with it. -/
def ipcDownloadTwitterVideo.start (env : MainEnv) (url : String) (options : DownloadOptions) :
    Started :=
  let outputDir :=
    match options.outputDir with
    | some dir => if dir = "" then env.join [env.homedir, "Downloads", "MultiTool", "twitter"]
                  else dir
    | none => env.join [env.homedir, "Downloads", "MultiTool", "twitter"]
  if env.existsSync outputDir then
    downloadTwitterVideo.start env url { options with outputDir := some outputDir }
  else
    match env.mkdirSync outputDir with
    | .error message => { effects := [.mkdir outputDir], rejected := some message }
    | .ok _ =>
      let inner := downloadTwitterVideo.start (env.afterMkdir outputDir) url
        { options with outputDir := some outputDir }
      { inner with effects := .mkdir outputDir :: inner.effects }

/-- The `extract-youtube-audio` handler up to `spawn`. -/
def ipcExtractYouTubeAudio.start (env : MainEnv) (url : String) (options : DownloadOptions) :
    Started :=
  let outputDir :=
    match options.outputDir with
    | some dir => if dir = "" then env.join [env.homedir, "Downloads", "MultiTool", "youtube"]
                  else dir
    | none => env.join [env.homedir, "Downloads", "MultiTool", "youtube"]
  if env.existsSync outputDir then
    extractYouTubeAudio.start env url { options with outputDir := some outputDir }
  else
    match env.mkdirSync outputDir with
    | .error message => { effects := [.mkdir outputDir], rejected := some message }
    | .ok _ =>
      let inner := extractYouTubeAudio.start (env.afterMkdir outputDir) url
        { options with outputDir := some outputDir }
      { inner with effects := .mkdir outputDir :: inner.effects }

/-! ## Renderer: `src/utils/downloadUtils.ts` -/

/-- The value returned on the channel `get-youtube-video-info`. -/
structure YoutubeVideoInfo where
  videoId : String
  title : String
  author : String
  duration : JSNumber
  deriving DecidableEq

/-- The value returned on the channel `get-twitter-video-info`. -/
structure TwitterVideoInfo where
  tweetId : String
  text : String
  author : String
  duration : JSNumber
  thumbnail : String
  deriving DecidableEq

/-- The `DownloadResult` of the main process (`downloadHandlers.ts`). -/
structure MainDownloadResult where
  filePath : String
  fileName : String
  size : Nat
  quality : String
  format : Option String
  deriving DecidableEq

/-- The `DownloadResult` of the renderer: the result of the main process and
the fields copied from the metadata. -/
structure DownloadResult where
  main : MainDownloadResult
  author : String
  tweetId : Option String
  text : Option String
  title : Option String
  duration : JSNumber
  deriving DecidableEq

/-- The main process as the renderer sees it through `ipcRenderer.invoke`, one
field per channel used by `DownloadManager`: the outcome of the call (an error
is the message of the rejection) and, for the two download channels, the
progress messages received while the call is pending. -/
structure IpcBridge where
  getYoutubeVideoInfo : String → Except String YoutubeVideoInfo
  getTwitterVideoInfo : String → Except String TwitterVideoInfo
  extractYoutubeAudio : String → DownloadOptions → List JSNumber × Except String MainDownloadResult
  downloadTwitterVideo : String → DownloadOptions → List JSNumber × Except String MainDownloadResult

/-- What a method of `DownloadManager` does, in order. -/
inductive RendererEffect where
  | invoke (channel : String) (url : String) (options : Option DownloadOptions) : RendererEffect
  | onInfoYoutube (info : YoutubeVideoInfo) : RendererEffect
  | onInfoTwitter (info : TwitterVideoInfo) : RendererEffect
  | subscribe (channel : String) : RendererEffect
  | onProgress (progress : JSNumber) : RendererEffect
  | unsubscribe (channel : String) : RendererEffect

/-- A run of an `async` method: its effects, and how the promise settles. -/
structure RendererRun where
  effects : List RendererEffect
  outcome : Except String DownloadResult

/-- The number of `ipcRenderer.invoke` calls among the effects. -/
def RendererRun.invokeCount (run : RendererRun) : Nat :=
  (run.effects.filter (fun e => match e with
    | .invoke _ _ _ => true
    | _ => false)).length

/-- Method `DownloadManager.extractYouTubeAudio` of `downloadUtils.ts`
(the callbacks are assumed not to throw). -/
def DownloadManager.extractYouTubeAudio (ipc : IpcBridge) (url : String)
    (options : DownloadOptions) : RendererRun :=
  let format := options.format.getD "mp3"
  let quality := options.quality.getD "medium"
  let outputDir := options.outputDir
  if !isValidYouTubeUrl url then
    { effects := [], outcome := .error "URL YouTube invalide" }
  else
    match ipc.getYoutubeVideoInfo url with
    | .error message =>
      { effects := [.invoke "get-youtube-video-info" url none], outcome := .error message }
    | .ok videoInfo =>
      let request : DownloadOptions :=
        { format := some format, quality := some quality, outputDir := outputDir }
      let before : List RendererEffect :=
        [.invoke "get-youtube-video-info" url none, .onInfoYoutube videoInfo,
         .subscribe "youtube-extract-progress",
         .invoke "extract-youtube-audio" url (some request)]
        ++ (ipc.extractYoutubeAudio url request).1.map .onProgress
      match (ipc.extractYoutubeAudio url request).2 with
      | .error message => { effects := before, outcome := .error message }
      | .ok result =>
        { effects := before ++ [.unsubscribe "youtube-extract-progress"],
          outcome := .ok { main := result, title := some videoInfo.title,
                           author := videoInfo.author, duration := videoInfo.duration,
                           tweetId := none, text := none } }

/-- Method `DownloadManager.downloadTwitterVideo` of `downloadUtils.ts`
(the callbacks are assumed not to throw). -/
def DownloadManager.downloadTwitterVideo (ipc : IpcBridge) (url : String)
    (options : DownloadOptions) : RendererRun :=
  let quality := options.quality.getD "best"
  let outputDir := options.outputDir
  if !isValidTwitterUrl url then
    { effects := [], outcome := .error "URL Twitter (X) invalide" }
  else
    match ipc.getTwitterVideoInfo url with
    | .error message =>
      { effects := [.invoke "get-twitter-video-info" url none], outcome := .error message }
    | .ok tweetInfo =>
      let request : DownloadOptions :=
        { format := none, quality := some quality, outputDir := outputDir }
      let before : List RendererEffect :=
        [.invoke "get-twitter-video-info" url none, .onInfoTwitter tweetInfo,
         .subscribe "twitter-download-progress",
         .invoke "download-twitter-video" url (some request)]
        ++ (ipc.downloadTwitterVideo url request).1.map .onProgress
      match (ipc.downloadTwitterVideo url request).2 with
      | .error message => { effects := before, outcome := .error message }
      | .ok result =>
        { effects := before ++ [.unsubscribe "twitter-download-progress"],
          outcome := .ok { main := result, author := tweetInfo.author,
                           tweetId := some tweetInfo.tweetId, text := some tweetInfo.text,
                           title := none, duration := tweetInfo.duration } }

/-! ## Quality tiers -/

/-- The four quality tiers of `DownloadOptions.quality`. -/
def qualityTiers : List String := ["best", "high", "medium", "low"]

/-- Rank of a tier, a higher rank for a higher quality: low 0, medium 1,
high 2, best 3. -/
def tierRank (quality : String) : Nat :=
  if quality = "best" then 3 else if quality = "high" then 2
  else if quality = "medium" then 1 else 0

/-! ## Shapes of URLs -/

/-- A URL made of an optional scheme `http://` or `https://`, an optional
`www.`, one of the given hosts, a `/` and a non-empty path whose characters
all satisfy `ok`. -/
def urlShape (hosts : List String) (ok : Char → Bool) (url : String) : Prop :=
  ∃ scheme ∈ ["", "http://", "https://"], ∃ www ∈ ["", "www."], ∃ host ∈ hosts,
    ∃ path : List Char, path ≠ [] ∧ (∀ ch ∈ path, ok ch = true) ∧
      url.data = scheme.data ++ (www.data ++ (host.data ++ '/' :: path))

/-- The shape of an accepted URL as the specification states it: the host is
exactly `youtube.com` or `youtu.be`, the path is any non-empty text. -/
def statedYouTubeShape (url : String) : Prop :=
  urlShape ["youtube.com", "youtu.be"] (fun _ => true) url

/-- The shape that the pattern of `isValidYouTubeUrl` describes: the host is
`youtube.com`, `youtu.be` or `youtube`, and the path is a non-empty text
without line terminator. -/
def acceptedYouTubeShape (url : String) : Prop :=
  urlShape ["youtube.com", "youtu.be", "youtube"] isDot url

/-! ## Kinds of download, sample values -/

/-- The two kinds of job of `DownloadManager`. -/
inductive DownloadKind where
  | youtubeAudio : DownloadKind
  | twitterVideo : DownloadKind
  deriving DecidableEq

/-- The validator that the method of this kind calls first. -/
def DownloadKind.validator : DownloadKind → String → Bool
  | .youtubeAudio => isValidYouTubeUrl
  | .twitterVideo => isValidTwitterUrl

/-- The method of `DownloadManager` for this kind. -/
def DownloadKind.run : DownloadKind → IpcBridge → String → DownloadOptions → RendererRun
  | .youtubeAudio => DownloadManager.extractYouTubeAudio
  | .twitterVideo => DownloadManager.downloadTwitterVideo

/-- The message of the error thrown for an invalid URL. -/
def DownloadKind.invalidUrlMessage : DownloadKind → String
  | .youtubeAudio => "URL YouTube invalide"
  | .twitterVideo => "URL Twitter (X) invalide"

/-- A Linux machine on which every directory exists. -/
def sampleEnv : MainEnv :=
  { dirname := "/opt/multitool/dist/main", platform := "linux", homedir := "/home/user",
    join := fun parts => "/".intercalate parts,
    existsSync := fun _ => true,
    mkdirSync := fun _ => .ok () }

/-- A main process in which every metadata request fails. -/
def sampleIpc : IpcBridge :=
  { getYoutubeVideoInfo := fun _ => .error "offline",
    getTwitterVideoInfo := fun _ => .error "offline",
    extractYoutubeAudio := fun _ _ => ([], .error "offline"),
    downloadTwitterVideo := fun _ _ => ([], .error "offline") }

/-- An options object without any property. -/
def noOptions : DownloadOptions := { outputDir := none, quality := none, format := none }

/-! ## Progress lines -/

/-- The progress event of one stdout chunk: the number passed to `onProgress`
by the listener for this chunk, if any. -/
def chunkPercent (output : String) : Option JSNumber :=
  (truthyGroup1 (progressRegex.exec output)).map parseFloat

/-- The text of an unsigned decimal numeral with integer digits `ip` and
fraction digits `fp` (no fraction when `fp` is empty). -/
def decimalNumeral (ip fp : List Char) : List Char :=
  ip ++ (if fp = [] then [] else '.' :: fp)

/-- The parts of a stdout chunk that holds one progress line of yt-dlp: text
before the marker `[download]` (such as a carriage return), white space, the
digits of the percentage, and the text after the `%` sign. -/
structure ProgressLine where
  before : List Char
  spaces : List Char
  intPart : List Char
  fracPart : List Char
  after : List Char

/-- The chunk as text. -/
def ProgressLine.text (l : ProgressLine) : String :=
  String.mk (l.before ++ ("[download]".data ++ (l.spaces ++
    (decimalNumeral l.intPart l.fracPart ++ '%' :: l.after))))

/-- The parts are what they are called: no `[` before the marker, at least
one white space character, at least one integer digit, digits only. -/
def ProgressLine.WellFormed (l : ProgressLine) : Prop :=
  (∀ z ∈ l.before, z ≠ '[') ∧ l.spaces ≠ [] ∧ (∀ z ∈ l.spaces, isSpace z = true) ∧
  l.intPart ≠ [] ∧ (∀ z ∈ l.intPart, isDigit z = true) ∧ (∀ z ∈ l.fracPart, isDigit z = true)

/-- The percentage printed on the line. -/
def ProgressLine.percent (l : ProgressLine) : ℚ :=
  (digitsValue (l.intPart ++ l.fracPart) : ℚ) / 10 ^ l.fracPart.length

/-- The chunk `\r[download]  50% of 10MiB`. -/
def sampleLineFifty : ProgressLine :=
  { before := "\r".data, spaces := "  ".data, intPart := "50".data, fracPart := [],
    after := " of 10MiB".data }

/-- The chunk `\r[download]  30.5% of 10MiB`, a lower percentage than the one before. -/
def sampleLineThirty : ProgressLine :=
  { before := "\r".data, spaces := "  ".data, intPart := "30".data, fracPart := "5".data,
    after := " of 10MiB".data }

/-! ## Main process: the `close` and `error` handlers of a download -/

/-- The call `str.includes(sub)`. -/
def includes (str sub : String) : Bool :=
  str.data.tails.any (fun t => sub.data.isPrefixOf t)

/-- The call `str.endsWith(sub)`. -/
def endsWith (str sub : String) : Bool :=
  sub.data.reverse.isPrefixOf str.data.reverse

/-- The exit code in a template literal: `null` or the decimal integer. -/
def codeText : Option Int → String
  | none => "null"
  | some code => toString code

/-- The fields of the parsed sidecar JSON that the handlers read, each as the
text that a template literal makes of it. -/
structure SidecarInfo where
  id : String
  ext : String
  title : String
  deriving DecidableEq

/-- What the `close` handlers use of Node: `fs.readdirSync`, `fs.readFileSync`,
`fs.statSync(..).size`, `path.basename`, and `JSON.parse` followed by the reads
of the fields (an error is the message of the exception thrown). -/
structure FsEnv where
  readdirSync : String → Except String (List String)
  readFileSync : String → Except String String
  statSync : String → Except String Nat
  basename : String → String
  parseInfo : String → Except String SidecarInfo

/-- Accesses to the file system made by a `close` handler. -/
inductive FsEffect where
  | readdir (dir : String) : FsEffect
  | readFile (path : String) : FsEffect
  | stat (path : String) : FsEffect
  deriving DecidableEq

/-- How a `close` handler settles the promise: the accesses to the file system
it made, in order, and the result or the message of the rejection. -/
structure Settled where
  effects : List FsEffect
  outcome : Except String MainDownloadResult

/-- The test `!outputFile`: `null` or the empty string. -/
def isFalsy (outputFile : Option String) : Bool :=
  match outputFile with
  | none => true
  | some path => path = ""

/-- The entries kept by `.filter(f => f.includes('.info.json'))`. -/
def infoFilesOf (entries : List String) : List String :=
  entries.filter (fun f => includes f ".info.json")

/-- The block `if (!outputFile) { ... }` of the `close` handlers: scan
`outputDir` for sidecar files and rebuild the output path from the first one.
The result is the new value of `outputFile`, or the exception thrown. -/
def sidecarFallback (env : MainEnv) (fs : FsEnv) (outputDir : String)
    (outputFile : Option String) (nameOf : SidecarInfo → String) :
    List FsEffect × Except String (Option String) :=
  if isFalsy outputFile then
    match fs.readdirSync outputDir with
    | .error message => ([.readdir outputDir], .error message)
    | .ok entries =>
      match infoFilesOf entries with
      | [] => ([.readdir outputDir], .ok outputFile)
      | first :: _ =>
        let infoFilePath := env.join [outputDir, first]
        match fs.readFileSync infoFilePath with
        | .error message => ([.readdir outputDir, .readFile infoFilePath], .error message)
        | .ok infoContent =>
          match fs.parseInfo infoContent with
          | .error message => ([.readdir outputDir, .readFile infoFilePath], .error message)
          | .ok info =>
            ([.readdir outputDir, .readFile infoFilePath],
              .ok (some (env.join [outputDir, nameOf info])))
  else ([], .ok outputFile)

/-- The `try` block of the `close` handlers after exit code 0: the sidecar
fallback, the test of `outputFile`, `fs.statSync` and `resolve`; an exception
is caught and rejected with the prefix `caught`. -/
def settleAfterExit (env : MainEnv) (fs : FsEnv) (outputDir : String)
    (outputFile : Option String) (nameOf : SidecarInfo → String) (caught : String)
    (quality : String) (format : Option String) : Settled :=
  match sidecarFallback env fs outputDir outputFile nameOf with
  | (effects, .error message) => { effects := effects, outcome := .error (caught ++ message) }
  | (effects, .ok resolved) =>
    if isFalsy resolved then
      { effects := effects, outcome := .error "Impossible de déterminer le fichier de sortie" }
    else
      match fs.statSync (resolved.getD "") with
      | .error message =>
        { effects := effects ++ [.stat (resolved.getD "")],
          outcome := .error (caught ++ message) }
      | .ok size =>
        { effects := effects ++ [.stat (resolved.getD "")],
          outcome := .ok { filePath := resolved.getD "", fileName := fs.basename (resolved.getD ""),
                           size := size, quality := quality, format := format } }

/-- The file name rebuilt by `downloadTwitterVideo`: `twitter_${info.id}.${info.ext}`. -/
def downloadTwitterVideo.nameOf (info : SidecarInfo) : String :=
  "twitter_" ++ info.id ++ "." ++ info.ext

/-- The listener `process.on('close', ...)` of `downloadTwitterVideo`. -/
def downloadTwitterVideo.onClose (env : MainEnv) (fs : FsEnv) (options : DownloadOptions)
    (st : JobState) (code : Option Int) : Settled :=
  let outputDir := options.outputDir.getD (env.join [env.homedir, "Downloads"])
  let quality := options.quality.getD "best"
  if code ≠ some 0 then
    { effects := [],
      outcome := .error ("Échec du téléchargement. Code: " ++ codeText code ++ ", Erreur: "
        ++ st.stderr) }
  else
    settleAfterExit env fs outputDir st.outputFile downloadTwitterVideo.nameOf
      "Erreur après le téléchargement: " quality none

/-- The file name rebuilt by `extractYouTubeAudio`: `${info.title}.${format}`. -/
def extractYouTubeAudio.nameOf (format : String) (info : SidecarInfo) : String :=
  info.title ++ "." ++ format

/-- The listener `process.on('close', ...)` of `extractYouTubeAudio`. -/
def extractYouTubeAudio.onClose (env : MainEnv) (fs : FsEnv) (options : DownloadOptions)
    (st : JobState) (code : Option Int) : Settled :=
  let outputDir := options.outputDir.getD (env.join [env.homedir, "Downloads"])
  let format := options.format.getD "mp3"
  let quality := options.quality.getD "medium"
  if code ≠ some 0 then
    { effects := [],
      outcome := .error ("Échec de l'extraction. Code: " ++ codeText code ++ ", Erreur: "
        ++ st.stderr) }
  else
    settleAfterExit env fs outputDir st.outputFile (extractYouTubeAudio.nameOf format)
      "Erreur après l'extraction: " quality (some format)

/-- The listener `process.on('error', ...)`, the same text in the three
functions and in the `get-youtube-video-info` handler: the message of the
rejection. -/
def onProcessError (message : String) : String :=
  "Erreur lors du lancement de yt-dlp: " ++ message

/-- The job state after the stderr chunks `chunks` arrived in this order. -/
def feedStderr (st : JobState) (chunks : List String) : JobState :=
  chunks.foldl onStderrData st

/-! ## Metadata: `getTwitterVideoInfo` and the `get-youtube-video-info` handler -/

/-- The variables `stdout` and `stderr` of a metadata request. -/
structure FetchState where
  stdout : String
  stderr : String
  deriving DecidableEq

/-- The listeners `process.stdout.on('data', ...)` of a metadata request. -/
def FetchState.onStdout (st : FetchState) (data : String) : FetchState :=
  { st with stdout := st.stdout ++ data }

/-- The listeners `process.stderr.on('data', ...)` of a metadata request. -/
def FetchState.onStderr (st : FetchState) (data : String) : FetchState :=
  { st with stderr := st.stderr ++ data }

/-- The method `trim`: white space and line terminators are removed at both ends. -/
def jsTrim (s : List Char) : List Char :=
  ((s.dropWhile isSpace).reverse.dropWhile isSpace).reverse

/-- The expression `stdout.trim().split('\n')`. -/
def outputLines (stdout : String) : List (List Char) :=
  (jsTrim stdout.data).splitOn '\n'

/-- The expression `field || fallback` on a destructured string, `none` being
`undefined`. -/
def orDefault (field : Option (List Char)) (fallback : String) : String :=
  match field with
  | none => fallback
  | some text => if text = [] then fallback else String.mk text

/-- The expression `parseFloat(duration) || 0`: `NaN` and 0 are falsy;
`parseFloat(undefined)` reads the text `undefined`. -/
def durationOrZero (field : Option (List Char)) : JSNumber :=
  match parseFloat (field.getD "undefined".data) with
  | .nan => .fin 0
  | .inf negative => .inf negative
  | .fin q => if q = 0 then .fin 0 else .fin q

/-- The argument vector of the `get-youtube-video-info` handler. -/
def getYoutubeVideoInfo.args (url : String) : List String :=
  ["--no-warnings", "--print", "id,title,uploader,duration", "--no-playlist", "--no-download",
   url]

/-- The `try` block of the `close` handler of `getTwitterVideoInfo`. -/
def getTwitterVideoInfo.parse (stdout : String) : TwitterVideoInfo :=
  let fields := outputLines stdout
  { tweetId := orDefault fields[0]? "unknown",
    text := orDefault fields[1]? "No title",
    author := orDefault fields[2]? "Unknown user",
    duration := durationOrZero fields[3]?,
    thumbnail := orDefault fields[4]? "" }

/-- The listener `process.on('close', ...)` of `getTwitterVideoInfo`. -/
def getTwitterVideoInfo.onClose (st : FetchState) (code : Option Int) :
    Except String TwitterVideoInfo :=
  if code ≠ some 0 then
    .error ("Échec de l'obtention des informations. Code: " ++ codeText code ++ ", Erreur: "
      ++ st.stderr)
  else .ok (getTwitterVideoInfo.parse st.stdout)

/-- The `try` block of the `close` handler of `get-youtube-video-info`. -/
def getYoutubeVideoInfo.parse (stdout : String) : YoutubeVideoInfo :=
  let fields := outputLines stdout
  { videoId := orDefault fields[0]? "unknown",
    title := orDefault fields[1]? "No title",
    author := orDefault fields[2]? "Unknown user",
    duration := durationOrZero fields[3]? }

/-- The listener `process.on('close', ...)` of `get-youtube-video-info`. -/
def getYoutubeVideoInfo.onClose (st : FetchState) (code : Option Int) :
    Except String YoutubeVideoInfo :=
  if code ≠ some 0 then
    .error ("Échec de l'obtention des informations YouTube. Erreur: " ++ st.stderr)
  else .ok (getYoutubeVideoInfo.parse st.stdout)

/-- The `get-youtube-video-info` handler up to `spawn`: no check at all. -/
def getYoutubeVideoInfo.start (env : MainEnv) (url : String) : Started :=
  { effects := [.spawn (getYtDlpPath env) (getYoutubeVideoInfo.args url)], rejected := none }

/-! ## Destination lines -/

/-- The marker of a destination line, `[download] Destination: `. -/
def destinationMarker : List Char := "[download] Destination: ".data

/-- The parts of a stdout chunk that contains the line
`[download] Destination: P`: the text before the line, the path `P`, and the
text after the line (empty, or starting with the line terminator). -/
structure DestinationChunk where
  before : List Char
  path : List Char
  after : List Char

/-- The chunk as text. -/
def DestinationChunk.text (d : DestinationChunk) : String :=
  String.mk (d.before ++ (destinationMarker ++ (d.path ++ d.after)))

/-- The parts are what they are called: the path is not empty and has no line
terminator, the line ends where the path ends, and the marker does not occur
at an earlier position of the chunk. -/
def DestinationChunk.WellFormed (d : DestinationChunk) : Prop :=
  d.path ≠ [] ∧ (∀ z ∈ d.path, isLineTerminator z = false) ∧
  (∀ a, d.after.head? = some a → isLineTerminator a = true) ∧
  (∀ i, i < d.before.length →
    ¬ destinationMarker <+: (d.before.drop i ++ (destinationMarker ++ (d.path ++ d.after))))

/-- The chunk `[twitter] 42: Downloading\n[download] Destination: /tmp/My clip (1).mp4\n`:
a path with spaces, after another line of yt-dlp. -/
def sampleDestination : DestinationChunk :=
  { before := "[twitter] 42: Downloading\n".data,
    path := "/tmp/My clip (1).mp4".data,
    after := "\n".data }

/-! ## Output templates -/

/-- A part of an output template of yt-dlp: literal text or a field `%(name)s`. -/
inductive TemplatePart where
  | text (s : String) : TemplatePart
  | field (name : String) : TemplatePart

/-- The template as it is written on the command line. -/
def templatePattern (parts : List TemplatePart) : String :=
  String.join (parts.map (fun part => match part with
    | .text s => s
    | .field name => "%(" ++ name ++ ")s"))

/-- The template with every field replaced by its value. -/
def templateFill (parts : List TemplatePart) (value : String → String) : String :=
  String.join (parts.map (fun part => match part with
    | .text s => s
    | .field name => value name))

/-- The template `twitter_%(id)s.%(ext)s` of `downloadTwitterVideo`. -/
def twitterTemplate : List TemplatePart :=
  [.text "twitter_", .field "id", .text ".", .field "ext"]

/-- The template `%(title)s.%(ext)s` of `extractYouTubeAudio`. -/
def audioTemplate : List TemplatePart :=
  [.field "title", .text ".", .field "ext"]

/-- The value of a field in the sidecar, the extension being given apart. -/
def sidecarField (info : SidecarInfo) (ext : String) (name : String) : String :=
  if name = "id" then info.id else if name = "title" then info.title
  else if name = "ext" then ext else ""

/-- A directory that holds one sidecar, of a clip with id 42 and title `My clip`;
every file has 1024 bytes. -/
def sampleFs : FsEnv :=
  { readdirSync := fun _ => .ok ["notes.txt", "twitter_42.info.json"],
    readFileSync := fun _ => .ok "\x7b\"id\": \"42\", \"ext\": \"mp4\", \"title\": \"My clip\"\x7d",
    statSync := fun _ => .ok 1024,
    basename := fun path => String.mk ((path.data.splitOn '/').getLastD []),
    parseInfo := fun _ => .ok { id := "42", ext := "mp4", title := "My clip" } }

/-- A job state in which the destination `/videos/twitter_42.mp4` was observed. -/
def sampleObserved : JobState :=
  { stdout := "", stderr := "", outputFile := some "/videos/twitter_42.mp4", progress := [] }

/-- The sample directory with the single entry `a.info.json.bak`. -/
def backupFs : FsEnv :=
  { sampleFs with readdirSync := fun _ => .ok ["a.info.json.bak"] }

/-- A directory without any sidecar, in which no file can be stat'ed. -/
def emptyFs : FsEnv :=
  { sampleFs with
    readdirSync := fun _ => .ok ["notes.txt"],
    statSync := fun _ => .error "ENOENT: no such file or directory" }

/-- A job state with the accumulated stderr text `ERROR: unsupported URL`. -/
def sampleFailed : JobState :=
  { stdout := "", stderr := "ERROR: unsupported URL", outputFile := none, progress := [] }

/-- The sample machine without the yt-dlp executable: every path exists but
the one of `getYtDlpPath`. -/
def missingBinaryEnv : MainEnv :=
  { sampleEnv with
    existsSync := fun path => path != "/opt/multitool/dist/main/../../bin/yt-dlp" }

/-- A metadata request that received `ERROR: unsupported URL` on stderr. -/
def sampleFetchFailed : FetchState :=
  { stdout := "", stderr := "ERROR: unsupported URL" }

/-! ## A download job as a sequence of process events -/

/-- An event of the child process seen by the listeners of a download. -/
inductive ProcessEvent where
  | stdout (data : String) : ProcessEvent
  | stderr (data : String) : ProcessEvent
  | error (message : String) : ProcessEvent
  | close (code : Option Int) : ProcessEvent

/-- Whether the listener of the event calls `resolve` or `reject`. -/
def ProcessEvent.isTerminal : ProcessEvent → Bool
  | .error _ => true
  | .close _ => true
  | _ => false

/-- Whether the event is a chunk of the standard output. -/
def ProcessEvent.isStdout : ProcessEvent → Bool
  | .stdout _ => true
  | _ => false

/-- What a job delivers to its caller: a call of `onProgress`, or the
settlement of the promise. -/
inductive Delivery where
  | progress (percent : JSNumber) : Delivery
  | outcome (result : Except String MainDownloadResult) : Delivery

/-- Whether the delivery is the settlement of the promise. -/
def Delivery.isOutcome : Delivery → Bool
  | .outcome _ => true
  | .progress _ => false

/-- A running job: the variables of the executor, whether the promise is
settled, and the deliveries made so far, oldest first. -/
structure JobRun where
  st : JobState
  settled : Bool
  deliveries : List Delivery

/-- The job right after `spawn`. -/
def JobRun.init : JobRun := { st := JobState.init, settled := false, deliveries := [] }

/-- One event: the listener of the event runs; `resolve` and `reject` have an
effect only on a promise that is not settled yet. The parameter `onClose` is
the `close` listener of the function (`downloadTwitterVideo.onClose` or
`extractYouTubeAudio.onClose` with their environment and options). -/
def JobRun.step (onClose : JobState → Option Int → Settled) (run : JobRun) :
    ProcessEvent → JobRun
  | .stdout data =>
    { run with
      st := onStdoutData run.st data,
      deliveries := run.deliveries ++
        ((onStdoutData run.st data).progress.drop run.st.progress.length).map .progress }
  | .stderr data => { run with st := onStderrData run.st data }
  | .error message =>
    if run.settled then run
    else { run with settled := true,
                    deliveries := run.deliveries ++ [.outcome (.error (onProcessError message))] }
  | .close code =>
    if run.settled then run
    else { run with settled := true,
                    deliveries := run.deliveries ++ [.outcome (onClose run.st code).outcome] }

/-- The job after the events `events`, in this order. -/
def JobRun.run (onClose : JobState → Option Int → Settled) (run : JobRun)
    (events : List ProcessEvent) : JobRun :=
  events.foldl (JobRun.step onClose) run

/-- The progress calls caused by the stdout chunks among the events. -/
def progressOf (events : List ProcessEvent) : List Delivery :=
  events.filterMap (fun e => match e with
    | .stdout data => (chunkPercent data).map .progress
    | _ => none)

/-- The settlement asked for by the listener of a terminal event that runs
with the variables `st`. -/
def outcomeOf (onClose : JobState → Option Int → Settled) (st : JobState) :
    ProcessEvent → Except String MainDownloadResult
  | .close code => (onClose st code).outcome
  | .error message => .error (onProcessError message)
  | _ => .error ""

/-! ## The installer: `scripts/install-dependencies.js` -/

/-- The platforms that have an entry in `ytdlpUrls`. -/
def ytdlpPlatforms : List String := ["win32", "darwin", "linux"]

/-- The constant `ytdlpPath` of `installYtDlp`, the file that the installer
writes: `none` when the platform has no entry in `ytdlpUrls`. -/
def installYtDlp.ytdlpPath (join : List String → String) (binDir platform : String) :
    Option String :=
  if platform ∈ ytdlpPlatforms then
    some (join [binDir, if platform = "win32" then "yt-dlp.exe" else "yt-dlp"])
  else none

/-! ## Preload bridge: `src/main/preload.ts` -/

/-- The constant `validInvokeChannels`. -/
def validInvokeChannels : List String :=
  ["is-dev", "check-ytdlp-installed", "get-twitter-video-info", "download-twitter-video",
   "get-youtube-video-info", "extract-youtube-audio", "get-default-output-dirs",
   "select-directory", "show-item-in-folder"]

/-- The constant `validOnChannels`. -/
def validOnChannels : List String :=
  ["ipc-example", "twitter-download-progress", "youtube-extract-progress"]

/-- A call that the bridge makes on Electron's `ipcRenderer`; `α` is the type
of the arguments (`unknown` in the source). -/
inductive BridgeCall (α : Type) where
  | send (channel : String) (args : List α) : BridgeCall α
  | on (channel : String) : BridgeCall α
  | once (channel : String) : BridgeCall α
  | invoke (channel : String) (args : List α) : BridgeCall α
  deriving DecidableEq

/-- Method `sendMessage` of the bridge. -/
def electronHandler.sendMessage {α : Type} (channel : String) (args : List α) : BridgeCall α :=
  .send channel args

/-- Method `on` of the bridge: the error thrown, or the call made. -/
def electronHandler.on {α : Type} (channel : String) : Except String (BridgeCall α) :=
  if !validOnChannels.contains channel then .error ("Canal IPC non autorisé: " ++ channel)
  else .ok (.on channel)

/-- Method `once` of the bridge: the error thrown, or the call made. -/
def electronHandler.once {α : Type} (channel : String) : Except String (BridgeCall α) :=
  if !validOnChannels.contains channel then .error ("Canal IPC non autorisé: " ++ channel)
  else .ok (.once channel)

/-- Method `invoke` of the bridge: the error thrown, or the call made. -/
def electronHandler.invoke {α : Type} (channel : String) (args : List α) :
    Except String (BridgeCall α) :=
  if !validInvokeChannels.contains channel then
    .error ("Canal IPC invoke non autorisé: " ++ channel)
  else .ok (.invoke channel args)

/-! ## Numbers of the renderer: doubles and their text -/

/-- The integer logarithm by repeated division, `fuel` bounding the steps. -/
def logFuel (b : Nat) : Nat → Nat → Nat
  | 0, _ => 0
  | fuel + 1, n => if n < b then 0 else logFuel b fuel (n / b) + 1

/-- The largest `l` with `b ^ l ≤ n` (0 when `n < b`), for `b ≥ 2`. -/
def floorLog (b n : Nat) : Nat := logFuel b n n

/-- The integer nearest to `a / b`, the even one on a tie. -/
def roundHalfEven (a b : Nat) : Nat :=
  if 2 * (a % b) < b then a / b
  else if b < 2 * (a % b) then a / b + 1
  else if a / b % 2 = 0 then a / b else a / b + 1

/-- The integer nearest to `a / b`, the larger one on a tie. -/
def roundHalfUp (a b : Nat) : Nat := (2 * a + b) / (2 * b)

/-- A non-negative rational `num / den`, with `den > 0`; the finite
non-negative numbers of the language are such rationals. -/
structure Frac where
  num : Nat
  den : Nat
  deriving DecidableEq

/-- The integer part (`Math.floor`). -/
def Frac.floor (v : Frac) : Nat := v.num / v.den

/-- Equality of the values. -/
def Frac.same (v w : Frac) : Bool := v.num * w.den == w.num * v.den

/-- The double nearest to the positive rational `a / b`, the one with an even
significand on a tie: the significand has 53 bits. Numbers below `2 ^ -1022`
are outside the model; a result of `2 ^ 1024` or more stands for `Infinity`. -/
def toDouble (a b : Nat) : Frac :=
  if a = 0 then { num := 0, den := 1 }
  else if b ≤ a then
    let l := floorLog 2 (a / b)
    if l ≤ 52 then { num := roundHalfEven (a * 2 ^ (52 - l)) b, den := 2 ^ (52 - l) }
    else { num := roundHalfEven a (b * 2 ^ (l - 52)) * 2 ^ (l - 52), den := 1 }
  else
    let k0 := floorLog 2 b - floorLog 2 a
    let k := if b ≤ a * 2 ^ k0 then k0 else k0 + 1
    { num := roundHalfEven (a * 2 ^ (52 + k)) b, den := 2 ^ (52 + k) }

/-- The position `n` of the decimal point of a positive number:
`10 ^ (n - 1) ≤ v < 10 ^ n`. -/
def decimalPoint (v : Frac) : Int :=
  if v.den ≤ v.num then ((floorLog 10 (v.num / v.den) + 1 : Nat) : Int)
  else
    let z0 := floorLog 10 v.den - floorLog 10 v.num
    let z := if v.den ≤ v.num * 10 ^ z0 then z0 else z0 + 1
    1 - (z : Int)

/-- The number `s * 10 ^ j`. -/
def scaleTen (s : Nat) (j : Int) : Frac :=
  if 0 ≤ j then { num := s * 10 ^ j.toNat, den := 1 } else { num := s, den := 10 ^ (-j).toNat }

/-- The integer part of `v / 10 ^ j`. -/
def floorScaled (v : Frac) (j : Int) : Nat :=
  if 0 ≤ j then v.num / (v.den * 10 ^ j.toNat) else v.num * 10 ^ (-j).toNat / v.den

/-- The integer `s` such that `s * 10 ^ j` converts to the double `v`, if there
is one: of the two integers around `v / 10 ^ j` the one whose number is closer
to `v` (`2 * v` is compared with `(lo + hi) * 10 ^ j`), the even one on a
tie. -/
def digitsAt (v : Frac) (j : Int) : Option Nat :=
  let lo := floorScaled v j
  let hi := lo + 1
  let cl := scaleTen lo j
  let ch := scaleTen hi j
  let okLo := lo ≠ 0 ∧ (toDouble cl.num cl.den).same v
  let okHi := (toDouble ch.num ch.den).same v
  let mid := scaleTen (lo + hi) j
  if okLo ∧ okHi then
    if 2 * v.num * mid.den < mid.num * v.den then some lo
    else if mid.num * v.den < 2 * v.num * mid.den then some hi
    else if lo % 2 = 0 then some lo else some hi
  else if okLo then some lo
  else if okHi then some hi
  else none

/-- The shortest digits of a positive double: the integer `s` and the
exponent `j` with the fewest digits of `s` such that `s * 10 ^ j` converts to
`v` (17 digits always do). -/
def shortestDigits (v : Frac) : Nat × Int :=
  let n := decimalPoint v
  ((List.range 17).findSome? (fun i =>
      (digitsAt v (n - ((i + 1 : Nat) : Int))).map (fun s => (s, n - ((i + 1 : Nat) : Int))))).getD
    (floorScaled v (n - 17), n - 17)

/-- The digits without the zeros at the end. -/
def stripZeros (digits : List Char) : List Char :=
  (digits.reverse.dropWhile (fun c => c = '0')).reverse

/-- The conversion of a finite non-negative number to a string
(`Number::toString`): an integer below `2 ^ 53` is written with all its digits;
otherwise the shortest digits are written, in the positional form while the
decimal point lies within 21 digits and not more than 6 zeros follow it, and
in the exponent form beyond. -/
def numberToString (v : Frac) : String :=
  if v.num = 0 then "0"
  else if v.num % v.den = 0 ∧ v.num / v.den < 2 ^ 53 then toString (v.num / v.den)
  else
    let sj := shortestDigits v
    let all := Nat.toDigits 10 sj.1
    let digits := stripZeros all
    let n : Int := sj.2 + (all.length : Int)
    let k : Int := (digits.length : Int)
    if k ≤ n ∧ n ≤ 21 then String.mk (digits ++ List.replicate (n - k).toNat '0')
    else if 0 < n ∧ n ≤ 21 then
      String.mk (digits.take n.toNat ++ '.' :: digits.drop n.toNat)
    else if -6 < n ∧ n ≤ 0 then
      String.mk ('0' :: '.' :: (List.replicate (-n).toNat '0' ++ digits))
    else
      let e := n - 1
      let sign := if 0 ≤ e then '+' else '-'
      let mantissa := if digits.length = 1 then digits else digits.take 1 ++ '.' :: digits.drop 1
      String.mk (mantissa ++ 'e' :: sign :: Nat.toDigits 10 e.natAbs)

/-! ## Formatting: `formatDuration` and `formatFileSize` -/

/-- The call `padStart(2, '0')` on a string. -/
def padStart2 (s : String) : String :=
  String.mk (List.replicate (2 - s.length) '0') ++ s

/-- Method `DownloadManager.formatDuration` on a non-negative integer: the
argument is the double that the integer denotes, the two divisions are
divisions of doubles, and the numbers are printed by `numberToString`. An
integer that converts to `2 ^ 1024` or more is `Infinity`, with the fields
`Infinity`, `NaN` and `NaN`. -/
def DownloadManager.formatDuration (seconds : Nat) : String :=
  let s := (toDouble seconds 1).floor
  if 1024 ≤ floorLog 2 s then "Infinity:NaN:NaN"
  else
    let hours := (toDouble s 3600).floor
    let minutes := (toDouble (s % 3600) 60).floor
    let secs := s % 60
    if hours > 0 then
      numberToString { num := hours, den := 1 } ++ ":" ++
        padStart2 (numberToString { num := minutes, den := 1 }) ++ ":" ++
        padStart2 (numberToString { num := secs, den := 1 })
    else
      numberToString { num := minutes, den := 1 } ++ ":" ++
        padStart2 (numberToString { num := secs, den := 1 })

/-- A number below 100 written with two decimal digits, a leading zero
included: the digits `n / 10` and `n % 10`. -/
def twoDigits (n : Nat) : String :=
  String.mk [Nat.digitChar (n / 10), Nat.digitChar (n % 10)]

/-- The constant `sizes` of `formatFileSize`. -/
def sizes : List String := ["Bytes", "KB", "MB", "GB"]

/-- Method `formatFileSize` (the same text in `DownloadManager`,
`ImageProcessor` and `VideoProcessor`) on an integer number of bytes: the
argument is the double that the integer denotes; `i` is the integer logarithm
in base 1024 (`Math.log` is taken as the exact logarithm); the quotient
`bytes / k ^ i` is exact; `toFixed(dm)` rounds it to the nearest multiple of
`10 ^ -dm`, the larger one on a tie, and throws for more than 100 digits;
`parseFloat` converts that decimal to a double, which `numberToString`
prints; an index outside `sizes` reads `undefined`; an integer that converts
to `2 ^ 1024` or more is `Infinity`, with the number `NaN`. -/
def DownloadManager.formatFileSize (bytes : Nat) (decimals : Int) : Except String String :=
  if bytes = 0 then .ok "0 Bytes"
  else
    let b := (toDouble bytes 1).floor
    let k := 1024
    let dm := if decimals < 0 then 0 else decimals.toNat
    let i := floorLog k b
    if dm > 100 then .error "toFixed() digits argument must be between 0 and 100"
    else if 1024 ≤ floorLog 2 b then .ok "NaN undefined"
    else
      .ok (numberToString (toDouble (roundHalfUp (b * 10 ^ dm) (k ^ i)) (10 ^ dm)) ++ " " ++
        (sizes[i]?).getD "undefined")

/-! ## PDF: `removePages` of `pdfUtils.js` -/

/-- A page of the document that `removePages` returns: a copy of a page of
the original, or the blank page that `save` of pdf-lib adds. -/
inductive PdfPage (α : Type) where
  | copy (page : α) : PdfPage α
  | blank : PdfPage α
  deriving DecidableEq

/-- The call `newPdf.copyPages(pdf, indices)` of pdf-lib: the pages at the
indices, in the order of the indices; an index outside the document throws. -/
def copyPages {α : Type} (pdf : List α) : List Nat → Except String (List α)
  | [] => .ok []
  | i :: rest =>
    match pdf[i]? with
    | none => .error "index out of range"
    | some page =>
      match copyPages pdf rest with
      | .error message => .error message
      | .ok pages => .ok (page :: pages)

/-- The call `newPdf.save()` of pdf-lib with its default options, on the
pages of the document: a document without pages gets one blank page. -/
def savePdf {α : Type} : List (PdfPage α) → List (PdfPage α)
  | [] => [.blank]
  | page :: rest => page :: rest

/-- Function `removePages`: the pages of the document that is returned, in
order. A document is the list of its pages; `getPageIndices` is
`0, ..., n - 1`; the copied pages are added in order and the document is
saved. -/
def removePages {α : Type} (pdf : List α) (pagesToRemove : List Int) :
    Except String (List (PdfPage α)) :=
  let pageIndices := List.range pdf.length
  let pagesToKeep := pageIndices.filter (fun index => !pagesToRemove.contains (Int.ofNat index))
  match copyPages pdf pagesToKeep with
  | .error message => .error message
  | .ok pages => .ok (savePdf (pages.map .copy))

/-- The pages of a document whose index is not in `pagesToRemove`, in the
order of the document, the first page having the index `start`. -/
def pagesKept {α : Type} (pagesToRemove : List Int) : Nat → List α → List α
  | _, [] => []
  | start, page :: rest =>
    if Int.ofNat start ∈ pagesToRemove then pagesKept pagesToRemove (start + 1) rest
    else page :: pagesKept pagesToRemove (start + 1) rest

/-! ## Analytics: `src/services/analyticsService.js` -/

/-- An element of `AnalyticsService.events`. -/
structure AnalyticsEvent where
  timestamp : Nat
  category : String
  action : String
  label : Option String
  value : Option Int
  deriving DecidableEq

/-- The fields of an `AnalyticsService`. -/
structure AnalyticsService where
  events : List AnalyticsEvent
  sessionStartTime : Nat
  isEnabled : Bool
  deriving DecidableEq

/-- The constructor; `now` is the value of `Date.now()`. -/
def AnalyticsService.new (now : Nat) : AnalyticsService :=
  { events := [], sessionStartTime := now, isEnabled := false }

/-- Method `trackEvent`; `now` is the value of `Date.now()`. -/
def AnalyticsService.trackEvent (svc : AnalyticsService) (now : Nat) (category action : String)
    (label : Option String) (value : Option Int) : AnalyticsService :=
  if !svc.isEnabled then svc
  else
    { svc with events := svc.events ++
        [{ timestamp := now, category := category, action := action, label := label,
           value := value }] }

/-- Method `setEnabled`, on the boolean `Boolean(enabled)`. -/
def AnalyticsService.setEnabled (svc : AnalyticsService) (now : Nat) (enabled : Bool) :
    AnalyticsService :=
  let svc1 := { svc with isEnabled := enabled }
  if svc1.isEnabled then svc1.trackEvent now "analytics" "enabled" none none else svc1

/-- Method `trackScreenView`. -/
def AnalyticsService.trackScreenView (svc : AnalyticsService) (now : Nat) (screenName : String) :
    AnalyticsService :=
  svc.trackEvent now "navigation" "screen_view" (some screenName) none

/-- Method `trackError`; the error object itself is not used by the method. -/
def AnalyticsService.trackError (svc : AnalyticsService) (now : Nat) (context : String)
    (isFatal : Bool) : AnalyticsService :=
  svc.trackEvent now "error" (if isFatal then "fatal" else "non_fatal") (some context) (some 0)

/-- Method `trackTiming`. -/
def AnalyticsService.trackTiming (svc : AnalyticsService) (now : Nat) (taskName : String)
    (timeMs : Int) : AnalyticsService :=
  svc.trackEvent now "timing" taskName none (some timeMs)

/-- Method `trackFeatureUse`; `params` is the text `JSON.stringify(params)`. -/
def AnalyticsService.trackFeatureUse (svc : AnalyticsService) (now : Nat)
    (featureName params : String) : AnalyticsService :=
  svc.trackEvent now "feature" featureName (some params) none

/-- Method `clearData`. -/
def AnalyticsService.clearData (svc : AnalyticsService) (now : Nat) : AnalyticsService :=
  { svc with events := [], sessionStartTime := now }

/-- A call of one of the five tracking methods, with its arguments. -/
inductive TrackCall where
  | trackEvent (category action : String) (label : Option String) (value : Option Int) :
      TrackCall
  | trackScreenView (screenName : String) : TrackCall
  | trackError (context : String) (isFatal : Bool) : TrackCall
  | trackTiming (taskName : String) (timeMs : Int) : TrackCall
  | trackFeatureUse (featureName params : String) : TrackCall
  deriving DecidableEq

/-- The service after a tracking call made at the time `now`. -/
def AnalyticsService.track (svc : AnalyticsService) (now : Nat) : TrackCall → AnalyticsService
  | .trackEvent category action label value => svc.trackEvent now category action label value
  | .trackScreenView screenName => svc.trackScreenView now screenName
  | .trackError context isFatal => svc.trackError now context isFatal
  | .trackTiming taskName timeMs => svc.trackTiming now taskName timeMs
  | .trackFeatureUse featureName params => svc.trackFeatureUse now featureName params

/-- The service after a sequence of tracking calls, each with its time. -/
def AnalyticsService.trackAll (svc : AnalyticsService) (calls : List (Nat × TrackCall)) :
    AnalyticsService :=
  calls.foldl (fun s c => s.track c.1 c.2) svc

/-! ## Registration of the IPC handlers: `src/main/ipc.ts` -/

/-- Electron's `ipcMain.handle(channel, listener)` on the list of the channels
that have a handler: a second handler for a channel throws. -/
def ipcMainHandle (registry : List String) (channel : String) : Except String (List String) :=
  if channel ∈ registry then
    .error ("Attempted to register a second handler for '" ++ channel ++ "'")
  else .ok (registry ++ [channel])

/-- The channels of the `ipcMain.handle` calls in the body of
`setupIpcHandlers`, in the order of the calls. -/
def setupIpcHandlers.channels : List String :=
  ["check-ytdlp-installed", "show-item-in-folder", "get-twitter-video-info",
   "download-twitter-video", "get-youtube-video-info", "extract-youtube-audio",
   "get-default-output-dirs", "select-directory"]

/-- The channels of the `ipcMain.handle` calls at the top level of the module,
which run when the module is loaded. -/
def moduleLevelChannels : List String := ["show-item-in-folder"]

/-- A run of `ipcMain.handle` calls in order, up to the first one that throws:
the registry at the end, and the error thrown if any. -/
def registerAll : List String → List String → List String × Option String
  | registry, [] => (registry, none)
  | registry, channel :: rest =>
    match ipcMainHandle registry channel with
    | .error message => (registry, some message)
    | .ok registry1 => registerAll registry1 rest

/-- The registry after the module is loaded, starting from `registry`. -/
def loadIpcModule (registry : List String) : List String × Option String :=
  registerAll registry moduleLevelChannels

/-- Function `setupIpcHandlers` on the registry `registry`. -/
def setupIpcHandlers (registry : List String) : List String × Option String :=
  registerAll registry setupIpcHandlers.channels

/-! ## Lemmas on the matcher -/

theorem run_cls_some {R : Type} (p : Char → Bool) (n : Nat) (s : List Char) (c : Caps)
    (k : Cont R) (r : R) :
    (Regex.cls p).run n s c k = some r ↔ ∃ x t, s = x :: t ∧ p x = true ∧ k t c = some r := by
  cases s with
  | nil => simp [Regex.run]
  | cons x t =>
    simp only [Regex.run]
    constructor
    · intro h
      by_cases hp : p x = true
      · rw [if_pos hp] at h
        exact ⟨x, t, rfl, hp, h⟩
      · rw [if_neg hp] at h
        cases h
    · rintro ⟨y, t2, heq, hy, hk⟩
      cases heq
      rw [if_pos hy]
      exact hk

theorem run_cls_cons {R : Type} (p : Char → Bool) (n : Nat) (x : Char) (t : List Char)
    (c : Caps) (k : Cont R) :
    (Regex.cls p).run n (x :: t) c k = if p x = true then k t c else none := rfl

theorem run_chr_some {R : Type} (ch : Char) (n : Nat) (s : List Char) (c : Caps)
    (k : Cont R) (r : R) :
    (Regex.chr ch).run n s c k = some r ↔ ∃ t, s = ch :: t ∧ k t c = some r := by
  unfold Regex.chr
  rw [run_cls_some]
  constructor
  · rintro ⟨x, t, rfl, hx, hk⟩
    exact ⟨t, by simp at hx; simp [hx], hk⟩
  · rintro ⟨t, rfl, hk⟩
    exact ⟨ch, t, rfl, by simp, hk⟩

theorem run_seq {R : Type} (a b : Regex) (n : Nat) (s : List Char) (c : Caps) (k : Cont R) :
    (Regex.seq a b).run n s c k = a.run n s c (fun s1 c1 => b.run n s1 c1 k) := rfl

theorem run_empty {R : Type} (n : Nat) (s : List Char) (c : Caps) (k : Cont R) :
    Regex.empty.run n s c k = k s c := rfl

theorem run_group {R : Type} (i : Nat) (a : Regex) (n : Nat) (s : List Char) (c : Caps)
    (k : Cont R) :
    (Regex.group i a).run n s c k =
      a.run n s c (fun s1 c1 => k s1 (setCap c1 i (s.take (s.length - s1.length)))) := rfl

theorem run_lit_some {R : Type} (w : List Char) (n : Nat) (s : List Char) (c : Caps)
    (k : Cont R) (r : R) :
    (Regex.lit w).run n s c k = some r ↔ ∃ t, s = w ++ t ∧ k t c = some r := by
  induction w generalizing s with
  | nil => simp [Regex.lit, Regex.run]
  | cons x w ih =>
    simp only [Regex.lit, run_seq, run_chr_some, ih]
    constructor
    · rintro ⟨t, rfl, t2, rfl, hk⟩
      exact ⟨t2, rfl, hk⟩
    · rintro ⟨t, rfl, hk⟩
      exact ⟨w ++ t, rfl, t, rfl, hk⟩

theorem run_alt_some {R : Type} (a b : Regex) (n : Nat) (s : List Char) (c : Caps)
    (k : Cont R) (r : R) :
    (Regex.alt a b).run n s c k = some r ↔
      a.run n s c k = some r ∨ (a.run n s c k = none ∧ b.run n s c k = some r) := by
  simp only [Regex.run]
  cases h : a.run n s c k <;> simp

theorem run_opt_some {R : Type} (a : Regex) (n : Nat) (s : List Char) (c : Caps)
    (k : Cont R) (r : R) :
    (Regex.opt a).run n s c k = some r ↔
      a.run n s c k = some r ∨ (a.run n s c k = none ∧ k s c = some r) := by
  unfold Regex.opt
  rw [run_alt_some, run_empty]

theorem run_eol_some {R : Type} (n : Nat) (s : List Char) (c : Caps) (k : Cont R) (r : R) :
    Regex.eol.run n s c k = some r ↔ s = [] ∧ k [] c = some r := by
  cases s <;> simp [Regex.run]

theorem run_bol_some {R : Type} (n : Nat) (s : List Char) (c : Caps) (k : Cont R) (r : R) :
    Regex.bol.run n s c k = some r ↔ s.length = n ∧ k s c = some r := by
  by_cases h : s.length = n <;> simp [Regex.run, h]

/-- A successful greedy repetition of a class consumed characters of the class. -/
theorem starLoop_cls_sound {R : Type} (p : Char → Bool) (n : Nat) (fuel : Nat)
    (s : List Char) (c : Caps) (k : Cont R) (r : R)
    (h : starLoop ((Regex.cls p).run n) fuel s c k = some r) :
    ∃ w t, s = w ++ t ∧ (∀ x ∈ w, p x = true) ∧ k t c = some r := by
  induction fuel generalizing s with
  | zero => exact ⟨[], s, rfl, by simp, h⟩
  | succ fuel ih =>
    simp only [starLoop] at h
    split at h
    · rename_i r1 h1
      cases h
      rw [run_cls_some] at h1
      obtain ⟨x, t, rfl, hx, hk⟩ := h1
      simp only [List.length_cons, Nat.lt_succ_self, if_true] at hk
      obtain ⟨w, t2, rfl, hw, hk2⟩ := ih t hk
      refine ⟨x :: w, t2, rfl, ?_, hk2⟩
      intro y hy
      rcases List.mem_cons.mp hy with rfl | hy
      · exact hx
      · exact hw y hy
    · exact ⟨[], s, rfl, by simp, h⟩

theorem run_star_cls_sound {R : Type} (p : Char → Bool) (n : Nat) (s : List Char) (c : Caps)
    (k : Cont R) (r : R) (h : (Regex.star (.cls p)).run n s c k = some r) :
    ∃ w t, s = w ++ t ∧ (∀ x ∈ w, p x = true) ∧ k t c = some r :=
  starLoop_cls_sound p n s.length s c k r h

theorem run_plus_cls_sound {R : Type} (p : Char → Bool) (n : Nat) (s : List Char) (c : Caps)
    (k : Cont R) (r : R) (h : (Regex.plus (.cls p)).run n s c k = some r) :
    ∃ x w t, s = x :: (w ++ t) ∧ p x = true ∧ (∀ y ∈ w, p y = true) ∧ k t c = some r := by
  unfold Regex.plus at h
  rw [run_seq, run_cls_some] at h
  obtain ⟨x, t, rfl, hx, hk⟩ := h
  obtain ⟨w, t2, rfl, hw, hk2⟩ := run_star_cls_sound p n t c k r hk
  exact ⟨x, w, t2, rfl, hx, hw, hk2⟩

/-- The greedy repetition of a class succeeds as soon as the continuation
succeeds after some run of characters of the class. -/
theorem starLoop_cls_complete {R : Type} (p : Char → Bool) (n : Nat) (w t : List Char)
    (c : Caps) (k : Cont R) (fuel : Nat) (hw : ∀ x ∈ w, p x = true)
    (hk : (k t c).isSome = true) :
    (starLoop ((Regex.cls p).run n) fuel (w ++ t) c k).isSome = true ∨ fuel < w.length := by
  induction w generalizing fuel with
  | nil =>
    left
    cases fuel with
    | zero => exact hk
    | succ fuel =>
      simp only [starLoop, List.nil_append]
      split
      · rfl
      · exact hk
  | cons x w ih =>
    cases fuel with
    | zero => right; simp
    | succ fuel =>
      have hx : p x = true := hw x (List.mem_cons_self x w)
      rcases ih fuel (fun y hy => hw y (List.mem_cons_of_mem x hy)) with h1 | h1
      · left
        simp only [starLoop, List.cons_append, run_cls_cons, hx, if_true, List.length_cons,
          Nat.lt_succ_self]
        split
        · rfl
        · rename_i h2
          rw [h2] at h1
          simp at h1
      · right
        simp only [List.length_cons]
        omega

theorem run_plus_cls_complete {R : Type} (p : Char → Bool) (n : Nat) (x : Char)
    (w t : List Char) (c : Caps) (k : Cont R) (hx : p x = true) (hw : ∀ y ∈ w, p y = true)
    (hk : (k t c).isSome = true) :
    ((Regex.plus (.cls p)).run n (x :: (w ++ t)) c k).isSome = true := by
  unfold Regex.plus
  rw [run_seq, run_cls_cons, if_pos hx]
  rcases starLoop_cls_complete p n w t c k (w ++ t).length hw hk with h | h
  · exact h
  · simp at h

/-- Soundness of the greedy loop, given soundness of one iteration. -/
theorem starLoop_sound {R : Type} (a : Regex) (n : Nat)
    (iha : ∀ (s : List Char) (c : Caps) (k : Cont R) (res : R), a.run n s c k = some res →
      ∃ s1 c1, a.Sem n (s, c) (s1, c1) ∧ k s1 c1 = some res)
    (fuel : Nat) (s : List Char) (c : Caps) (k : Cont R) (res : R)
    (h : starLoop (a.run n) fuel s c k = some res) :
    ∃ s1 c1, (Regex.star a).Sem n (s, c) (s1, c1) ∧ k s1 c1 = some res := by
  induction fuel generalizing s c with
  | zero => exact ⟨s, c, Relation.ReflTransGen.refl, h⟩
  | succ fuel ih =>
    simp only [starLoop] at h
    split at h
    · rename_i r1 h1
      cases h
      obtain ⟨s1, c1, hsem, hk⟩ := iha s c _ _ h1
      by_cases hlt : s1.length < s.length
      · rw [if_pos hlt] at hk
        obtain ⟨s2, c2, hstar, hk2⟩ := ih s1 c1 hk
        exact ⟨s2, c2, Relation.ReflTransGen.head ⟨hsem, hlt⟩ hstar, hk2⟩
      · rw [if_neg hlt] at hk
        cases hk
    · exact ⟨s, c, Relation.ReflTransGen.refl, h⟩

/-- Soundness of the matcher: a successful run matched the expression and then
ran the continuation successfully. -/
theorem run_sound {R : Type} (r : Regex) (n : Nat) (s : List Char) (c : Caps) (k : Cont R)
    (res : R) (h : r.run n s c k = some res) :
    ∃ s1 c1, r.Sem n (s, c) (s1, c1) ∧ k s1 c1 = some res := by
  induction r generalizing s c k res with
  | empty => exact ⟨s, c, rfl, h⟩
  | cls p =>
    rw [run_cls_some] at h
    obtain ⟨x, t, rfl, hx, hk⟩ := h
    exact ⟨t, c, ⟨x, rfl, hx, rfl⟩, hk⟩
  | seq a b iha ihb =>
    rw [run_seq] at h
    obtain ⟨s1, c1, h1, hk⟩ := iha s c _ res h
    obtain ⟨s2, c2, h2, hk2⟩ := ihb s1 c1 _ res hk
    exact ⟨s2, c2, ⟨(s1, c1), h1, h2⟩, hk2⟩
  | alt a b iha ihb =>
    rw [run_alt_some] at h
    rcases h with h | ⟨_, h⟩
    · obtain ⟨s1, c1, h1, hk⟩ := iha s c _ res h
      exact ⟨s1, c1, Or.inl h1, hk⟩
    · obtain ⟨s1, c1, h1, hk⟩ := ihb s c _ res h
      exact ⟨s1, c1, Or.inr h1, hk⟩
  | star a iha =>
    exact starLoop_sound a n (fun s c k res h => iha s c k res h) s.length s c k res h
  | group i a iha =>
    rw [run_group] at h
    obtain ⟨s1, c1, h1, hk⟩ := iha s c _ res h
    exact ⟨s1, _, ⟨(s1, c1), h1, rfl⟩, hk⟩
  | bol =>
    rw [run_bol_some] at h
    exact ⟨s, c, ⟨rfl, h.1⟩, h.2⟩
  | eol =>
    rw [run_eol_some] at h
    obtain ⟨rfl, hk⟩ := h
    exact ⟨[], c, ⟨rfl, rfl⟩, hk⟩

/-- A match never lengthens the rest of the input. -/
theorem Sem_length_le (r : Regex) (n : Nat) (x y : Config) (h : r.Sem n x y) :
    y.1.length ≤ x.1.length := by
  induction r generalizing x y with
  | empty => cases h; exact le_refl _
  | cls p =>
    obtain ⟨ch, h1, _, _⟩ := h
    rw [h1]; simp
  | seq a b iha ihb =>
    obtain ⟨m, h1, h2⟩ := h
    exact le_trans (ihb m y h2) (iha x m h1)
  | alt a b iha ihb =>
    rcases h with h | h
    · exact iha x y h
    · exact ihb x y h
  | star a _ =>
    induction h with
    | refl => exact le_refl _
    | tail _ hstep ih => exact le_trans (le_of_lt hstep.2) ih
  | group i a iha =>
    obtain ⟨m, h1, rfl⟩ := h
    exact iha x m h1
  | bol => cases h.1; exact le_refl _
  | eol => cases h.1; exact le_refl _

/-- Completeness of the greedy loop, given completeness of one iteration. -/
theorem starLoop_complete {R : Type} (a : Regex) (n : Nat)
    (iha : ∀ (x y : Config) (k : Cont R), a.Sem n x y → (k y.1 y.2).isSome = true →
      (a.run n x.1 x.2 k).isSome = true)
    (x y : Config) (k : Cont R) (h : (Regex.star a).Sem n x y)
    (hk : (k y.1 y.2).isSome = true) (fuel : Nat) (hfuel : x.1.length ≤ fuel) :
    (starLoop (a.run n) fuel x.1 x.2 k).isSome = true := by
  induction h using Relation.ReflTransGen.head_induction_on generalizing fuel with
  | refl =>
    cases fuel with
    | zero => exact hk
    | succ fuel =>
      simp only [starLoop]
      split
      · rfl
      · exact hk
  | head hstep hrest ih =>
    rename_i u v
    cases fuel with
    | zero =>
      have := hstep.2
      omega
    | succ fuel =>
      simp only [starLoop]
      have h1 := iha u v (fun s1 c1 =>
        if s1.length < u.1.length then starLoop (a.run n) fuel s1 c1 k else none) hstep.1
        (by simp only [if_pos hstep.2]; exact ih fuel (by have := hstep.2; omega))
      split
      · rfl
      · rename_i h2
        rw [h2] at h1
        cases h1

/-- Completeness of the matcher up to the choice of the result: when the
expression can match and the continuation then succeeds, the run succeeds. -/
theorem run_complete {R : Type} (r : Regex) (n : Nat) (x y : Config) (k : Cont R)
    (h : r.Sem n x y) (hk : (k y.1 y.2).isSome = true) :
    (r.run n x.1 x.2 k).isSome = true := by
  induction r generalizing x y k with
  | empty => cases h; exact hk
  | cls p =>
    obtain ⟨ch, h1, h2, h3⟩ := h
    rw [h1, run_cls_cons, if_pos h2, ← h3]
    exact hk
  | seq a b iha ihb =>
    obtain ⟨m, h1, h2⟩ := h
    rw [run_seq]
    exact iha x m _ h1 (ihb m y k h2 hk)
  | alt a b iha ihb =>
    simp only [Regex.run]
    split
    · rfl
    · rename_i h3
      rcases h with h | h
      · have := iha x y k h hk
        rw [h3] at this
        cases this
      · exact ihb x y k h hk
  | star a iha =>
    exact starLoop_complete a n (fun x y k h hk => iha x y k h hk) x y k h hk
      x.1.length (le_refl _)
  | group i a iha =>
    obtain ⟨m, h1, rfl⟩ := h
    rw [run_group]
    exact iha x m _ h1 hk
  | bol =>
    obtain ⟨rfl, h2⟩ := h
    simp only [Regex.run, h2, if_true]
    exact hk
  | eol =>
    obtain ⟨rfl, h2⟩ := h
    have : (Regex.eol.run n y.1 y.2 k) = k [] y.2 := by rw [h2]; rfl
    rw [this, ← h2]
    exact hk

theorem Sem_empty (n : Nat) (x y : Config) : Regex.empty.Sem n x y ↔ y = x := Iff.rfl

theorem Sem_seq (n : Nat) (a b : Regex) (x y : Config) :
    (Regex.seq a b).Sem n x y ↔ ∃ m, a.Sem n x m ∧ b.Sem n m y := Iff.rfl

theorem Sem_alt (n : Nat) (a b : Regex) (x y : Config) :
    (Regex.alt a b).Sem n x y ↔ a.Sem n x y ∨ b.Sem n x y := Iff.rfl

theorem Sem_group (n : Nat) (i : Nat) (a : Regex) (x y : Config) :
    (Regex.group i a).Sem n x y ↔
      ∃ m, a.Sem n x m ∧ y = (m.1, setCap m.2 i (x.1.take (x.1.length - m.1.length))) :=
  Iff.rfl

theorem Sem_bol (n : Nat) (x y : Config) : Regex.bol.Sem n x y ↔ y = x ∧ x.1.length = n :=
  Iff.rfl

theorem Sem_eol (n : Nat) (x y : Config) : Regex.eol.Sem n x y ↔ y = x ∧ x.1 = [] := Iff.rfl

theorem Sem_cat_nil (n : Nat) (x y : Config) : (Regex.cat []).Sem n x y ↔ y = x := Iff.rfl

theorem Sem_cat_cons (n : Nat) (a : Regex) (rest : List Regex) (x y : Config) :
    (Regex.cat (a :: rest)).Sem n x y ↔ ∃ m, a.Sem n x m ∧ (Regex.cat rest).Sem n m y :=
  Iff.rfl

theorem Sem_chr (n : Nat) (ch : Char) (x y : Config) :
    (Regex.chr ch).Sem n x y ↔ x.1 = ch :: y.1 ∧ y.2 = x.2 := by
  simp only [Regex.chr, Regex.Sem]
  constructor
  · rintro ⟨z, h1, h2, h3⟩
    simp at h2
    subst h2
    exact ⟨h1, h3⟩
  · rintro ⟨h1, h3⟩
    exact ⟨ch, h1, by simp, h3⟩

theorem Sem_lit (n : Nat) (w : List Char) (x y : Config) :
    (Regex.lit w).Sem n x y ↔ x.1 = w ++ y.1 ∧ y.2 = x.2 := by
  induction w generalizing x with
  | nil =>
    simp only [Regex.lit, Regex.Sem, List.nil_append]
    constructor
    · rintro rfl
      exact ⟨rfl, rfl⟩
    · rintro ⟨h1, h2⟩
      exact Prod.ext h1.symm h2
  | cons ch w ih =>
    rw [Regex.lit, Sem_seq]
    constructor
    · rintro ⟨m, h1, h2⟩
      rw [Sem_chr] at h1
      rw [ih] at h2
      exact ⟨by rw [h1.1, h2.1]; rfl, by rw [h2.2, h1.2]⟩
    · rintro ⟨h1, h2⟩
      refine ⟨(w ++ y.1, x.2), ?_, ?_⟩
      · rw [Sem_chr]
        exact ⟨h1, rfl⟩
      · rw [ih]
        exact ⟨rfl, h2⟩

theorem Sem_opt (n : Nat) (a : Regex) (x y : Config) :
    (Regex.opt a).Sem n x y ↔ a.Sem n x y ∨ y = x := Iff.rfl

theorem Sem_star_cls (n : Nat) (p : Char → Bool) (x y : Config) :
    (Regex.star (.cls p)).Sem n x y ↔
      ∃ w, x.1 = w ++ y.1 ∧ (∀ z ∈ w, p z = true) ∧ y.2 = x.2 := by
  simp only [Regex.Sem]
  constructor
  · intro h
    induction h using Relation.ReflTransGen.head_induction_on with
    | refl => exact ⟨[], rfl, by simp, rfl⟩
    | head hstep _ ih =>
      obtain ⟨⟨ch, h1, h2, h3⟩, _⟩ := hstep
      obtain ⟨w, h4, h5, h6⟩ := ih
      refine ⟨ch :: w, by rw [h1, h4]; rfl, ?_, by rw [h6, h3]⟩
      intro z hz
      rcases List.mem_cons.mp hz with rfl | hz
      · exact h2
      · exact h5 z hz
  · rintro ⟨w, h1, h2, h3⟩
    induction w generalizing x with
    | nil =>
      have : y = x := Prod.ext (by simpa using h1.symm) h3
      rw [this]
    | cons ch w ih =>
      refine Relation.ReflTransGen.head (b := (w ++ y.1, x.2)) ⟨⟨ch, h1, ?_, rfl⟩, ?_⟩ ?_
      · exact h2 ch (List.mem_cons_self ch w)
      · rw [h1]; simp
      · exact ih (w ++ y.1, x.2) rfl (fun z hz => h2 z (List.mem_cons_of_mem ch hz)) h3

theorem Sem_plus_cls (n : Nat) (p : Char → Bool) (x y : Config) :
    (Regex.plus (.cls p)).Sem n x y ↔
      ∃ ch w, x.1 = ch :: (w ++ y.1) ∧ p ch = true ∧ (∀ z ∈ w, p z = true) ∧ y.2 = x.2 := by
  unfold Regex.plus
  constructor
  · rintro ⟨m, ⟨ch, h1, h2, h3⟩, hstar⟩
    rw [Sem_star_cls] at hstar
    obtain ⟨w, h4, h5, h6⟩ := hstar
    exact ⟨ch, w, by rw [h1, h4], h2, h5, by rw [h6, h3]⟩
  · rintro ⟨ch, w, h1, h2, h3, h4⟩
    refine ⟨(w ++ y.1, x.2), ⟨ch, h1, h2, rfl⟩, ?_⟩
    rw [Sem_star_cls]
    exact ⟨w, rfl, h3, h4⟩

/-- A successful search found a match at some position of the input. -/
theorem searchFrom_some (r : Regex) (n : Nat) (s : List Char) (res : MatchResult)
    (h : r.searchFrom n s = some res) :
    ∃ pre t, s = pre ++ t ∧ r.matchHere n t = some res := by
  induction s with
  | nil => exact ⟨[], [], rfl, h⟩
  | cons ch t ih =>
    simp only [Regex.searchFrom] at h
    split at h
    · rename_i r1 h1
      cases h
      exact ⟨[], ch :: t, rfl, h1⟩
    · obtain ⟨pre, t2, rfl, h2⟩ := ih h
      exact ⟨ch :: pre, t2, rfl, h2⟩

/-- A match at a position is a match of the declarative semantics. -/
theorem matchHere_sound (r : Regex) (n : Nat) (s : List Char) (res : MatchResult)
    (h : r.matchHere n s = some res) :
    ∃ s1, r.Sem n (s, noCaps) (s1, res.caps) := by
  obtain ⟨s1, c1, hsem, hk⟩ := run_sound r n s noCaps _ res h
  cases hk
  exact ⟨s1, hsem⟩

theorem schemeOpt_sound (n : Nat) (x y : Config) (h : schemeOpt.Sem n x y) :
    ∃ scheme ∈ ["", "http://", "https://"], x.1 = scheme.data ++ y.1 := by
  unfold schemeOpt at h
  simp only [Sem_cat_cons, Sem_cat_nil, Sem_group, Sem_chr, Sem_lit, Sem_opt] at h
  rcases h with ⟨m2, ⟨m3, ⟨h1, _⟩, m4, h2, m5, ⟨h3, _⟩, rfl⟩, rfl⟩ | rfl
  · rcases h2 with ⟨h2, _⟩ | rfl
    · exact ⟨"https://", by simp, by rw [h1, h2, h3]; rfl⟩
    · exact ⟨"http://", by simp, by rw [h1, h3]; rfl⟩
  · exact ⟨"", by simp, rfl⟩

theorem youtubeRegex_sound (n : Nat) (s : List Char) (y : Config)
    (h : youtubeRegex.Sem n (s, noCaps) y) :
    s.length = n ∧
    ∃ scheme ∈ ["", "http://", "https://"], ∃ www ∈ ["", "www."],
      ∃ host ∈ ["youtube.com", "youtu.be", "youtube"],
      ∃ path : List Char, path ≠ [] ∧ (∀ ch ∈ path, isDot ch = true) ∧
        s = scheme.data ++ (www.data ++ (host.data ++ '/' :: path)) := by
  unfold youtubeRegex at h
  rw [Sem_cat_cons] at h
  obtain ⟨m, ⟨rfl, hn⟩, h⟩ := h
  rw [Sem_cat_cons] at h
  obtain ⟨m1, hscheme, h⟩ := h
  obtain ⟨scheme, hs, hscheme⟩ := schemeOpt_sound n _ _ hscheme
  simp only [Sem_cat_cons, Sem_cat_nil, Sem_alt, Sem_group, Sem_eol, Sem_chr, Sem_lit,
    Sem_opt, Sem_plus_cls] at h
  obtain ⟨m2, hwww, m3, ⟨m4, hhost, rfl⟩, m5, ⟨hslash, _⟩, m6, ⟨ch, w, hpath, hch, hw, _⟩,
    m7, ⟨rfl, hend⟩, _⟩ := h
  refine ⟨hn, scheme, hs, ?_⟩
  have hwww2 : ∃ www ∈ ["", "www."], m1.1 = www.data ++ m2.1 := by
    rcases hwww with ⟨m8, ⟨h1, _⟩, rfl⟩ | rfl
    · exact ⟨"www.", by simp, h1⟩
    · exact ⟨"", by simp, rfl⟩
  obtain ⟨www, hw2, hwww2⟩ := hwww2
  refine ⟨www, hw2, ?_⟩
  have hhost2 : ∃ host ∈ ["youtube.com", "youtu.be", "youtube"], m2.1 = host.data ++ m4.1 := by
    rcases hhost with ⟨h1, _⟩ | ⟨m8, ⟨h1, _⟩, m9, h2, m10, ⟨h3, _⟩, rfl⟩
    · exact ⟨"youtube.com", by simp, h1⟩
    · rcases h2 with ⟨h2, _⟩ | rfl
      · exact ⟨"youtu.be", by simp, by rw [h1, h2, h3]; rfl⟩
      · exact ⟨"youtube", by simp, by rw [h1, h3]; rfl⟩
  obtain ⟨host, hh, hhost2⟩ := hhost2
  refine ⟨host, hh, ch :: w, by simp, ?_, ?_⟩
  · intro z hz
    rcases List.mem_cons.mp hz with rfl | hz
    · exact hch
    · exact hw z hz
  · simp only at hscheme hslash hpath hend
    rw [hscheme, hwww2, hhost2, hslash, hpath, hend, List.append_nil]

theorem schemeOpt_complete (n : Nat) (scheme : String)
    (hs : scheme ∈ ["", "http://", "https://"]) (t : List Char) (c : Caps) :
    ∃ c1, schemeOpt.Sem n (scheme.data ++ t, c) (t, c1) := by
  unfold schemeOpt
  simp only [List.mem_cons, List.mem_singleton, List.not_mem_nil, or_false] at hs
  rcases hs with rfl | rfl | rfl
  · exact ⟨c, Or.inr rfl⟩
  · refine ⟨_, Or.inl ⟨(t, c), ?_, rfl⟩⟩
    simp only [Sem_cat_cons, Sem_cat_nil, Sem_chr, Sem_lit, Sem_opt]
    exact ⟨(':' :: '/' :: '/' :: t, c), ⟨rfl, rfl⟩, (':' :: '/' :: '/' :: t, c), Or.inr rfl,
      (t, c), ⟨rfl, rfl⟩, rfl⟩
  · refine ⟨_, Or.inl ⟨(t, c), ?_, rfl⟩⟩
    simp only [Sem_cat_cons, Sem_cat_nil, Sem_chr, Sem_lit, Sem_opt]
    exact ⟨('s' :: ':' :: '/' :: '/' :: t, c), ⟨rfl, rfl⟩, (':' :: '/' :: '/' :: t, c),
      Or.inl ⟨rfl, rfl⟩, (t, c), ⟨rfl, rfl⟩, rfl⟩

theorem youtubeRegex_complete (scheme www host : String) (path : List Char)
    (hs : scheme ∈ ["", "http://", "https://"]) (hw : www ∈ ["", "www."])
    (hh : host ∈ ["youtube.com", "youtu.be", "youtube"]) (hp : path ≠ [])
    (hdot : ∀ ch ∈ path, isDot ch = true) :
    ∃ c1, youtubeRegex.Sem (scheme.data ++ (www.data ++ (host.data ++ '/' :: path))).length
      (scheme.data ++ (www.data ++ (host.data ++ '/' :: path)), noCaps) ([], c1) := by
  obtain ⟨c1, h1⟩ := schemeOpt_complete
    (scheme.data ++ (www.data ++ (host.data ++ '/' :: path))).length scheme hs
    (www.data ++ (host.data ++ '/' :: path)) noCaps
  have h2 : ∃ c2, (Regex.opt (.group 2 (.lit "www.".data))).Sem
      (scheme.data ++ (www.data ++ (host.data ++ '/' :: path))).length
      (www.data ++ (host.data ++ '/' :: path), c1) (host.data ++ '/' :: path, c2) := by
    simp only [List.mem_cons, List.mem_singleton, List.not_mem_nil, or_false] at hw
    rcases hw with rfl | rfl
    · exact ⟨c1, Or.inr rfl⟩
    · refine ⟨_, Or.inl ⟨(host.data ++ '/' :: path, c1), ?_, rfl⟩⟩
      rw [Sem_lit]
      exact ⟨rfl, rfl⟩
  obtain ⟨c2, h2⟩ := h2
  have h3 : ∃ c3, (Regex.group 3 (.alt (.lit "youtube.com".data)
      (.cat [.lit "youtu".data, .opt (.chr '.'), .lit "be".data]))).Sem
      (scheme.data ++ (www.data ++ (host.data ++ '/' :: path))).length
      (host.data ++ '/' :: path, c2) ('/' :: path, c3) := by
    refine ⟨_, ('/' :: path, c2), ?_, rfl⟩
    simp only [List.mem_cons, List.mem_singleton, List.not_mem_nil, or_false] at hh
    rcases hh with rfl | rfl | rfl
    · left
      rw [Sem_lit]
      exact ⟨rfl, rfl⟩
    · right
      simp only [Sem_cat_cons, Sem_cat_nil, Sem_chr, Sem_lit, Sem_opt]
      exact ⟨('.' :: 'b' :: 'e' :: '/' :: path, c2), ⟨rfl, rfl⟩, ('b' :: 'e' :: '/' :: path, c2),
        Or.inl ⟨rfl, rfl⟩, ('/' :: path, c2), ⟨rfl, rfl⟩, rfl⟩
    · right
      simp only [Sem_cat_cons, Sem_cat_nil, Sem_chr, Sem_lit, Sem_opt]
      exact ⟨('b' :: 'e' :: '/' :: path, c2), ⟨rfl, rfl⟩, ('b' :: 'e' :: '/' :: path, c2),
        Or.inr rfl, ('/' :: path, c2), ⟨rfl, rfl⟩, rfl⟩
  obtain ⟨c3, h3⟩ := h3
  refine ⟨c3, ?_⟩
  unfold youtubeRegex
  rw [Sem_cat_cons]
  refine ⟨_, ⟨rfl, rfl⟩, ?_⟩
  rw [Sem_cat_cons]
  refine ⟨_, h1, ?_⟩
  rw [Sem_cat_cons]
  refine ⟨_, h2, ?_⟩
  rw [Sem_cat_cons]
  refine ⟨_, h3, ?_⟩
  simp only [Sem_cat_cons, Sem_cat_nil, Sem_eol, Sem_chr, Sem_plus_cls]
  refine ⟨(path, c3), ⟨rfl, rfl⟩, ([], c3), ?_, ([], c3), ⟨rfl, rfl⟩, rfl⟩
  cases path with
  | nil => exact absurd rfl hp
  | cons ch w =>
    exact ⟨ch, w, by simp, hdot ch (List.mem_cons_self ch w),
      fun z hz => hdot z (List.mem_cons_of_mem ch hz), rfl⟩

/-- The search succeeds when there is a match at the first position. -/
theorem searchFrom_of_matchHere (r : Regex) (n : Nat) (s : List Char)
    (h : (r.matchHere n s).isSome = true) : (r.searchFrom n s).isSome = true := by
  cases s with
  | nil => exact h
  | cons ch t =>
    simp only [Regex.searchFrom]
    split
    · rfl
    · rename_i h2
      rw [h2] at h
      cases h

/-- The pattern of `isValidYouTubeUrl` accepts exactly the URLs of the shape
`acceptedYouTubeShape`. -/
theorem isValidYouTubeUrl_iff (url : String) :
    isValidYouTubeUrl url = true ↔ acceptedYouTubeShape url := by
  constructor
  · intro h
    unfold isValidYouTubeUrl at h
    split at h
    · cases h
    · unfold Regex.test Regex.exec at h
      obtain ⟨res, hres⟩ := Option.isSome_iff_exists.mp h
      obtain ⟨pre, t, hsplit, hm⟩ := searchFrom_some _ _ _ _ hres
      obtain ⟨s1, hsem⟩ := matchHere_sound _ _ _ _ hm
      obtain ⟨hlen, hshape⟩ := youtubeRegex_sound _ _ _ hsem
      have hpre : pre = [] := by
        have := congrArg List.length hsplit
        rw [List.length_append] at this
        exact List.length_eq_zero.mp (by omega)
      rw [hpre, List.nil_append] at hsplit
      rw [← hsplit] at hshape
      exact hshape
  · rintro ⟨scheme, hs, www, hw, host, hh, path, hp, hdot, hurl⟩
    unfold isValidYouTubeUrl
    have hne : url ≠ "" := by
      intro h0
      rw [h0] at hurl
      have := congrArg List.length hurl
      simp at this
      omega
    rw [if_neg hne]
    unfold Regex.test Regex.exec
    apply searchFrom_of_matchHere
    rw [hurl]
    obtain ⟨c1, hsem⟩ := youtubeRegex_complete scheme www host path hs hw hh hp hdot
    exact run_complete youtubeRegex _ _ _ _ hsem rfl

/-! ## Quality mapping -/

/-- C1: for each quality tier `extractYouTubeAudio` passes to `--audio-quality`
exactly the code best 0, high 2, medium 5, low 9 (the sixth argument of every
spawned command, right after `--audio-quality`), and a strictly higher tier
maps to a strictly smaller numeric code. -/
theorem audio_quality_codes (env : MainEnv) (url : String) (options : DownloadOptions)
    (command : String) (args : List String)
    (h : MainEffect.spawn command args ∈ (extractYouTubeAudio.start env url options).effects) :
    args.take 6 = ["--no-warnings", "-x", "--audio-format", options.format.getD "mp3",
      "--audio-quality", extractYouTubeAudio.qualityOption (options.quality.getD "medium")]
    ∧ extractYouTubeAudio.qualityOption "best" = "0"
    ∧ extractYouTubeAudio.qualityOption "high" = "2"
    ∧ extractYouTubeAudio.qualityOption "medium" = "5"
    ∧ extractYouTubeAudio.qualityOption "low" = "9"
    ∧ (∀ q1 ∈ qualityTiers, ∀ q2 ∈ qualityTiers, tierRank q1 < tierRank q2 →
        digitsValue (extractYouTubeAudio.qualityOption q2).data <
          digitsValue (extractYouTubeAudio.qualityOption q1).data) := by
  refine ⟨?_, by decide, by decide, by decide, by decide, by decide⟩
  unfold extractYouTubeAudio.start at h
  split at h
  · simp at h
  · simp only [ensureDirThenSpawn] at h
    split at h
    · simp at h
      rw [h.2]; rfl
    · split at h
      · simp at h
      · simp at h
        rw [h.2]; rfl

/-- Witness of `audio_quality_codes`: with quality `high` on the sample machine. -/
theorem audio_quality_codes_witness :
    (extractYouTubeAudio.args "mp3" "2" "/music/%(title)s.%(ext)s"
        "https://youtu.be/abc").take 6 =
      ["--no-warnings", "-x", "--audio-format", "mp3", "--audio-quality", "2"] :=
  (audio_quality_codes sampleEnv "https://youtu.be/abc"
    { outputDir := some "/music", quality := some "high", format := none }
    (getYtDlpPath sampleEnv)
    (extractYouTubeAudio.args "mp3" "2" "/music/%(title)s.%(ext)s" "https://youtu.be/abc")
    (by decide)).1

/-- C2 as stated fails: the value `ultra` is outside the four tiers and is
mapped neither to the audio code 5 nor to the 480p selector. -/
theorem unknown_quality_not_medium :
    ¬ (∀ quality : String, quality ∉ qualityTiers →
        extractYouTubeAudio.qualityOption quality = "5" ∧
        downloadTwitterVideo.qualityOption quality =
          "bestvideo[height<=480]+bestaudio/best[height<=480]") := by
  intro h
  have h1 := (h "ultra" (by decide)).1
  revert h1
  decide

/-- C2, amended: every quality string outside the four tiers is mapped without
failure to the selector of the tier low, audio code 9 and
`worstvideo+worstaudio/worst`; an absent quality is replaced before the mapping
by `medium` in `extractYouTubeAudio` and by `best` in `downloadTwitterVideo`. -/
theorem unknown_quality_is_low (quality : String) (h : quality ∉ qualityTiers) :
    extractYouTubeAudio.qualityOption quality = "9"
    ∧ downloadTwitterVideo.qualityOption quality = "worstvideo+worstaudio/worst"
    ∧ (∀ (env : MainEnv) (url : String) (dir format : Option String),
        extractYouTubeAudio.start env url { outputDir := dir, quality := none, format := format }
          = extractYouTubeAudio.start env url
              { outputDir := dir, quality := some "medium", format := format })
    ∧ (∀ (env : MainEnv) (url : String) (dir format : Option String),
        downloadTwitterVideo.start env url { outputDir := dir, quality := none, format := format }
          = downloadTwitterVideo.start env url
              { outputDir := dir, quality := some "best", format := format }) := by
  simp only [qualityTiers, List.mem_cons, List.mem_singleton, List.not_mem_nil, or_false,
    not_or] at h
  obtain ⟨h1, h2, h3, _⟩ := h
  refine ⟨?_, ?_, fun _ _ _ _ => rfl, fun _ _ _ _ => rfl⟩
  · simp [extractYouTubeAudio.qualityOption, h1, h2, h3]
  · simp [downloadTwitterVideo.qualityOption, h1, h2, h3]

/-- Witness of `unknown_quality_is_low` at the value `ultra`. -/
theorem unknown_quality_is_low_witness :
    extractYouTubeAudio.qualityOption "ultra" = "9" ∧
    downloadTwitterVideo.qualityOption "ultra" = "worstvideo+worstaudio/worst" :=
  ⟨(unknown_quality_is_low "ultra" (by decide)).1,
   (unknown_quality_is_low "ultra" (by decide)).2.1⟩

/-- C3: the `-f` selector of `downloadTwitterVideo` (third argument, after `-f`)
is `bestvideo+bestaudio/best` for best, has the two alternatives
`bestvideo[height<=720]+bestaudio` and `best[height<=720]` for high, the two
alternatives with `height<=480` for medium, and is `worstvideo+worstaudio/worst`
for low; the four selectors are non-empty and pairwise distinct. -/
theorem video_quality_selectors :
    (∀ selector template url : String,
      (downloadTwitterVideo.args selector template url).take 3 =
        ["--no-warnings", "-f", selector])
    ∧ downloadTwitterVideo.qualityOption "best" = "bestvideo+bestaudio/best"
    ∧ (downloadTwitterVideo.qualityOption "high").data.splitOn '/' =
        ["bestvideo[height<=720]+bestaudio".data, "best[height<=720]".data]
    ∧ (downloadTwitterVideo.qualityOption "medium").data.splitOn '/' =
        ["bestvideo[height<=480]+bestaudio".data, "best[height<=480]".data]
    ∧ downloadTwitterVideo.qualityOption "low" = "worstvideo+worstaudio/worst"
    ∧ (∀ q ∈ qualityTiers, downloadTwitterVideo.qualityOption q ≠ "")
    ∧ (qualityTiers.map downloadTwitterVideo.qualityOption).Nodup := by
  refine ⟨fun _ _ _ => rfl, by decide, by decide, by decide, by decide, by decide, by decide⟩

/-! ## URL validation before any effect -/

/-- C4: when the validator of the kind returns false for the URL, the method of
`DownloadManager` performs no effect at all (no `invoke`) and rejects with the
invalid-URL error of the kind; both validators return false for the empty string. -/
theorem invalid_url_rejected_before_invoke (kind : DownloadKind) (ipc : IpcBridge)
    (url : String) (options : DownloadOptions) (h : kind.validator url = false) :
    (kind.run ipc url options).effects = []
    ∧ (kind.run ipc url options).invokeCount = 0
    ∧ (kind.run ipc url options).outcome = .error kind.invalidUrlMessage
    ∧ kind.validator "" = false := by
  cases kind
  · simp only [DownloadKind.validator] at h
    refine ⟨?_, ?_, ?_, by decide⟩ <;>
      simp [DownloadKind.run, DownloadManager.extractYouTubeAudio, h, RendererRun.invokeCount,
        DownloadKind.invalidUrlMessage]
  · simp only [DownloadKind.validator] at h
    refine ⟨?_, ?_, ?_, by decide⟩ <;>
      simp [DownloadKind.run, DownloadManager.downloadTwitterVideo, h, RendererRun.invokeCount,
        DownloadKind.invalidUrlMessage]

/-- Witness of `invalid_url_rejected_before_invoke`: a Vimeo URL given to the
YouTube method. -/
theorem invalid_url_rejected_before_invoke_witness :
    (DownloadKind.youtubeAudio.run sampleIpc "https://vimeo.com/1" noOptions).effects = [] :=
  (invalid_url_rejected_before_invoke .youtubeAudio sampleIpc "https://vimeo.com/1" noOptions
    (by decide)).1

/-- C5 as stated fails: `not a url` is not a valid Twitter URL, and
`getTwitterVideoInfo` and `downloadTwitterVideo` spawn the executable for it;
`https://vimeo.com/1` is not a valid YouTube URL, and `extractYouTubeAudio`
spawns the executable for it. -/
theorem main_process_spawns_for_invalid_url :
    isValidTwitterUrl "not a url" = false
    ∧ (getTwitterVideoInfo.start sampleEnv "not a url").spawned = true
    ∧ (getTwitterVideoInfo.start sampleEnv "not a url").rejected = none
    ∧ (downloadTwitterVideo.start sampleEnv "not a url" noOptions).spawned = true
    ∧ (ipcDownloadTwitterVideo.start sampleEnv "not a url" noOptions).spawned = true
    ∧ isValidYouTubeUrl "https://vimeo.com/1" = false
    ∧ (extractYouTubeAudio.start sampleEnv "https://vimeo.com/1" noOptions).spawned = true := by
  decide

/-- C5, amended: in the main process the only check on the URL is that it is not
empty. For the empty URL the three functions reject with `URL invalide` and
perform no effect, and the IPC handler does not spawn either; for every other
URL `getTwitterVideoInfo` spawns, and the two download functions spawn as soon
as the output directory exists or can be created. -/
theorem main_process_checks_only_emptiness (env : MainEnv) (url : String)
    (options : DownloadOptions) :
    getTwitterVideoInfo.start env "" = { effects := [], rejected := some "URL invalide" }
    ∧ downloadTwitterVideo.start env "" options =
        { effects := [], rejected := some "URL invalide" }
    ∧ extractYouTubeAudio.start env "" options =
        { effects := [], rejected := some "URL invalide" }
    ∧ (ipcDownloadTwitterVideo.start env "" options).spawned = false
    ∧ (ipcExtractYouTubeAudio.start env "" options).spawned = false
    ∧ ((getTwitterVideoInfo.start env url).spawned = true ↔ url ≠ "")
    ∧ ((downloadTwitterVideo.start env url options).spawned = true ↔
        (url ≠ "" ∧ (env.existsSync (options.outputDir.getD (env.join [env.homedir, "Downloads"]))
          = true ∨ env.mkdirSync (options.outputDir.getD (env.join [env.homedir, "Downloads"]))
          = .ok ())))
    ∧ ((extractYouTubeAudio.start env url options).spawned = true ↔
        (url ≠ "" ∧ (env.existsSync (options.outputDir.getD (env.join [env.homedir, "Downloads"]))
          = true ∨ env.mkdirSync (options.outputDir.getD (env.join [env.homedir, "Downloads"]))
          = .ok ()))) := by
  refine ⟨by simp [getTwitterVideoInfo.start], by simp [downloadTwitterVideo.start],
    by simp [extractYouTubeAudio.start], ?_, ?_, ?_, ?_, ?_⟩
  · simp only [ipcDownloadTwitterVideo.start, downloadTwitterVideo.start]
    split
    · simp [Started.spawned]
    · split <;> simp [Started.spawned]
  · simp only [ipcExtractYouTubeAudio.start, extractYouTubeAudio.start]
    split
    · simp [Started.spawned]
    · split <;> simp [Started.spawned]
  · by_cases hu : url = "" <;> simp [getTwitterVideoInfo.start, hu, Started.spawned]
  · by_cases hu : url = ""
    · simp [downloadTwitterVideo.start, hu, Started.spawned]
    · simp only [downloadTwitterVideo.start, hu, ensureDirThenSpawn]
      cases hE : env.existsSync (options.outputDir.getD (env.join [env.homedir, "Downloads"]))
      · cases hm : env.mkdirSync (options.outputDir.getD (env.join [env.homedir, "Downloads"]))
          <;> simp [Started.spawned, hu]
      · simp [Started.spawned, hu]
  · by_cases hu : url = ""
    · simp [extractYouTubeAudio.start, hu, Started.spawned]
    · simp only [extractYouTubeAudio.start, hu, ensureDirThenSpawn]
      cases hE : env.existsSync (options.outputDir.getD (env.join [env.homedir, "Downloads"]))
      · cases hm : env.mkdirSync (options.outputDir.getD (env.join [env.homedir, "Downloads"]))
          <;> simp [Started.spawned, hu]
      · simp [Started.spawned, hu]

/-- C6 as stated fails: `youtube/abc` is accepted by `isValidYouTubeUrl`, and
its host is neither `youtube.com` nor `youtu.be`. -/
theorem youtube_host_not_exact :
    ¬ (∀ url : String, isValidYouTubeUrl url = true → statedYouTubeShape url) := by
  intro h
  have h1 := h "youtube/abc" (by decide)
  obtain ⟨scheme, hs, www, hw, host, hh, path, _, _, hurl⟩ := h1
  simp only [List.mem_cons, List.mem_singleton, List.not_mem_nil, or_false] at hs hw hh
  rcases hs with rfl | rfl | rfl <;> rcases hw with rfl | rfl <;> rcases hh with rfl | rfl <;>
    simp at hurl

/-- C6, amended: `isValidYouTubeUrl` returns false for the empty string, and it
accepts exactly the strings made of an optional `http://` or `https://`, an
optional `www.`, a host that is `youtube.com`, `youtu.be` or `youtube` (the dot
of `youtu.be` is optional in the pattern), a `/` and a non-empty path without
line terminator. -/
theorem youtube_url_shape :
    isValidYouTubeUrl "" = false ∧
    ∀ url : String, isValidYouTubeUrl url = true ↔ acceptedYouTubeShape url :=
  ⟨by decide, isValidYouTubeUrl_iff⟩

theorem take_length_sub (g t l : List Char) (h : l = g ++ t) :
    l.take (l.length - t.length) = g := by
  subst h
  simp

theorem progressRegex_sound (n : Nat) (s : List Char) (y : Config)
    (h : progressRegex.Sem n (s, noCaps) y) :
    ∃ ws ip fp, ws ≠ [] ∧ (∀ z ∈ ws, isSpace z = true) ∧ ip ≠ [] ∧
      (∀ z ∈ ip, isDigit z = true) ∧ (∀ z ∈ fp, isDigit z = true) ∧
      s = "[download]".data ++ (ws ++ (decimalNumeral ip fp ++ '%' :: y.1)) ∧
      y.2 1 = some (decimalNumeral ip fp) := by
  unfold progressRegex at h
  simp only [Sem_cat_cons, Sem_cat_nil, Sem_alt, Sem_group, Sem_eol, Sem_chr, Sem_lit,
    Sem_opt, Sem_plus_cls] at h
  obtain ⟨m, ⟨hs, _⟩, m1, ⟨sp, ws, hws, hsp, hws2, _⟩, m2,
    ⟨m3, ⟨m4, ⟨d, ds, hd, hd1, hds, _⟩, m5, hfrac, rfl⟩, rfl⟩, m6, ⟨hpct, hcap⟩, rfl⟩ := h
  have hall : ∀ (a : Char) (l : List Char) (p : Char → Bool), p a = true →
      (∀ z ∈ l, p z = true) → ∀ z ∈ a :: l, p z = true := by
    intro a l p ha hl z hz
    rcases List.mem_cons.mp hz with rfl | hz
    · exact ha
    · exact hl z hz
  rcases hfrac with ⟨m7, ⟨hdot, _⟩, m8, ⟨f, fs, hf, hf1, hfs, _⟩, rfl⟩ | rfl
  · refine ⟨sp :: ws, d :: ds, f :: fs, by simp, hall _ _ _ hsp hws2, by simp,
      hall _ _ _ hd1 hds, hall _ _ _ hf1 hfs, ?_, ?_⟩
    · simp only at hpct
      rw [hs, hws, hd, hdot, hf, hpct]
      simp [decimalNumeral]
    · rw [hcap]
      simp only at hpct
      simp only [setCap, if_true]
      rw [hd, hdot, hf]
      exact congrArg some (take_length_sub _ _ _ (by simp [decimalNumeral]))
  · refine ⟨sp :: ws, d :: ds, [], by simp, hall _ _ _ hsp hws2, by simp,
      hall _ _ _ hd1 hds, by simp, ?_, ?_⟩
    · simp only at hpct
      rw [hs, hws, hd, hpct]
      simp [decimalNumeral]
    · rw [hcap]
      simp only [setCap, if_true]
      rw [hd]
      exact congrArg some (take_length_sub _ _ _ (by simp [decimalNumeral]))

theorem isDigit_facts (ch : Char) (h : isDigit ch = true) :
    isSpace ch = false ∧ ch ≠ '-' ∧ ch ≠ '+' ∧ ch ≠ 'I' ∧ ch ≠ '.' := by
  simp only [isDigit, decide_eq_true_eq] at h
  refine ⟨?_, ?_, ?_, ?_, ?_⟩
  · simp only [isSpace, Bool.or_eq_false_iff, beq_eq_false_iff_ne, ne_eq,
      decide_eq_false_iff_not]
    omega
  all_goals
    rintro rfl
    revert h
    decide

theorem takeWhile_dropWhile_stop (p : Char → Bool) (w r : List Char)
    (hw : ∀ z ∈ w, p z = true) (hr : ∀ a, r.head? = some a → p a = false) :
    (w ++ r).takeWhile p = w ∧ (w ++ r).dropWhile p = r := by
  induction w with
  | nil =>
    cases r with
    | nil => simp
    | cons a t =>
      have := hr a rfl
      simp [List.takeWhile, List.dropWhile, this]
  | cons x w ih =>
    have hx := hw x (List.mem_cons_self x w)
    have ih2 := ih (fun z hz => hw z (List.mem_cons_of_mem x hz))
    simp [List.takeWhile, List.dropWhile, hx, ih2.1, ih2.2]

/-- `parseFloat` reads an unsigned decimal numeral as its decimal value. -/
theorem parseFloat_decimalNumeral (ip fp : List Char) (hip : ip ≠ [])
    (hdig : ∀ z ∈ ip, isDigit z = true) (hfdig : ∀ z ∈ fp, isDigit z = true) :
    parseFloat (decimalNumeral ip fp) =
      .fin ((digitsValue (ip ++ fp) : ℚ) / 10 ^ fp.length) := by
  cases ip with
  | nil => exact absurd rfl hip
  | cons d ds =>
    obtain ⟨h1, h2, h3, h4, h5⟩ := isDigit_facts d (hdig d (List.mem_cons_self d ds))
    have hscan : scanNumber (decimalNumeral (d :: ds) fp) =
        .decimal { negative := false, digits := digitsValue (d :: ds ++ fp),
                   scale := fp.length, exponent := 0 } := by
      have e0 : decimalNumeral (d :: ds) fp = d :: (ds ++ (if fp = [] then [] else '.' :: fp)) :=
        rfl
      have e1 : (d :: (ds ++ (if fp = [] then [] else '.' :: fp))).dropWhile isSpace =
          d :: (ds ++ (if fp = [] then [] else '.' :: fp)) := by
        simp [List.dropWhile, h1]
      have e2 : (match d :: (ds ++ (if fp = [] then [] else '.' :: fp)) with
          | '-' :: t => t
          | '+' :: t => t
          | _ => d :: (ds ++ (if fp = [] then [] else '.' :: fp))) =
          d :: (ds ++ (if fp = [] then [] else '.' :: fp)) := by
        split
        · rename_i heq
          exact absurd (List.cons.inj heq).1 h2
        · rename_i heq
          exact absurd (List.cons.inj heq).1 h3
        · rfl
      have e3 : List.isPrefixOf "Infinity".data
          (d :: (ds ++ (if fp = [] then [] else '.' :: fp))) = false := by
        have : ('I' == d) = false := by
          simp only [beq_eq_false_iff_ne, ne_eq]
          exact fun h => h4 h.symm
        simp [List.isPrefixOf, this]
      have e4 := takeWhile_dropWhile_stop isDigit (d :: ds) (if fp = [] then [] else '.' :: fp)
        hdig (by
          intro a ha
          by_cases hfp : fp = []
          · simp [hfp] at ha
          · simp [hfp] at ha
            subst ha
            decide)
      rw [List.cons_append] at e4
      unfold scanNumber
      rw [e0]
      simp only [e1, e2, e3, e4.1, e4.2]
      have e5 : ((d :: (ds ++ if fp = [] then [] else '.' :: fp)).head? == some '-') = false := by
        simp [h2]
      rw [e5]
      by_cases hfp : fp = []
      · subst hfp
        simp [exponentValue]
      · have e6 := takeWhile_dropWhile_stop isDigit fp [] hfdig (by simp)
        simp only [List.append_nil] at e6
        simp [hfp, e6.1, e6.2, exponentValue]
    unfold parseFloat
    rw [hscan]
    simp [DecimalLiteral.value]

/-- Every match of `progressRegex` captures an unsigned decimal numeral. -/
theorem progress_exec_sound (output : String) (res : MatchResult)
    (h : progressRegex.exec output = some res) :
    ∃ ip fp, ip ≠ [] ∧ (∀ z ∈ ip, isDigit z = true) ∧ (∀ z ∈ fp, isDigit z = true) ∧
      res.caps 1 = some (decimalNumeral ip fp) := by
  obtain ⟨pre, t, _, hm⟩ := searchFrom_some _ _ _ _ h
  obtain ⟨s1, hsem⟩ := matchHere_sound _ _ _ _ hm
  obtain ⟨ws, ip, fp, _, _, hip, hdig, hfdig, _, hcap⟩ := progressRegex_sound _ _ _ hsem
  exact ⟨ip, fp, hip, hdig, hfdig, hcap⟩

theorem decimalNumeral_ne_nil (ip fp : List Char) (hip : ip ≠ []) :
    decimalNumeral ip fp ≠ [] := by
  cases ip with
  | nil => exact absurd rfl hip
  | cons d ds => simp [decimalNumeral]

/-- The guard `match && match[1]` never drops a match of `progressRegex`. -/
theorem truthyGroup1_progress (output : String) (res : MatchResult)
    (h : progressRegex.exec output = some res) :
    ∃ g, res.caps 1 = some g ∧ g ≠ [] ∧ truthyGroup1 (progressRegex.exec output) = some g := by
  obtain ⟨ip, fp, hip, _, _, hcap⟩ := progress_exec_sound output res h
  refine ⟨decimalNumeral ip fp, hcap, decimalNumeral_ne_nil ip fp hip, ?_⟩
  rw [h]
  simp only [truthyGroup1, hcap]
  rw [if_neg (decimalNumeral_ne_nil ip fp hip)]

theorem onStdoutData_progress (st : JobState) (output : String) :
    (onStdoutData st output).progress = st.progress ++ (chunkPercent output).toList := by
  unfold onStdoutData chunkPercent
  cases h1 : truthyGroup1 (progressRegex.exec output) <;>
    cases h2 : truthyGroup1 (destinationRegex.exec output) <;> simp

theorem onStdoutData_outputFile (st : JobState) (output : String) :
    (onStdoutData st output).outputFile =
      match truthyGroup1 (destinationRegex.exec output) with
      | some g => some (String.mk g)
      | none => st.outputFile := by
  unfold onStdoutData
  cases h1 : truthyGroup1 (progressRegex.exec output) <;>
    cases h2 : truthyGroup1 (destinationRegex.exec output) <;> simp

theorem feedStdout_progress (st : JobState) (chunks : List String) :
    (feedStdout st chunks).progress = st.progress ++ chunks.filterMap chunkPercent := by
  induction chunks generalizing st with
  | nil => simp [feedStdout]
  | cons o rest ih =>
    have : feedStdout st (o :: rest) = feedStdout (onStdoutData st o) rest := rfl
    rw [this, ih, onStdoutData_progress]
    cases h : chunkPercent o <;> simp [List.filterMap_cons, h]

theorem parseFloat_42_5 : parseFloat "42.5".data = .fin 42.5 := by
  have h : scanNumber "42.5".data = .decimal ⟨false, 425, 1, 0⟩ := by decide
  unfold parseFloat
  rw [h]
  norm_num [DecimalLiteral.value]

/-- C7: for every stdout chunk (a single line in particular), if `progressRegex`
matches, the first group is a non-empty text `g` and `onProgress` is called
exactly once, with `parseFloat(g)`; if neither pattern matches, `onProgress` is
not called and `outputFile` is unchanged. On `[download]  42.5% of 10.00MiB`
the group is `42.5`, the value passed is 42.5 and `outputFile` is unchanged. -/
theorem progress_callback_single_line (st : JobState) (output : String) :
    (∀ res, progressRegex.exec output = some res →
      ∃ g, res.caps 1 = some g ∧ g ≠ [] ∧
        (onStdoutData st output).progress = st.progress ++ [parseFloat g])
    ∧ (progressRegex.exec output = none → destinationRegex.exec output = none →
        (onStdoutData st output).progress = st.progress ∧
        (onStdoutData st output).outputFile = st.outputFile)
    ∧ (progressRegex.exec "[download]  42.5% of 10.00MiB").map (fun res => res.caps 1) =
        some (some "42.5".data)
    ∧ (onStdoutData st "[download]  42.5% of 10.00MiB").progress = st.progress ++ [.fin 42.5]
    ∧ (onStdoutData st "[download]  42.5% of 10.00MiB").outputFile = st.outputFile := by
  refine ⟨?_, ?_, by decide, ?_, ?_⟩
  · intro res h
    obtain ⟨g, hcap, hne, ht⟩ := truthyGroup1_progress output res h
    refine ⟨g, hcap, hne, ?_⟩
    rw [onStdoutData_progress, chunkPercent, ht]
    rfl
  · intro h1 h2
    rw [onStdoutData_progress, onStdoutData_outputFile, chunkPercent, h1, h2]
    simp [truthyGroup1]
  · have h : truthyGroup1 (progressRegex.exec "[download]  42.5% of 10.00MiB") =
        some "42.5".data := by decide
    rw [onStdoutData_progress, chunkPercent, h, Option.map_some', parseFloat_42_5]
    rfl
  · have h : truthyGroup1 (destinationRegex.exec "[download]  42.5% of 10.00MiB") = none := by
      decide
    rw [onStdoutData_outputFile, h]

theorem parseFloat_10 : parseFloat "10".data = .fin 10 := by
  have h : scanNumber "10".data = .decimal ⟨false, 10, 0, 0⟩ := by decide
  unfold parseFloat
  rw [h]
  norm_num [DecimalLiteral.value]

theorem parseFloat_250 : parseFloat "250".data = .fin 250 := by
  have h : scanNumber "250".data = .decimal ⟨false, 250, 0, 0⟩ := by decide
  unfold parseFloat
  rw [h]
  norm_num [DecimalLiteral.value]

/-- C8 as stated fails: the line `[download]  10%` split into the chunks
`[downl` and `oad]  10%` yields no progress event, the same text in one chunk
yields one event with 10, and two matching lines in one chunk yield one event
only. -/
theorem progress_depends_on_chunking :
    ¬ (∀ chunks1 chunks2 : List String, String.join chunks1 = String.join chunks2 →
        (feedStdout JobState.init chunks1).progress =
          (feedStdout JobState.init chunks2).progress)
    ∧ (feedStdout JobState.init ["[downl", "oad]  10%\n"]).progress = []
    ∧ (feedStdout JobState.init ["[download]  10%\n"]).progress = [.fin 10]
    ∧ (feedStdout JobState.init ["[download]  10%\n[download]  20%\n"]).progress =
        [.fin 10] := by
  have h1 : chunkPercent "[downl" = none := by
    have : truthyGroup1 (progressRegex.exec "[downl") = none := by decide
    rw [chunkPercent, this]; rfl
  have h2 : chunkPercent "oad]  10%\n" = none := by
    have : truthyGroup1 (progressRegex.exec "oad]  10%\n") = none := by decide
    rw [chunkPercent, this]; rfl
  have h3 : chunkPercent "[download]  10%\n" = some (.fin 10) := by
    have : truthyGroup1 (progressRegex.exec "[download]  10%\n") = some "10".data := by decide
    rw [chunkPercent, this, Option.map_some', parseFloat_10]
  have h4 : chunkPercent "[download]  10%\n[download]  20%\n" = some (.fin 10) := by
    have : truthyGroup1 (progressRegex.exec "[download]  10%\n[download]  20%\n") =
        some "10".data := by decide
    rw [chunkPercent, this, Option.map_some', parseFloat_10]
  have e1 : (feedStdout JobState.init ["[downl", "oad]  10%\n"]).progress = [] := by
    rw [feedStdout_progress]
    simp [List.filterMap_cons, h1, h2, JobState.init]
  have e2 : (feedStdout JobState.init ["[download]  10%\n"]).progress = [.fin 10] := by
    rw [feedStdout_progress]
    simp [List.filterMap_cons, h3, JobState.init]
  refine ⟨?_, e1, e2, ?_⟩
  · intro h
    have h5 := h ["[downl", "oad]  10%\n"] ["[download]  10%\n"] (by decide)
    rw [e1, e2] at h5
    cases h5
  · rw [feedStdout_progress]
    simp [List.filterMap_cons, h4, JobState.init]

/-- Every progress event of a chunk is a non-negative number. -/
theorem chunkPercent_nonneg (output : String) (v : JSNumber)
    (h : chunkPercent output = some v) : ∃ q : ℚ, v = .fin q ∧ 0 ≤ q := by
  unfold chunkPercent at h
  cases hres : progressRegex.exec output with
  | none =>
    rw [hres] at h
    simp [truthyGroup1] at h
  | some res =>
    obtain ⟨ip, fp, hip, hdig, hfdig, hcap⟩ := progress_exec_sound output res hres
    rw [hres] at h
    simp only [truthyGroup1, hcap] at h
    rw [if_neg (decimalNumeral_ne_nil ip fp hip), Option.map_some',
      parseFloat_decimalNumeral ip fp hip hdig hfdig] at h
    cases h
    exact ⟨_, rfl, by positivity⟩

theorem progress_of_250 :
    (feedStdout JobState.init ["[download]  250%"]).progress = [.fin 250] := by
  have h : chunkPercent "[download]  250%" = some (.fin 250) := by
    have : truthyGroup1 (progressRegex.exec "[download]  250%") = some "250".data := by decide
    rw [chunkPercent, this, Option.map_some', parseFloat_250]
  rw [feedStdout_progress]
  simp [List.filterMap_cons, h, JobState.init]

/-- C9 as stated fails: on the stdout text `[download]  250%` the value passed
to the progress callback is 250, outside the interval from 0 to 100. -/
theorem progress_not_bounded_by_100 :
    ¬ (∀ chunks : List String, ∀ v ∈ (feedStdout JobState.init chunks).progress,
        ∃ q : ℚ, v = .fin q ∧ 0 ≤ q ∧ q ≤ 100) := by
  intro h
  obtain ⟨q, hq, _, hle⟩ := h ["[download]  250%"] (.fin 250)
    (by rw [progress_of_250]; exact List.mem_singleton.mpr rfl)
  injection hq with hq
  rw [← hq] at hle
  norm_num at hle

/-- C9, amended: for every stdout text, in any chunks, every value passed to
the progress callback is a number that is at least 0, never `NaN` and never
negative (the decimal value of the digits matched by the pattern); no upper
bound is enforced. -/
theorem progress_values_nonneg (chunks : List String) (v : JSNumber)
    (h : v ∈ (feedStdout JobState.init chunks).progress) :
    ∃ q : ℚ, v = .fin q ∧ 0 ≤ q := by
  rw [feedStdout_progress] at h
  simp only [JobState.init, List.nil_append, List.mem_filterMap] at h
  obtain ⟨o, _, ho⟩ := h
  exact chunkPercent_nonneg o v ho

/-- Witness of `progress_values_nonneg`: the value 250 of the chunk
`[download]  250%`. -/
theorem progress_values_nonneg_witness : ∃ q : ℚ, JSNumber.fin 250 = .fin q ∧ 0 ≤ q :=
  progress_values_nonneg ["[download]  250%"] (.fin 250)
    (by rw [progress_of_250]; exact List.mem_singleton.mpr rfl)

/-- The search skips a stretch of positions at which there is no match. -/
theorem searchFrom_skip (r : Regex) (n : Nat) (pre t : List Char)
    (h : ∀ z ∈ pre, ∀ u, r.matchHere n (z :: u) = none) :
    r.searchFrom n (pre ++ t) = r.searchFrom n t := by
  induction pre with
  | nil => rfl
  | cons z pre ih =>
    simp only [List.cons_append, Regex.searchFrom, h z (List.mem_cons_self z pre)]
    exact ih (fun y hy => h y (List.mem_cons_of_mem z hy))

/-- The search returns the match at the first position when there is one. -/
theorem searchFrom_head (r : Regex) (n : Nat) (s : List Char) (res : MatchResult)
    (h : r.matchHere n s = some res) : r.searchFrom n s = some res := by
  cases s with
  | nil => exact h
  | cons ch t => simp only [Regex.searchFrom, h]

/-- A match of `progressRegex` starts with `[`. -/
theorem progress_matchHere_none (n : Nat) (z : Char) (u : List Char) (hz : z ≠ '[') :
    progressRegex.matchHere n (z :: u) = none := by
  cases h : progressRegex.matchHere n (z :: u) with
  | none => rfl
  | some res =>
    exfalso
    obtain ⟨s1, hsem⟩ := matchHere_sound _ _ _ _ h
    obtain ⟨ws, ip, fp, _, _, _, _, _, hs, _⟩ := progressRegex_sound _ _ _ hsem
    exact hz (List.cons.inj hs).1

theorem decimalNumeral_cons (d : Char) (ds fp : List Char) :
    decimalNumeral (d :: ds) fp = d :: (ds ++ (if fp = [] then [] else '.' :: fp)) := rfl

/-- The two ways of reading a text as white space, numeral and `%` agree. -/
theorem numeral_unique (ws ws1 ip ip1 fp fp1 rest rest1 : List Char)
    (hws : ∀ z ∈ ws, isSpace z = true) (hws1 : ∀ z ∈ ws1, isSpace z = true)
    (hip : ip ≠ []) (hip1 : ip1 ≠ [])
    (hdig : ∀ z ∈ ip, isDigit z = true) (hdig1 : ∀ z ∈ ip1, isDigit z = true)
    (hf : ∀ z ∈ fp, isDigit z = true) (hf1 : ∀ z ∈ fp1, isDigit z = true)
    (h : ws ++ (decimalNumeral ip fp ++ '%' :: rest) =
      ws1 ++ (decimalNumeral ip1 fp1 ++ '%' :: rest1)) :
    decimalNumeral ip fp = decimalNumeral ip1 fp1 := by
  cases ip with
  | nil => exact absurd rfl hip
  | cons d ds =>
  cases ip1 with
  | nil => exact absurd rfl hip1
  | cons d1 ds1 =>
  have hd := isDigit_facts d (hdig d (List.mem_cons_self d ds))
  have hd1 := isDigit_facts d1 (hdig1 d1 (List.mem_cons_self d1 ds1))
  have a1 := takeWhile_dropWhile_stop isSpace ws (decimalNumeral (d :: ds) fp ++ '%' :: rest) hws
    (by intro a ha; simp [decimalNumeral_cons] at ha; rw [← ha]; exact hd.1)
  have a2 := takeWhile_dropWhile_stop isSpace ws1
    (decimalNumeral (d1 :: ds1) fp1 ++ '%' :: rest1) hws1
    (by intro a ha; simp [decimalNumeral_cons] at ha; rw [← ha]; exact hd1.1)
  have h2 : decimalNumeral (d :: ds) fp ++ '%' :: rest =
      decimalNumeral (d1 :: ds1) fp1 ++ '%' :: rest1 := by
    rw [← a1.2, h, a2.2]
  have hstop : ∀ (f r : List Char) (a : Char),
      ((if f = [] then [] else '.' :: f) ++ '%' :: r).head? = some a → isDigit a = false := by
    intro f r a ha
    by_cases hfe : f = []
    · simp [hfe] at ha
      subst ha
      decide
    · simp [hfe] at ha
      subst ha
      decide
  have b1 := takeWhile_dropWhile_stop isDigit (d :: ds)
    ((if fp = [] then [] else '.' :: fp) ++ '%' :: rest) hdig (hstop fp rest)
  have b2 := takeWhile_dropWhile_stop isDigit (d1 :: ds1)
    ((if fp1 = [] then [] else '.' :: fp1) ++ '%' :: rest1) hdig1 (hstop fp1 rest1)
  have h3 : (d :: ds) ++ ((if fp = [] then [] else '.' :: fp) ++ '%' :: rest) =
      (d1 :: ds1) ++ ((if fp1 = [] then [] else '.' :: fp1) ++ '%' :: rest1) := by
    simpa [decimalNumeral_cons] using h2
  have hip_eq : d :: ds = d1 :: ds1 := by rw [← b1.1, h3, b2.1]
  have hrest_eq : (if fp = [] then [] else '.' :: fp) ++ '%' :: rest =
      (if fp1 = [] then [] else '.' :: fp1) ++ '%' :: rest1 := by rw [← b1.2, h3, b2.2]
  have hfp_eq : fp = fp1 := by
    by_cases e : fp = [] <;> by_cases e1 : fp1 = []
    · rw [e, e1]
    · simp [e, e1] at hrest_eq
    · simp [e, e1] at hrest_eq
    · simp only [e, e1, if_false, List.cons_append, List.cons.injEq, true_and] at hrest_eq
      have c1 := takeWhile_dropWhile_stop isDigit fp ('%' :: rest) hf
        (by intro a ha; simp at ha; subst ha; decide)
      have c2 := takeWhile_dropWhile_stop isDigit fp1 ('%' :: rest1) hf1
        (by intro a ha; simp at ha; subst ha; decide)
      rw [← c1.1, hrest_eq, c2.1]
  rw [hip_eq, hfp_eq]

/-- A progress line has a match of `progressRegex` at its marker. -/
theorem progressRegex_complete (n : Nat) (ws ip fp rest : List Char) (hne : ws ≠ [])
    (hws : ∀ z ∈ ws, isSpace z = true) (hip : ip ≠ [])
    (hdig : ∀ z ∈ ip, isDigit z = true) (hf : ∀ z ∈ fp, isDigit z = true) :
    ∃ y, progressRegex.Sem n
      ("[download]".data ++ (ws ++ (decimalNumeral ip fp ++ '%' :: rest)), noCaps) y := by
  cases ws with
  | nil => exact absurd rfl hne
  | cons sp ws =>
  cases ip with
  | nil => exact absurd rfl hip
  | cons d ds =>
  have hsp := hws sp (List.mem_cons_self sp ws)
  have hws2 : ∀ z ∈ ws, isSpace z = true := fun z hz => hws z (List.mem_cons_of_mem sp hz)
  have hd := hdig d (List.mem_cons_self d ds)
  have hds : ∀ z ∈ ds, isDigit z = true := fun z hz => hdig z (List.mem_cons_of_mem d hz)
  unfold progressRegex
  simp only [Sem_cat_cons, Sem_cat_nil, Sem_alt, Sem_group, Sem_eol, Sem_chr, Sem_lit,
    Sem_opt, Sem_plus_cls]
  by_cases hfp : fp = []
  · subst hfp
    refine ⟨_, (sp :: ws ++ (decimalNumeral (d :: ds) [] ++ '%' :: rest), noCaps), ⟨rfl, rfl⟩,
      (decimalNumeral (d :: ds) [] ++ '%' :: rest, noCaps), ⟨sp, ws, rfl, hsp, hws2, rfl⟩,
      _, ⟨_, ⟨('%' :: rest, noCaps), ⟨d, ds, by simp [decimalNumeral], hd, hds, rfl⟩,
        ('%' :: rest, noCaps), Or.inr rfl, rfl⟩, rfl⟩, (rest, _), ⟨rfl, rfl⟩, rfl⟩
  · cases fp with
    | nil => exact absurd rfl hfp
    | cons f fs =>
    have hf0 := hf f (List.mem_cons_self f fs)
    have hfs : ∀ z ∈ fs, isDigit z = true := fun z hz => hf z (List.mem_cons_of_mem f hz)
    refine ⟨_, (sp :: ws ++ (decimalNumeral (d :: ds) (f :: fs) ++ '%' :: rest), noCaps),
      ⟨rfl, rfl⟩,
      (decimalNumeral (d :: ds) (f :: fs) ++ '%' :: rest, noCaps), ⟨sp, ws, rfl, hsp, hws2, rfl⟩,
      _, ⟨_, ⟨('.' :: f :: (fs ++ '%' :: rest), noCaps),
        ⟨d, ds, by simp [decimalNumeral], hd, hds, rfl⟩,
        ('%' :: rest, noCaps),
        Or.inl ⟨(f :: (fs ++ '%' :: rest), noCaps), ⟨rfl, rfl⟩, ('%' :: rest, noCaps),
          ⟨f, fs, rfl, hf0, hfs, rfl⟩, rfl⟩, rfl⟩, rfl⟩, (rest, _), ⟨rfl, rfl⟩, rfl⟩

/-- There is a match at a position where the expression can match. -/
theorem matchHere_complete (r : Regex) (n : Nat) (s : List Char) (y : Config)
    (h : r.Sem n (s, noCaps) y) : (r.matchHere n s).isSome = true :=
  run_complete r n (s, noCaps) y _ h rfl

/-- The progress event of a well-formed progress line is the percentage
printed on it. -/
theorem chunkPercent_line (l : ProgressLine) (h : l.WellFormed) :
    chunkPercent l.text = some (.fin l.percent) := by
  obtain ⟨hbefore, hne, hws, hip, hdig, hf⟩ := h
  have hskip := searchFrom_skip progressRegex l.text.data.length l.before
    ("[download]".data ++ (l.spaces ++ (decimalNumeral l.intPart l.fracPart ++ '%' :: l.after)))
    (fun z hz u => progress_matchHere_none _ z u (hbefore z hz))
  obtain ⟨y, hy⟩ := progressRegex_complete l.text.data.length l.spaces l.intPart l.fracPart
    l.after hne hws hip hdig hf
  have hsome := matchHere_complete progressRegex l.text.data.length _ y hy
  obtain ⟨res, hres⟩ := Option.isSome_iff_exists.mp hsome
  have hm : progressRegex.matchHere l.text.data.length
      ("[download]".data ++ (l.spaces ++
        (decimalNumeral l.intPart l.fracPart ++ '%' :: l.after))) = some res := hres
  have hexec : progressRegex.exec l.text = some res := by
    unfold Regex.exec
    have : l.text.data = l.before ++ ("[download]".data ++ (l.spaces ++
        (decimalNumeral l.intPart l.fracPart ++ '%' :: l.after))) := rfl
    rw [this] at hskip ⊢
    rw [hskip]
    exact searchFrom_head _ _ _ _ hm
  obtain ⟨s1, hsem⟩ := matchHere_sound _ _ _ _ hm
  obtain ⟨ws1, ip1, fp1, _, hws1, hip1, hdig1, hf1, hs, hcap⟩ := progressRegex_sound _ _ _ hsem
  have huniq := numeral_unique l.spaces ws1 l.intPart ip1 l.fracPart fp1 l.after s1
    hws hws1 hip hip1 hdig hdig1 hf hf1 (List.append_cancel_left hs)
  have hcap2 : res.caps 1 = some (decimalNumeral ip1 fp1) := hcap
  unfold chunkPercent
  rw [hexec]
  simp only [truthyGroup1, hcap2]
  rw [if_neg (decimalNumeral_ne_nil ip1 fp1 hip1), Option.map_some', ← huniq,
    parseFloat_decimalNumeral l.intPart l.fracPart hip hdig hf]
  rfl

/-- C8, amended: the stdout listener scans every chunk on its own, without
buffering. The progress events are, chunk by chunk and in order, the value of
the first match of the percent pattern inside that chunk, so that there is at
most one event per chunk whatever the number of lines in it; a progress line
that arrives whole in a chunk yields the event of its percentage. -/
theorem progress_is_per_chunk (st : JobState) (chunks : List String) :
    (feedStdout st chunks).progress = st.progress ++ chunks.filterMap chunkPercent
    ∧ (feedStdout st chunks).progress.length ≤ st.progress.length + chunks.length
    ∧ (∀ l : ProgressLine, l.WellFormed →
        (onStdoutData st l.text).progress = st.progress ++ [.fin l.percent]) := by
  refine ⟨feedStdout_progress st chunks, ?_, ?_⟩
  · rw [feedStdout_progress, List.length_append]
    exact Nat.add_le_add_left (List.length_filterMap_le _ _) _
  · intro l hl
    rw [onStdoutData_progress, chunkPercent_line l hl]
    rfl

theorem filterMap_chunkPercent_lines (lines : List ProgressLine)
    (h : ∀ l ∈ lines, l.WellFormed) :
    (lines.map ProgressLine.text).filterMap chunkPercent =
      lines.map (fun l => JSNumber.fin l.percent) := by
  induction lines with
  | nil => rfl
  | cons l rest ih =>
    rw [List.map_cons, List.filterMap_cons, chunkPercent_line l (h l (List.mem_cons_self l rest)),
      ih (fun x hx => h x (List.mem_cons_of_mem l hx))]
    rfl

/-- C10: when every stdout chunk holds one progress line (the marker
`[download]`, white space, a decimal percentage and `%`, with any text after it
and any text without `[` before it), the progress callback receives exactly the
printed percentages, one per chunk and in the order of the chunks, whether or
not a value is lower than an earlier one; the IPC handler forwards each of
them, in the same order, on `twitter-download-progress`. -/
theorem progress_forwarded_in_order (st : JobState) (lines : List ProgressLine)
    (h : ∀ l ∈ lines, l.WellFormed) :
    (feedStdout st (lines.map ProgressLine.text)).progress =
      st.progress ++ lines.map (fun l => JSNumber.fin l.percent)
    ∧ ((feedStdout JobState.init (lines.map ProgressLine.text)).progress.map
        twitterProgressCallback =
      lines.map (fun l =>
        { channel := "twitter-download-progress", percent := JSNumber.fin l.percent })) := by
  constructor
  · rw [feedStdout_progress, filterMap_chunkPercent_lines lines h]
  · rw [feedStdout_progress, filterMap_chunkPercent_lines lines h]
    simp [JobState.init, twitterProgressCallback]

/-- Witness of `progress_forwarded_in_order`: 50 then 30.5, a regression, is
forwarded as it is. -/
theorem progress_forwarded_in_order_witness :
    (feedStdout JobState.init
      ["\r[download]  50% of 10MiB", "\r[download]  30.5% of 10MiB"]).progress =
      [.fin 50, .fin 30.5] := by
  have h := (progress_forwarded_in_order JobState.init [sampleLineFifty, sampleLineThirty]
    (by
      intro l hl
      simp only [List.mem_cons, List.mem_singleton, List.not_mem_nil, or_false] at hl
      rcases hl with rfl | rfl <;> (unfold ProgressLine.WellFormed; decide))).1
  have e1 : sampleLineFifty.text = "\r[download]  50% of 10MiB" := by decide
  have e2 : sampleLineThirty.text = "\r[download]  30.5% of 10MiB" := by decide
  have v1 : sampleLineFifty.percent = 50 := by
    have : digitsValue (sampleLineFifty.intPart ++ sampleLineFifty.fracPart) = 50 := by decide
    unfold ProgressLine.percent
    rw [this]
    norm_num [sampleLineFifty]
  have v2 : sampleLineThirty.percent = 30.5 := by
    have : digitsValue (sampleLineThirty.intPart ++ sampleLineThirty.fracPart) = 305 := by
      decide
    unfold ProgressLine.percent
    rw [this]
    norm_num [sampleLineThirty]
  simp only [List.map_cons, List.map_nil, e1, e2, v1, v2] at h
  exact h

/-! ## Destination hint -/

theorem run_lit_append {R : Type} (w : List Char) (n : Nat) (t : List Char) (c : Caps)
    (k : Cont R) : (Regex.lit w).run n (w ++ t) c k = k t c := by
  cases h : k t c with
  | some r => exact (run_lit_some w n (w ++ t) c k r).mpr ⟨t, rfl, h⟩
  | none =>
    cases h2 : (Regex.lit w).run n (w ++ t) c k with
    | none => rfl
    | some r =>
      obtain ⟨t2, ht, hk⟩ := (run_lit_some w n (w ++ t) c k r).mp h2
      rw [← List.append_cancel_left ht, h] at hk
      cases hk

/-- The greedy repetition of a class takes the whole run of characters of the
class when the continuation succeeds right after it. -/
theorem starLoop_cls_greedy {R : Type} (p : Char → Bool) (n : Nat) (w t : List Char)
    (c : Caps) (k : Cont R) (r : R) (fuel : Nat) (hw : ∀ x ∈ w, p x = true)
    (ht : ∀ a, t.head? = some a → p a = false) (hfuel : w.length ≤ fuel)
    (hk : k t c = some r) :
    starLoop ((Regex.cls p).run n) fuel (w ++ t) c k = some r := by
  induction w generalizing fuel with
  | nil =>
    cases fuel with
    | zero => exact hk
    | succ fuel =>
      simp only [starLoop, List.nil_append]
      cases t with
      | nil => simpa [Regex.run] using hk
      | cons a u =>
        have ha := ht a rfl
        simp only [run_cls_cons, ha, Bool.false_eq_true, if_false]
        exact hk
  | cons x w ih =>
    cases fuel with
    | zero => simp at hfuel
    | succ fuel =>
      have hx : p x = true := hw x (List.mem_cons_self x w)
      have h1 := ih fuel (fun y hy => hw y (List.mem_cons_of_mem x hy))
        (by simpa using hfuel)
      simp only [starLoop, List.cons_append, run_cls_cons, hx, if_true, List.length_cons,
        Nat.lt_succ_self, h1]

theorem run_star_cls_greedy {R : Type} (p : Char → Bool) (n : Nat) (w t : List Char)
    (c : Caps) (k : Cont R) (r : R) (hw : ∀ x ∈ w, p x = true)
    (ht : ∀ a, t.head? = some a → p a = false) (hk : k t c = some r) :
    (Regex.star (.cls p)).run n (w ++ t) c k = some r :=
  starLoop_cls_greedy p n w t c k r (w ++ t).length hw ht (by simp) hk

/-- The search skips a stretch of positions at which there is no match. -/
theorem searchFrom_skip_drop (r : Regex) (n : Nat) (pre t : List Char)
    (h : ∀ i, i < pre.length → r.matchHere n (pre.drop i ++ t) = none) :
    r.searchFrom n (pre ++ t) = r.searchFrom n t := by
  induction pre with
  | nil => rfl
  | cons z pre ih =>
    have h0 := h 0 (by simp)
    simp only [List.drop_zero, List.cons_append] at h0
    show (match r.matchHere n (z :: (pre ++ t)) with
      | some res => some res
      | none => r.searchFrom n (pre ++ t)) = r.searchFrom n t
    rw [h0]
    exact ih (fun i hi => by simpa using h (i + 1) (by simpa using hi))

/-- A match of `destinationRegex` starts with the marker. -/
theorem destination_matchHere_marker (n : Nat) (s : List Char) (res : MatchResult)
    (h : destinationRegex.matchHere n s = some res) : destinationMarker <+: s := by
  obtain ⟨s1, hsem⟩ := matchHere_sound _ _ _ _ h
  unfold destinationRegex at hsem
  simp only [Sem_cat_cons, Sem_cat_nil, Sem_group, Sem_lit, Sem_plus_cls] at hsem
  obtain ⟨m, ⟨hs, _⟩, _⟩ := hsem
  exact ⟨m.1, hs.symm⟩

/-- At the start of a destination line the first group is the whole path. -/
theorem destination_matchHere_line (n : Nat) (path rest : List Char) (hp : path ≠ [])
    (hdot : ∀ z ∈ path, isLineTerminator z = false)
    (hrest : ∀ a, rest.head? = some a → isLineTerminator a = true) :
    ∃ res, destinationRegex.matchHere n (destinationMarker ++ (path ++ rest)) = some res ∧
      res.caps 1 = some path := by
  cases path with
  | nil => exact absurd rfl hp
  | cons x w =>
    have hx : isDot x = true := by
      simp [isDot, hdot x (List.mem_cons_self x w)]
    have hw : ∀ z ∈ w, isDot z = true := fun z hz => by
      simp [isDot, hdot z (List.mem_cons_of_mem x hz)]
    have hstop : ∀ a, rest.head? = some a → isDot a = false := fun a ha => by
      simp [isDot, hrest a ha]
    have key : ∀ o, destinationRegex.matchHere n (destinationMarker ++ (x :: w ++ rest)) = o →
        ∃ res, o = some res ∧ res.caps 1 = some (x :: w) := by
      intro o ho
      unfold Regex.matchHere destinationRegex destinationMarker at ho
      simp only [Regex.cat, run_seq, run_lit_append, run_group, Regex.plus, run_empty] at ho
      rw [List.cons_append, run_cls_cons, if_pos hx,
        run_star_cls_greedy isDot n w rest _ _ _ hw hstop rfl] at ho
      subst ho
      refine ⟨_, rfl, ?_⟩
      simp only [setCap, if_true]
      exact congrArg some (take_length_sub _ _ _ (by simp))
    obtain ⟨res, h1, h2⟩ := key _ rfl
    exact ⟨res, h1, h2⟩

/-- The first match of `destinationRegex` in a chunk that contains a
destination line captures the path of that line. -/
theorem destination_exec_chunk (d : DestinationChunk) (h : d.WellFormed) :
    truthyGroup1 (destinationRegex.exec d.text) = some d.path := by
  obtain ⟨hp, hdot, hafter, hbefore⟩ := h
  have hskip := searchFrom_skip_drop destinationRegex d.text.data.length d.before
    (destinationMarker ++ (d.path ++ d.after))
    (fun i hi => by
      cases hm : destinationRegex.matchHere d.text.data.length
          (d.before.drop i ++ (destinationMarker ++ (d.path ++ d.after))) with
      | none => rfl
      | some res => exact absurd (destination_matchHere_marker _ _ _ hm) (hbefore i hi))
  obtain ⟨res, hm, hcap⟩ := destination_matchHere_line d.text.data.length d.path d.after
    hp hdot hafter
  have hexec : destinationRegex.exec d.text = some res := by
    unfold Regex.exec
    have : d.text.data = d.before ++ (destinationMarker ++ (d.path ++ d.after)) := rfl
    rw [this] at hskip ⊢
    rw [hskip]
    exact searchFrom_head _ _ _ _ hm
  rw [hexec]
  simp only [truthyGroup1, hcap]
  rw [if_neg hp]

/-- C11: for every non-empty path `P` without line terminator (spaces allowed),
a stdout chunk that contains the line `[download] Destination: P`, the first
destination line of the chunk, sets `outputFile` to exactly `P`. -/
theorem destination_hint_exact (st : JobState) (d : DestinationChunk) (h : d.WellFormed) :
    (onStdoutData st d.text).outputFile = some (String.mk d.path) := by
  rw [onStdoutData_outputFile, destination_exec_chunk d h]

/-- Witness of `destination_hint_exact`: a path with spaces and parentheses,
in a chunk that starts with another line. -/
theorem destination_hint_exact_witness :
    (onStdoutData JobState.init
      "[twitter] 42: Downloading\n[download] Destination: /tmp/My clip (1).mp4\n").outputFile =
      some "/tmp/My clip (1).mp4" :=
  destination_hint_exact JobState.init sampleDestination
    ⟨by decide, by decide,
     fun a ha => by
      have : a = '\n' := by
        simpa [sampleDestination] using ha.symm
      rw [this]
      decide,
     by decide⟩

/-! ## Resolution of the output file -/

theorem truthyGroup1_ne_nil (result : Option MatchResult) (g : List Char)
    (h : truthyGroup1 result = some g) : g ≠ [] := by
  unfold truthyGroup1 at h
  split at h
  · cases h
  · split at h
    · cases h
    · split at h
      · cases h
      · rename_i hne
        cases h
        exact hne

/-- The stdout listener never stores an empty destination. -/
theorem onStdoutData_outputFile_falsy (st : JobState) (output : String)
    (h : ∀ p, st.outputFile = some p → p ≠ "") :
    ∀ p, (onStdoutData st output).outputFile = some p → p ≠ "" := by
  intro p hp
  rw [onStdoutData_outputFile] at hp
  cases ht : truthyGroup1 (destinationRegex.exec output) with
  | none =>
    rw [ht] at hp
    exact h p hp
  | some g =>
    rw [ht] at hp
    simp only [Option.some.injEq] at hp
    intro hempty
    rw [hempty] at hp
    exact truthyGroup1_ne_nil _ g ht (congrArg String.data hp)

theorem feedStdout_outputFile_falsy (chunks : List String) (st : JobState)
    (h : ∀ p, st.outputFile = some p → p ≠ "") :
    ∀ p, (feedStdout st chunks).outputFile = some p → p ≠ "" := by
  induction chunks generalizing st with
  | nil => exact h
  | cons o rest ih => exact ih (onStdoutData st o) (onStdoutData_outputFile_falsy st o h)

theorem settleAfterExit_observed (env : MainEnv) (fs : FsEnv) (outputDir path : String)
    (nameOf : SidecarInfo → String) (caught quality : String) (format : Option String)
    (hne : path ≠ "") :
    settleAfterExit env fs outputDir (some path) nameOf caught quality format =
      match fs.statSync path with
      | .error message => { effects := [.stat path], outcome := .error (caught ++ message) }
      | .ok size =>
        { effects := [.stat path],
          outcome := .ok { filePath := path, fileName := fs.basename path, size := size,
                           quality := quality, format := format } } := by
  simp only [settleAfterExit, sidecarFallback, isFalsy, hne, decide_False, Bool.false_eq_true,
    if_false, Option.getD_some]
  cases fs.statSync path <;> rfl

/-- C12: when a destination path was observed on stdout and the process exits
with code 0, both `close` handlers go straight to `fs.statSync` of that path:
the output directory is not read, and a result that is delivered has the
observed path as `filePath` and its base name as `fileName`; a path observed
on stdout is never empty. -/
theorem observed_destination_used (env : MainEnv) (fs : FsEnv) (options : DownloadOptions)
    (st : JobState) (path : String) (h : st.outputFile = some path) (hne : path ≠ "") :
    (downloadTwitterVideo.onClose env fs options st (some 0)).effects = [.stat path]
    ∧ (extractYouTubeAudio.onClose env fs options st (some 0)).effects = [.stat path]
    ∧ (∀ result, (downloadTwitterVideo.onClose env fs options st (some 0)).outcome = .ok result →
        result.filePath = path ∧ result.fileName = fs.basename path)
    ∧ (∀ result, (extractYouTubeAudio.onClose env fs options st (some 0)).outcome = .ok result →
        result.filePath = path ∧ result.fileName = fs.basename path)
    ∧ (∀ size, fs.statSync path = .ok size →
        (downloadTwitterVideo.onClose env fs options st (some 0)).outcome =
          .ok { filePath := path, fileName := fs.basename path, size := size,
                quality := options.quality.getD "best", format := none })
    ∧ (∀ chunks p, (feedStdout JobState.init chunks).outputFile = some p → p ≠ "") := by
  have e1 : downloadTwitterVideo.onClose env fs options st (some 0) =
      match fs.statSync path with
      | .error message =>
        { effects := [.stat path],
          outcome := .error ("Erreur après le téléchargement: " ++ message) }
      | .ok size =>
        { effects := [.stat path],
          outcome := .ok { filePath := path, fileName := fs.basename path, size := size,
                           quality := options.quality.getD "best", format := none } } := by
    simp only [downloadTwitterVideo.onClose, ne_eq, not_true_eq_false, if_false, h]
    exact settleAfterExit_observed env fs _ path _ _ _ _ hne
  have e2 : extractYouTubeAudio.onClose env fs options st (some 0) =
      match fs.statSync path with
      | .error message =>
        { effects := [.stat path],
          outcome := .error ("Erreur après l'extraction: " ++ message) }
      | .ok size =>
        { effects := [.stat path],
          outcome := .ok { filePath := path, fileName := fs.basename path, size := size,
                           quality := options.quality.getD "medium",
                           format := some (options.format.getD "mp3") } } := by
    simp only [extractYouTubeAudio.onClose, ne_eq, not_true_eq_false, if_false, h]
    exact settleAfterExit_observed env fs _ path _ _ _ _ hne
  refine ⟨?_, ?_, ?_, ?_, ?_, ?_⟩
  · rw [e1]; cases fs.statSync path <;> rfl
  · rw [e2]; cases fs.statSync path <;> rfl
  · intro result hres
    rw [e1] at hres
    cases hs : fs.statSync path with
    | error message => rw [hs] at hres; cases hres
    | ok size =>
      rw [hs] at hres
      simp only [Except.ok.injEq] at hres
      rw [← hres]
      exact ⟨rfl, rfl⟩
  · intro result hres
    rw [e2] at hres
    cases hs : fs.statSync path with
    | error message => rw [hs] at hres; cases hres
    | ok size =>
      rw [hs] at hres
      simp only [Except.ok.injEq] at hres
      rw [← hres]
      exact ⟨rfl, rfl⟩
  · intro size hs
    rw [e1, hs]
  · intro chunks p hp
    exact feedStdout_outputFile_falsy chunks JobState.init (fun q hq => by cases hq) p hp

/-- Witness of `observed_destination_used`: the observed path
`/videos/twitter_42.mp4` is stat'ed and nothing else is touched. -/
theorem observed_destination_used_witness :
    (downloadTwitterVideo.onClose sampleEnv sampleFs noOptions sampleObserved (some 0)).effects =
      [.stat "/videos/twitter_42.mp4"] :=
  (observed_destination_used sampleEnv sampleFs noOptions sampleObserved
    "/videos/twitter_42.mp4" rfl (by decide)).1

theorem sidecarFallback_first (env : MainEnv) (fs : FsEnv) (outputDir : String)
    (nameOf : SidecarInfo → String) (entries : List String) (first : String)
    (others : List String) (content : String) (info : SidecarInfo)
    (hdir : fs.readdirSync outputDir = .ok entries)
    (hfiles : infoFilesOf entries = first :: others)
    (hread : fs.readFileSync (env.join [outputDir, first]) = .ok content)
    (hparse : fs.parseInfo content = .ok info) :
    sidecarFallback env fs outputDir none nameOf =
      ([.readdir outputDir, .readFile (env.join [outputDir, first])],
        .ok (some (env.join [outputDir, nameOf info]))) := by
  simp only [sidecarFallback, isFalsy, if_true, hdir, hfiles, hread, hparse]

theorem templateFill_twitter (info : SidecarInfo) :
    templateFill twitterTemplate (sidecarField info info.ext) =
      downloadTwitterVideo.nameOf info := by
  simp [templateFill, twitterTemplate, sidecarField, downloadTwitterVideo.nameOf, String.join]

theorem templateFill_audio (info : SidecarInfo) (format : String) :
    templateFill audioTemplate (sidecarField info format) =
      extractYouTubeAudio.nameOf format info := by
  simp [templateFill, audioTemplate, sidecarField, extractYouTubeAudio.nameOf, String.join]

/-- C13: when no destination was observed and the scan of `outputDir` selects
at least one sidecar, which is read and parsed, the resolved path is the output
template of the job filled from the first sidecar: `outputDir` joined with
`twitter_<id>.<ext>` for the video download (template `twitter_%(id)s.%(ext)s`)
and with `<title>.<format>` for the audio extraction (template
`%(title)s.%(ext)s`, the extension being the requested audio format); this
path is then stat'ed and returned as `filePath`. -/
theorem sidecar_path_from_template (env : MainEnv) (fs : FsEnv) (options : DownloadOptions)
    (st : JobState) (outputDir : String) (entries : List String) (first : String)
    (others : List String) (content : String) (info : SidecarInfo)
    (hout : options.outputDir = some outputDir)
    (hnone : st.outputFile = none)
    (hdir : fs.readdirSync outputDir = .ok entries)
    (hfiles : infoFilesOf entries = first :: others)
    (hread : fs.readFileSync (env.join [outputDir, first]) = .ok content)
    (hparse : fs.parseInfo content = .ok info) :
    (sidecarFallback env fs outputDir st.outputFile downloadTwitterVideo.nameOf).2 =
      .ok (some (env.join [outputDir,
        templateFill twitterTemplate (sidecarField info info.ext)]))
    ∧ (sidecarFallback env fs outputDir st.outputFile
        (extractYouTubeAudio.nameOf (options.format.getD "mp3"))).2 =
      .ok (some (env.join [outputDir,
        templateFill audioTemplate (sidecarField info (options.format.getD "mp3"))]))
    ∧ templatePattern twitterTemplate = "twitter_%(id)s.%(ext)s"
    ∧ templatePattern audioTemplate = "%(title)s.%(ext)s"
    ∧ templateFill twitterTemplate (sidecarField info info.ext) =
        "twitter_" ++ info.id ++ "." ++ info.ext
    ∧ templateFill audioTemplate (sidecarField info (options.format.getD "mp3")) =
        info.title ++ "." ++ options.format.getD "mp3"
    ∧ (∀ size, env.join [outputDir, downloadTwitterVideo.nameOf info] ≠ "" →
        fs.statSync (env.join [outputDir, downloadTwitterVideo.nameOf info]) = .ok size →
        (downloadTwitterVideo.onClose env fs options st (some 0)).outcome =
          .ok { filePath := env.join [outputDir, "twitter_" ++ info.id ++ "." ++ info.ext],
                fileName := fs.basename
                  (env.join [outputDir, "twitter_" ++ info.id ++ "." ++ info.ext]),
                size := size, quality := options.quality.getD "best", format := none })
    ∧ (∀ size,
        env.join [outputDir, extractYouTubeAudio.nameOf (options.format.getD "mp3") info] ≠ "" →
        fs.statSync (env.join [outputDir,
          extractYouTubeAudio.nameOf (options.format.getD "mp3") info]) = .ok size →
        (extractYouTubeAudio.onClose env fs options st (some 0)).outcome =
          .ok { filePath := env.join [outputDir, info.title ++ "." ++ options.format.getD "mp3"],
                fileName := fs.basename
                  (env.join [outputDir, info.title ++ "." ++ options.format.getD "mp3"]),
                size := size, quality := options.quality.getD "medium",
                format := some (options.format.getD "mp3") }) := by
  have f1 := sidecarFallback_first env fs outputDir downloadTwitterVideo.nameOf entries first
    others content info hdir hfiles hread hparse
  have f2 := sidecarFallback_first env fs outputDir
    (extractYouTubeAudio.nameOf (options.format.getD "mp3")) entries first
    others content info hdir hfiles hread hparse
  refine ⟨?_, ?_, by decide, by decide, templateFill_twitter info,
    templateFill_audio info _, ?_, ?_⟩
  · rw [hnone, f1, templateFill_twitter]
  · rw [hnone, f2, templateFill_audio]
  · intro size hne hstat
    simp only [downloadTwitterVideo.onClose, ne_eq, not_true_eq_false, if_false, hout,
      Option.getD_some, hnone, settleAfterExit, f1, isFalsy, hne, decide_False,
      Bool.false_eq_true, hstat]
    rfl
  · intro size hne hstat
    simp only [extractYouTubeAudio.onClose, ne_eq, not_true_eq_false, if_false, hout,
      Option.getD_some, hnone, settleAfterExit, f2, isFalsy, hne, decide_False,
      Bool.false_eq_true, hstat]
    rfl

/-- Witness of `sidecar_path_from_template`: the sidecar `twitter_42.info.json`
of the sample directory gives `/videos/twitter_42.mp4`. -/
theorem sidecar_path_from_template_witness :
    (sidecarFallback sampleEnv sampleFs "/videos" none downloadTwitterVideo.nameOf).2 =
      .ok (some "/videos/twitter_42.mp4") :=
  (sidecar_path_from_template sampleEnv sampleFs
    { outputDir := some "/videos", quality := none, format := none } JobState.init "/videos"
    ["notes.txt", "twitter_42.info.json"] "twitter_42.info.json" []
    "\x7b\"id\": \"42\", \"ext\": \"mp4\", \"title\": \"My clip\"\x7d"
    { id := "42", ext := "mp4", title := "My clip" } rfl rfl rfl (by decide) rfl rfl).1

theorem includes_iff (str sub : String) :
    includes str sub = true ↔ sub.data <:+: str.data := by
  unfold includes
  rw [List.any_eq_true, List.infix_iff_prefix_suffix]
  constructor
  · rintro ⟨t, ht, hp⟩
    exact ⟨t, List.isPrefixOf_iff_prefix.mp hp, (List.mem_tails t str.data).mp ht⟩
  · rintro ⟨t, hp, ht⟩
    exact ⟨t, (List.mem_tails t str.data).mpr ht, List.isPrefixOf_iff_prefix.mpr hp⟩

theorem endsWith_iff (str sub : String) :
    endsWith str sub = true ↔ sub.data <:+ str.data := by
  unfold endsWith
  rw [List.isPrefixOf_iff_prefix, List.reverse_prefix]

/-- C14 as stated fails: the entry `a.info.json.bak` does not end with
`.info.json`, and it is kept by the filter and read as the sidecar. -/
theorem sidecar_filter_is_not_suffix :
    ¬ (∀ (entries : List String) (f : String),
        f ∈ infoFilesOf entries ↔ (f ∈ entries ∧ endsWith f ".info.json" = true))
    ∧ endsWith "a.info.json.bak" ".info.json" = false
    ∧ infoFilesOf ["a.info.json.bak"] = ["a.info.json.bak"]
    ∧ (sidecarFallback sampleEnv backupFs "/videos" none downloadTwitterVideo.nameOf).1 =
        [.readdir "/videos", .readFile "/videos/a.info.json.bak"] := by
  refine ⟨?_, by decide, by decide, by decide⟩
  intro h
  have h1 := (h ["a.info.json.bak"] "a.info.json.bak").mp (by decide)
  revert h1
  decide

/-- C14, amended: the sidecar fallback considers exactly the entries of
`outputDir` whose name contains `.info.json` at any position, which includes
every entry that ends with it, and it selects the first of them in the order
of the directory listing. -/
theorem sidecar_filter_is_contains (entries : List String) (f : String) :
    (f ∈ infoFilesOf entries ↔ (f ∈ entries ∧ ".info.json".data <:+: f.data))
    ∧ (f ∈ entries → endsWith f ".info.json" = true → f ∈ infoFilesOf entries)
    ∧ (∀ others, infoFilesOf entries = f :: others →
        ∃ skipped later, entries = skipped ++ f :: later ∧
          (∀ g ∈ skipped, ¬ ".info.json".data <:+: g.data) ∧ ".info.json".data <:+: f.data) := by
  have hmem : f ∈ infoFilesOf entries ↔ (f ∈ entries ∧ ".info.json".data <:+: f.data) := by
    unfold infoFilesOf
    rw [List.mem_filter, includes_iff]
  refine ⟨hmem, ?_, ?_⟩
  · intro hf hend
    exact hmem.mpr ⟨hf, ((endsWith_iff f ".info.json").mp hend).isInfix⟩
  · intro others hfirst
    unfold infoFilesOf at hfirst
    obtain ⟨skipped, later, hsplit, hskip, hf, _⟩ := List.filter_eq_cons_iff.mp hfirst
    refine ⟨skipped, later, hsplit, ?_, (includes_iff f ".info.json").mp hf⟩
    intro g hg hinfix
    exact hskip g hg ((includes_iff g ".info.json").mpr hinfix)

/-- A result is delivered only after a successful `fs.statSync` of its path. -/
theorem settleAfterExit_ok (env : MainEnv) (fs : FsEnv) (outputDir : String)
    (outputFile : Option String) (nameOf : SidecarInfo → String) (caught quality : String)
    (format : Option String) (result : MainDownloadResult)
    (h : (settleAfterExit env fs outputDir outputFile nameOf caught quality format).outcome =
      .ok result) :
    fs.statSync result.filePath = .ok result.size ∧
    FsEffect.stat result.filePath ∈
      (settleAfterExit env fs outputDir outputFile nameOf caught quality format).effects := by
  unfold settleAfterExit at h ⊢
  split at h
  · cases h
  · split at h
    · cases h
    · rename_i effects resolved _ hfalsy
      simp only [hfalsy, Bool.false_eq_true, if_false]
      cases hs : fs.statSync (resolved.getD "") with
      | error message =>
        rw [hs] at h
        cases h
      | ok size =>
        rw [hs] at h
        simp only [Except.ok.injEq] at h
        subst h
        exact ⟨hs, by simp⟩

/-- Without destination and without sidecar the job is rejected before any
`fs.statSync`. -/
theorem settleAfterExit_nothing (env : MainEnv) (fs : FsEnv) (outputDir : String)
    (nameOf : SidecarInfo → String) (caught quality : String) (format : Option String)
    (entries : List String) (hdir : fs.readdirSync outputDir = .ok entries)
    (hfiles : infoFilesOf entries = []) :
    settleAfterExit env fs outputDir none nameOf caught quality format =
      { effects := [.readdir outputDir],
        outcome := .error "Impossible de déterminer le fichier de sortie" } := by
  simp only [settleAfterExit, sidecarFallback, isFalsy, if_true, hdir, hfiles]

/-- C15: after exit code 0 a `DownloadResult` is delivered only if
`fs.statSync` of the resolved path succeeded (its size is the one reported).
Without observed destination and without sidecar in `outputDir` the job is
rejected with `Impossible de déterminer le fichier de sortie` and nothing is
stat'ed; when the observed path cannot be stat'ed the job is rejected with the
message of the failure after the prefix of the handler. -/
theorem resolves_only_if_output_exists (env : MainEnv) (fs : FsEnv)
    (options : DownloadOptions) (st : JobState) :
    (∀ result, (downloadTwitterVideo.onClose env fs options st (some 0)).outcome = .ok result →
        fs.statSync result.filePath = .ok result.size ∧
        FsEffect.stat result.filePath ∈
          (downloadTwitterVideo.onClose env fs options st (some 0)).effects)
    ∧ (∀ result, (extractYouTubeAudio.onClose env fs options st (some 0)).outcome = .ok result →
        fs.statSync result.filePath = .ok result.size ∧
        FsEffect.stat result.filePath ∈
          (extractYouTubeAudio.onClose env fs options st (some 0)).effects)
    ∧ (∀ entries, st.outputFile = none →
        fs.readdirSync (options.outputDir.getD (env.join [env.homedir, "Downloads"]))
          = .ok entries →
        infoFilesOf entries = [] →
        downloadTwitterVideo.onClose env fs options st (some 0) =
          { effects := [.readdir (options.outputDir.getD (env.join [env.homedir, "Downloads"]))],
            outcome := .error "Impossible de déterminer le fichier de sortie" }
        ∧ extractYouTubeAudio.onClose env fs options st (some 0) =
          { effects := [.readdir (options.outputDir.getD (env.join [env.homedir, "Downloads"]))],
            outcome := .error "Impossible de déterminer le fichier de sortie" })
    ∧ (∀ path message, st.outputFile = some path → path ≠ "" →
        fs.statSync path = .error message →
        (downloadTwitterVideo.onClose env fs options st (some 0)).outcome =
          .error ("Erreur après le téléchargement: " ++ message)
        ∧ (extractYouTubeAudio.onClose env fs options st (some 0)).outcome =
          .error ("Erreur après l'extraction: " ++ message)) := by
  refine ⟨?_, ?_, ?_, ?_⟩
  · intro result h
    simp only [downloadTwitterVideo.onClose, ne_eq, not_true_eq_false, if_false] at h ⊢
    exact settleAfterExit_ok _ _ _ _ _ _ _ _ result h
  · intro result h
    simp only [extractYouTubeAudio.onClose, ne_eq, not_true_eq_false, if_false] at h ⊢
    exact settleAfterExit_ok _ _ _ _ _ _ _ _ result h
  · intro entries hnone hdir hfiles
    simp only [downloadTwitterVideo.onClose, extractYouTubeAudio.onClose, ne_eq,
      not_true_eq_false, if_false, hnone]
    exact ⟨settleAfterExit_nothing _ _ _ _ _ _ _ entries hdir hfiles,
      settleAfterExit_nothing _ _ _ _ _ _ _ entries hdir hfiles⟩
  · intro path message hsome hne hstat
    simp only [downloadTwitterVideo.onClose, extractYouTubeAudio.onClose, ne_eq,
      not_true_eq_false, if_false, hsome, settleAfterExit_observed _ _ _ _ _ _ _ _ hne, hstat]
    exact ⟨trivial, trivial⟩

theorem feedStderr_stderr (st : JobState) (chunks : List String) :
    (feedStderr st chunks).stderr = st.stderr ++ String.join chunks := by
  induction chunks generalizing st with
  | nil => simp [feedStderr, String.join]
  | cons o rest ih =>
    have e : feedStderr st (o :: rest) = feedStderr (onStderrData st o) rest := rfl
    have j : ∀ (l : List String) (acc : String),
        l.foldl (fun r s => r ++ s) acc = acc ++ l.foldl (fun r s => r ++ s) "" := by
      intro l
      induction l with
      | nil => intro acc; simp
      | cons x l ihl =>
        intro acc
        simp only [List.foldl_cons]
        rw [ihl (acc ++ x), ihl ("" ++ x), String.empty_append, String.append_assoc]
    rw [e, ih]
    simp only [onStderrData, String.join, List.foldl_cons, String.empty_append]
    rw [j rest o, String.append_assoc]

/-- C16: for every exit code other than 0, `null` included, both `close`
handlers reject with a message that holds the exit code and, at its end, the
whole stderr text accumulated so far, and they touch the file system in no
way: no directory scan, no `fs.statSync`. The accumulated stderr is the
concatenation of all the stderr chunks received. -/
theorem nonzero_exit_rejects (env : MainEnv) (fs : FsEnv) (options : DownloadOptions)
    (st : JobState) (code : Option Int) (h : code ≠ some 0) :
    downloadTwitterVideo.onClose env fs options st code =
      { effects := [],
        outcome := .error ("Échec du téléchargement. Code: " ++ codeText code ++ ", Erreur: "
          ++ st.stderr) }
    ∧ extractYouTubeAudio.onClose env fs options st code =
      { effects := [],
        outcome := .error ("Échec de l'extraction. Code: " ++ codeText code ++ ", Erreur: "
          ++ st.stderr) }
    ∧ (∀ chunks, (feedStderr JobState.init chunks).stderr = String.join chunks)
    ∧ codeText none = "null" ∧ codeText (some 1) = "1" := by
  refine ⟨?_, ?_, ?_, rfl, by decide⟩
  · simp only [downloadTwitterVideo.onClose, ne_eq, h, not_false_eq_true, if_true]
  · simp only [extractYouTubeAudio.onClose, ne_eq, h, not_false_eq_true, if_true]
  · intro chunks
    rw [feedStderr_stderr]
    simp [JobState.init]

/-- Witness of `nonzero_exit_rejects`: exit code 1 with the stderr text
`ERROR: unsupported URL`. -/
theorem nonzero_exit_rejects_witness :
    downloadTwitterVideo.onClose sampleEnv sampleFs noOptions sampleFailed (some 1) =
      { effects := [],
        outcome := .error "Échec du téléchargement. Code: 1, Erreur: ERROR: unsupported URL" } :=
  (nonzero_exit_rejects sampleEnv sampleFs noOptions sampleFailed (some 1) (by decide)).1

/-! ## Metadata -/

/-- Trimming removes trailing white space and nothing else from a text that
neither starts nor ends with white space. -/
theorem jsTrim_append (text tail : List Char)
    (hfirst : ∀ a, text.head? = some a → isSpace a = false)
    (hlast : ∀ a, text.getLast? = some a → isSpace a = false)
    (hne : text ≠ [])
    (htail : ∀ z ∈ tail, isSpace z = true) :
    jsTrim (text ++ tail) = text := by
  unfold jsTrim
  have h1 : (text ++ tail).dropWhile isSpace = text ++ tail := by
    cases text with
    | nil => exact absurd rfl hne
    | cons a u =>
      have := hfirst a rfl
      simp [List.dropWhile, this]
  rw [h1, List.reverse_append]
  have h2 := takeWhile_dropWhile_stop isSpace tail.reverse text.reverse
    (fun z hz => htail z (List.mem_reverse.mp hz))
    (fun a ha => hlast a (by rw [List.head?_reverse] at ha; exact ha))
  rw [h2.2, List.reverse_reverse]

/-- The lines of stdout, when the printed lines hold no newline and the text
has white space only after its last line. -/
theorem outputLines_intercalate (lines : List (List Char)) (tail : List Char)
    (hlines : lines ≠ []) (hnl : ∀ l ∈ lines, '\n' ∉ l)
    (hfirst : ∀ a, (['\n'].intercalate lines).head? = some a → isSpace a = false)
    (hlast : ∀ a, (['\n'].intercalate lines).getLast? = some a → isSpace a = false)
    (hne : ['\n'].intercalate lines ≠ [])
    (htail : ∀ z ∈ tail, isSpace z = true) :
    outputLines (String.mk (['\n'].intercalate lines ++ tail)) = lines := by
  unfold outputLines
  rw [jsTrim_append _ _ hfirst hlast hne htail]
  exact List.splitOn_intercalate lines '\n' hnl hlines

/-- C17 as stated fails: when the first line of stdout is empty, the id of the
descriptor is taken from the second line, because `trim` removes the empty
line before the split. -/
theorem fields_shift_after_empty_first_line :
    ¬ (∀ stdout : String, (getTwitterVideoInfo.parse stdout).tweetId =
        orDefault (stdout.data.splitOn '\n')[0]? "unknown")
    ∧ ("\nclip title\nalice\n12\n".data.splitOn '\n')[0]? = some []
    ∧ (getTwitterVideoInfo.parse "\nclip title\nalice\n12\n").tweetId = "clip title"
    ∧ (getYoutubeVideoInfo.parse "\nclip title\nalice\n12\n").videoId = "clip title" := by
  refine ⟨?_, by decide, by decide, by decide⟩
  intro h
  have h1 := h "\nclip title\nalice\n12\n"
  revert h1
  decide

/-- C17, amended: the two metadata invocations request the fields in the order
id, title, uploader, duration (then thumbnail for Twitter), and the k-th field
of the descriptor is taken from the k-th newline-separated line of
`stdout.trim()`. For a stdout text made of lines without white space before
the first line, followed by white space only, the k-th field comes from the
k-th line of stdout, also when an inner line is empty. -/
theorem fields_follow_trimmed_lines (lines : List (List Char)) (tail : List Char)
    (hlines : lines ≠ []) (hnl : ∀ l ∈ lines, '\n' ∉ l)
    (hfirst : ∀ a, (['\n'].intercalate lines).head? = some a → isSpace a = false)
    (hlast : ∀ a, (['\n'].intercalate lines).getLast? = some a → isSpace a = false)
    (hne : ['\n'].intercalate lines ≠ [])
    (htail : ∀ z ∈ tail, isSpace z = true) :
    getTwitterVideoInfo.parse (String.mk (['\n'].intercalate lines ++ tail)) =
      { tweetId := orDefault lines[0]? "unknown",
        text := orDefault lines[1]? "No title",
        author := orDefault lines[2]? "Unknown user",
        duration := durationOrZero lines[3]?,
        thumbnail := orDefault lines[4]? "" }
    ∧ getYoutubeVideoInfo.parse (String.mk (['\n'].intercalate lines ++ tail)) =
      { videoId := orDefault lines[0]? "unknown",
        title := orDefault lines[1]? "No title",
        author := orDefault lines[2]? "Unknown user",
        duration := durationOrZero lines[3]? }
    ∧ (∀ url, getTwitterVideoInfo.args url =
        ["--no-warnings", "--print", "id,title,uploader,duration,thumbnail", "--no-playlist",
         "--no-download", url])
    ∧ (∀ url, getYoutubeVideoInfo.args url =
        ["--no-warnings", "--print", "id,title,uploader,duration", "--no-playlist",
         "--no-download", url])
    ∧ (∀ stdout, getTwitterVideoInfo.parse stdout =
        { tweetId := orDefault ((jsTrim stdout.data).splitOn '\n')[0]? "unknown",
          text := orDefault ((jsTrim stdout.data).splitOn '\n')[1]? "No title",
          author := orDefault ((jsTrim stdout.data).splitOn '\n')[2]? "Unknown user",
          duration := durationOrZero ((jsTrim stdout.data).splitOn '\n')[3]?,
          thumbnail := orDefault ((jsTrim stdout.data).splitOn '\n')[4]? "" }) := by
  have h := outputLines_intercalate lines tail hlines hnl hfirst hlast hne htail
  refine ⟨?_, ?_, fun _ => rfl, fun _ => rfl, fun _ => rfl⟩
  · simp only [getTwitterVideoInfo.parse, h]
  · simp only [getYoutubeVideoInfo.parse, h]

/-- Witness of `fields_follow_trimmed_lines`: with an empty title line the
author is still read from the third line. -/
theorem fields_follow_trimmed_lines_witness :
    (getTwitterVideoInfo.parse "1234\n\nalice\n12.5\n").author = "alice"
    ∧ (getTwitterVideoInfo.parse "1234\n\nalice\n12.5\n").text = "No title" := by
  have h := (fields_follow_trimmed_lines
    ["1234".data, [], "alice".data, "12.5".data] "\n".data
    (by decide) (by decide)
    (fun a ha => by
      have e0 : (['\n'].intercalate ["1234".data, [], "alice".data, "12.5".data]).head? =
          some '1' := by decide
      rw [e0] at ha
      cases ha
      decide)
    (fun a ha => by
      have e0 : (['\n'].intercalate ["1234".data, [], "alice".data, "12.5".data]).getLast? =
          some '5' := by decide
      rw [e0] at ha
      cases ha
      decide)
    (by decide) (by decide)).1
  have e : (String.mk (['\n'].intercalate ["1234".data, [], "alice".data, "12.5".data]
      ++ "\n".data)) = "1234\n\nalice\n12.5\n" := by decide
  rw [e] at h
  rw [h]
  exact ⟨by decide, by decide⟩

theorem orDefault_ne_empty (field : Option (List Char)) (fallback : String)
    (h : fallback ≠ "") : orDefault field fallback ≠ "" := by
  unfold orDefault
  split
  · exact h
  · rename_i text
    split
    · exact h
    · rename_i hne
      intro hempty
      exact hne (congrArg String.data hempty)

theorem durationOrZero_ne_nan (field : Option (List Char)) : durationOrZero field ≠ .nan := by
  unfold durationOrZero
  split
  · intro h; cases h
  · intro h; cases h
  · split <;> (intro h; cases h)

/-- C18: when the metadata process exits with code 0 the `close` handler
always resolves, whatever stdout holds. In the descriptor the id is `unknown`
when the first field is missing or empty, the title is `No title` when the
second is missing or empty, and the duration is 0 when the fourth is missing or
`parseFloat` of it is `NaN`; the id and the title are never empty and the
duration is never `NaN`. On an empty stdout every field has its default. -/
theorem metadata_always_resolves (st : FetchState) :
    getTwitterVideoInfo.onClose st (some 0) = .ok (getTwitterVideoInfo.parse st.stdout)
    ∧ getYoutubeVideoInfo.onClose st (some 0) = .ok (getYoutubeVideoInfo.parse st.stdout)
    ∧ orDefault none "unknown" = "unknown" ∧ orDefault (some []) "unknown" = "unknown"
    ∧ orDefault none "No title" = "No title" ∧ orDefault (some []) "No title" = "No title"
    ∧ durationOrZero none = .fin 0
    ∧ (∀ text, parseFloat text = .nan → durationOrZero (some text) = .fin 0)
    ∧ (getTwitterVideoInfo.parse st.stdout).tweetId ≠ ""
    ∧ (getTwitterVideoInfo.parse st.stdout).text ≠ ""
    ∧ (getTwitterVideoInfo.parse st.stdout).duration ≠ .nan
    ∧ (getYoutubeVideoInfo.parse st.stdout).videoId ≠ ""
    ∧ (getYoutubeVideoInfo.parse st.stdout).title ≠ ""
    ∧ (getYoutubeVideoInfo.parse st.stdout).duration ≠ .nan
    ∧ getTwitterVideoInfo.parse "" =
        { tweetId := "unknown", text := "No title", author := "Unknown user",
          duration := .fin 0, thumbnail := "" }
    ∧ (getTwitterVideoInfo.parse "1234\nclip\nalice\nNA\n").duration = .fin 0 := by
  have hnone : durationOrZero none = .fin 0 := by
    have : parseFloat "undefined".data = .nan := by
      have hs : scanNumber "undefined".data = .absent := by decide
      unfold parseFloat
      rw [hs]
    simp only [durationOrZero, Option.getD_none, this]
  have hnan : ∀ text, parseFloat text = .nan → durationOrZero (some text) = .fin 0 := by
    intro text ht
    simp only [durationOrZero, Option.getD_some, ht]
  refine ⟨rfl, rfl, rfl, rfl, rfl, rfl, hnone, hnan,
    orDefault_ne_empty _ _ (by decide), orDefault_ne_empty _ _ (by decide),
    durationOrZero_ne_nan _, orDefault_ne_empty _ _ (by decide),
    orDefault_ne_empty _ _ (by decide), durationOrZero_ne_nan _, ?_, ?_⟩
  · have e : outputLines "" = [[]] := by decide
    simp only [getTwitterVideoInfo.parse, e]
    have e3 : ([[]] : List (List Char))[3]? = none := rfl
    rw [e3, hnone]
    rfl
  · have e : outputLines "1234\nclip\nalice\nNA\n" =
        ["1234".data, "clip".data, "alice".data, "NA".data] := by decide
    simp only [getTwitterVideoInfo.parse, e]
    have e3 : (["1234".data, "clip".data, "alice".data, "NA".data])[3]? = some "NA".data := rfl
    rw [e3]
    apply hnan
    have hs : scanNumber "NA".data = .absent := by decide
    unfold parseFloat
    rw [hs]

theorem fetch_stderr_accumulates (st : FetchState) (chunks : List String) :
    (chunks.foldl FetchState.onStderr st).stderr = st.stderr ++ String.join chunks := by
  induction chunks generalizing st with
  | nil => simp [String.join]
  | cons o rest ih =>
    have j : ∀ (l : List String) (acc : String),
        l.foldl (fun r s => r ++ s) acc = acc ++ l.foldl (fun r s => r ++ s) "" := by
      intro l
      induction l with
      | nil => intro acc; simp
      | cons x l ihl =>
        intro acc
        simp only [List.foldl_cons]
        rw [ihl (acc ++ x), ihl ("" ++ x), String.empty_append, String.append_assoc]
    simp only [List.foldl_cons]
    rw [ih]
    simp only [FetchState.onStderr, String.join, List.foldl_cons, String.empty_append]
    rw [j rest o, String.append_assoc]

/-- C19: for every exit code other than 0, `null` included, the `close`
handlers of `getTwitterVideoInfo` and of `get-youtube-video-info` reject with a
message that ends with the whole stderr text accumulated from the process (the
concatenation of the stderr chunks); they resolve only for the exit code 0. -/
theorem metadata_nonzero_exit_rejects (st : FetchState) (code : Option Int)
    (h : code ≠ some 0) :
    getTwitterVideoInfo.onClose st code =
      .error ("Échec de l'obtention des informations. Code: " ++ codeText code ++ ", Erreur: "
        ++ st.stderr)
    ∧ getYoutubeVideoInfo.onClose st code =
      .error ("Échec de l'obtention des informations YouTube. Erreur: " ++ st.stderr)
    ∧ (∀ chunks, (chunks.foldl FetchState.onStderr { stdout := "", stderr := "" }).stderr =
        String.join chunks)
    ∧ (∀ (st1 : FetchState) (code1 : Option Int) (info : TwitterVideoInfo),
        getTwitterVideoInfo.onClose st1 code1 = .ok info → code1 = some 0)
    ∧ (∀ (st1 : FetchState) (code1 : Option Int) (info : YoutubeVideoInfo),
        getYoutubeVideoInfo.onClose st1 code1 = .ok info → code1 = some 0) := by
  refine ⟨?_, ?_, ?_, ?_, ?_⟩
  · simp only [getTwitterVideoInfo.onClose, ne_eq, h, not_false_eq_true, if_true]
  · simp only [getYoutubeVideoInfo.onClose, ne_eq, h, not_false_eq_true, if_true]
  · intro chunks
    rw [fetch_stderr_accumulates]
    simp
  · intro st1 code1 info hok
    by_contra hne
    simp only [getTwitterVideoInfo.onClose, ne_eq, hne, not_false_eq_true, if_true] at hok
    cases hok
  · intro st1 code1 info hok
    by_contra hne
    simp only [getYoutubeVideoInfo.onClose, ne_eq, hne, not_false_eq_true, if_true] at hok
    cases hok

/-- Witness of `metadata_nonzero_exit_rejects`: exit code 1 with the stderr
text `ERROR: unsupported URL`. -/
theorem metadata_nonzero_exit_rejects_witness :
    getTwitterVideoInfo.onClose sampleFetchFailed (some 1) =
      .error "Échec de l'obtention des informations. Code: 1, Erreur: ERROR: unsupported URL" :=
  (metadata_nonzero_exit_rejects sampleFetchFailed (some 1) (by decide)).1

/-- C20 as stated fails: on a machine without the executable the presence
check returns false, and the three functions call `spawn` all the same. -/
theorem spawn_without_binary :
    checkYtDlpInstalled missingBinaryEnv = false
    ∧ (getTwitterVideoInfo.start missingBinaryEnv "https://x.com/u/status/1").spawned = true
    ∧ (downloadTwitterVideo.start missingBinaryEnv "https://x.com/u/status/1"
        noOptions).spawned = true
    ∧ (extractYouTubeAudio.start missingBinaryEnv "https://youtu.be/abc" noOptions).spawned
        = true
    ∧ (ipcExtractYouTubeAudio.start missingBinaryEnv "https://youtu.be/abc" noOptions).spawned
        = true := by
  decide

/-- C20, amended: `downloadTwitterVideo`, `extractYouTubeAudio` and
`getTwitterVideoInfo` never consult the presence check: for a non-empty URL
and an output directory that exists they call `spawn` with the path of
`getYtDlpPath`, whether or not that file exists. A missing executable is
reported after `spawn`, by the `error` listener, as the rejection
`Erreur lors du lancement de yt-dlp: ` followed by the message of the error. -/
theorem spawn_ignores_binary_presence (env : MainEnv) (url : String)
    (options : DownloadOptions) (hurl : url ≠ "")
    (hdir : env.existsSync (options.outputDir.getD (env.join [env.homedir, "Downloads"]))
      = true) :
    (getTwitterVideoInfo.start env url).effects =
      [.spawn (getYtDlpPath env) (getTwitterVideoInfo.args url)]
    ∧ (downloadTwitterVideo.start env url options).effects =
      [.spawn (getYtDlpPath env)
        (downloadTwitterVideo.args
          (downloadTwitterVideo.qualityOption (options.quality.getD "best"))
          (env.join [options.outputDir.getD (env.join [env.homedir, "Downloads"]),
            "twitter_%(id)s.%(ext)s"]) url)]
    ∧ (extractYouTubeAudio.start env url options).effects =
      [.spawn (getYtDlpPath env)
        (extractYouTubeAudio.args (options.format.getD "mp3")
          (extractYouTubeAudio.qualityOption (options.quality.getD "medium"))
          (env.join [options.outputDir.getD (env.join [env.homedir, "Downloads"]),
            "%(title)s.%(ext)s"]) url)]
    ∧ (∀ message, onProcessError message = "Erreur lors du lancement de yt-dlp: " ++ message)
    ∧ checkYtDlpInstalled env = env.existsSync (getYtDlpPath env) := by
  refine ⟨?_, ?_, ?_, fun _ => rfl, rfl⟩
  · simp only [getTwitterVideoInfo.start, hurl, if_false]
  · simp only [downloadTwitterVideo.start, hurl, if_false, ensureDirThenSpawn, hdir, if_true]
  · simp only [extractYouTubeAudio.start, hurl, if_false, ensureDirThenSpawn, hdir, if_true]

/-- Witness of `spawn_ignores_binary_presence`: the machine without the
executable. -/
theorem spawn_ignores_binary_presence_witness :
    (getTwitterVideoInfo.start missingBinaryEnv "https://x.com/u/status/1").effects =
      [.spawn "/opt/multitool/dist/main/../../bin/yt-dlp"
        (getTwitterVideoInfo.args "https://x.com/u/status/1")] :=
  (spawn_ignores_binary_presence missingBinaryEnv "https://x.com/u/status/1" noOptions
    (by decide) (by decide)).1

/-! ## Argument vectors of the downloads -/

theorem ensureDirThenSpawn_spawn (env : MainEnv) (outputDir command : String)
    (args args0 : List String)
    (h : MainEffect.spawn command args ∈ (ensureDirThenSpawn env outputDir args0).effects) :
    command = getYtDlpPath env ∧ args = args0 := by
  unfold ensureDirThenSpawn at h
  split at h
  · simp only [List.mem_singleton, MainEffect.spawn.injEq] at h
    exact h
  · split at h
    · simp at h
    · simp only [List.mem_cons, MainEffect.spawn.injEq, List.mem_singleton, false_or,
        List.not_mem_nil, or_false] at h
      simpa using h

/-- C21: the argument vector with which `downloadTwitterVideo` and
`extractYouTubeAudio` call `spawn` is a fixed list of options around the
values of the request: it starts with `--no-warnings`, holds `-f` and the
selector (video) or `-x`, `--audio-format`, the format, `--audio-quality`, the
code (audio), then `-o` and the template joined to the output directory,
`--no-playlist`, `--write-info-json`, and the URL, unchanged, as its one last
element; the command is the path of yt-dlp, not a shell. -/
theorem download_args_shape (env : MainEnv) (url : String) (options : DownloadOptions)
    (commandV commandA : String) (argsV argsA : List String)
    (hv : MainEffect.spawn commandV argsV ∈ (downloadTwitterVideo.start env url options).effects)
    (ha : MainEffect.spawn commandA argsA ∈ (extractYouTubeAudio.start env url options).effects) :
    argsV = ["--no-warnings", "-f",
      downloadTwitterVideo.qualityOption (options.quality.getD "best"), "-o",
      env.join [options.outputDir.getD (env.join [env.homedir, "Downloads"]),
        "twitter_%(id)s.%(ext)s"],
      "--no-playlist", "--write-info-json", url] ∧
    argsA = ["--no-warnings", "-x", "--audio-format", options.format.getD "mp3",
      "--audio-quality", extractYouTubeAudio.qualityOption (options.quality.getD "medium"), "-o",
      env.join [options.outputDir.getD (env.join [env.homedir, "Downloads"]),
        "%(title)s.%(ext)s"],
      "--no-playlist", "--write-info-json", url] ∧
    argsV.head? = some "--no-warnings" ∧ argsA.head? = some "--no-warnings" ∧
    argsV.getLast? = some url ∧ argsA.getLast? = some url ∧
    argsV.length = 8 ∧ argsA.length = 11 ∧
    commandV = getYtDlpPath env ∧ commandA = getYtDlpPath env := by
  have ev : commandV = getYtDlpPath env ∧ argsV = ["--no-warnings", "-f",
      downloadTwitterVideo.qualityOption (options.quality.getD "best"), "-o",
      env.join [options.outputDir.getD (env.join [env.homedir, "Downloads"]),
        "twitter_%(id)s.%(ext)s"],
      "--no-playlist", "--write-info-json", url] := by
    unfold downloadTwitterVideo.start at hv
    split at hv
    · simp at hv
    · exact ensureDirThenSpawn_spawn _ _ _ _ _ hv
  have ea : commandA = getYtDlpPath env ∧ argsA = ["--no-warnings", "-x", "--audio-format",
      options.format.getD "mp3", "--audio-quality",
      extractYouTubeAudio.qualityOption (options.quality.getD "medium"), "-o",
      env.join [options.outputDir.getD (env.join [env.homedir, "Downloads"]),
        "%(title)s.%(ext)s"],
      "--no-playlist", "--write-info-json", url] := by
    unfold extractYouTubeAudio.start at ha
    split at ha
    · simp at ha
    · exact ensureDirThenSpawn_spawn _ _ _ _ _ ha
  obtain ⟨cv, av⟩ := ev
  obtain ⟨ca, aa⟩ := ea
  subst av aa
  exact ⟨rfl, rfl, rfl, rfl, rfl, rfl, rfl, rfl, cv, ca⟩

theorem download_args_shape_witness :
    MainEffect.spawn "/opt/multitool/dist/main/../../bin/yt-dlp"
        ["--no-warnings", "-f", "bestvideo+bestaudio/best", "-o",
          "/home/user/Downloads/twitter_%(id)s.%(ext)s", "--no-playlist", "--write-info-json",
          "https://x.com/u/status/1; rm -rf ~"] ∈
      (downloadTwitterVideo.start sampleEnv "https://x.com/u/status/1; rm -rf ~"
        noOptions).effects ∧
    (["--no-warnings", "-f", "bestvideo+bestaudio/best", "-o",
        "/home/user/Downloads/twitter_%(id)s.%(ext)s", "--no-playlist", "--write-info-json",
        "https://x.com/u/status/1; rm -rf ~"] : List String).getLast? =
      some "https://x.com/u/status/1; rm -rf ~" :=
  ⟨by decide,
   (download_args_shape sampleEnv "https://x.com/u/status/1; rm -rf ~" noOptions
    "/opt/multitool/dist/main/../../bin/yt-dlp" "/opt/multitool/dist/main/../../bin/yt-dlp"
    ["--no-warnings", "-f", "bestvideo+bestaudio/best", "-o",
      "/home/user/Downloads/twitter_%(id)s.%(ext)s", "--no-playlist", "--write-info-json",
      "https://x.com/u/status/1; rm -rf ~"]
    ["--no-warnings", "-x", "--audio-format", "mp3", "--audio-quality", "5", "-o",
      "/home/user/Downloads/%(title)s.%(ext)s", "--no-playlist", "--write-info-json",
      "https://x.com/u/status/1; rm -rf ~"]
    (by decide) (by decide)).2.2.2.2.1⟩

/-! ## Result of an audio extraction -/

theorem settleAfterExit_ok_fields (env : MainEnv) (fs : FsEnv) (outputDir : String)
    (outputFile : Option String) (nameOf : SidecarInfo → String) (caught quality : String)
    (format : Option String) (result : MainDownloadResult)
    (h : (settleAfterExit env fs outputDir outputFile nameOf caught quality format).outcome =
      .ok result) :
    result.quality = quality ∧ result.format = format ∧
    result.fileName = fs.basename result.filePath := by
  unfold settleAfterExit at h
  split at h
  · cases h
  · split at h
    · cases h
    · cases hs : fs.statSync (Option.getD _ "") with
      | error message =>
        rw [hs] at h
        cases h
      | ok size =>
        rw [hs] at h
        simp only [Except.ok.injEq] at h
        subst h
        exact ⟨rfl, rfl, rfl⟩

/-- C22: whenever the `close` listener of `extractYouTubeAudio` resolves, the
result has the requested format (`mp3` when the options have none), the
requested quality (`medium` when the options have none), the size that `stat`
reports for the path of the result, and the base name of that path as file
name. -/
theorem audio_result_fields (env : MainEnv) (fs : FsEnv) (options : DownloadOptions)
    (st : JobState) (code : Option Int) (result : MainDownloadResult)
    (h : (extractYouTubeAudio.onClose env fs options st code).outcome = .ok result) :
    result.format = some (options.format.getD "mp3") ∧
    result.quality = options.quality.getD "medium" ∧
    fs.statSync result.filePath = .ok result.size ∧
    result.fileName = fs.basename result.filePath := by
  unfold extractYouTubeAudio.onClose at h
  simp only at h
  split at h
  · cases h
  · have h1 := settleAfterExit_ok_fields _ _ _ _ _ _ _ _ _ h
    have h2 := settleAfterExit_ok _ _ _ _ _ _ _ _ _ h
    exact ⟨h1.2.1, h1.1, h2.1, h1.2.2⟩

theorem audio_result_fields_witness :
    (extractYouTubeAudio.onClose sampleEnv sampleFs noOptions
        { stdout := "", stderr := "", outputFile := some "/music/My clip.mp3", progress := [] }
        (some 0)).outcome =
      .ok { filePath := "/music/My clip.mp3", fileName := "My clip.mp3", size := 1024,
            quality := "medium", format := some "mp3" } ∧
    sampleFs.statSync "/music/My clip.mp3" = .ok 1024 :=
  ⟨rfl,
   (audio_result_fields sampleEnv sampleFs noOptions
    { stdout := "", stderr := "", outputFile := some "/music/My clip.mp3", progress := [] }
    (some 0)
    { filePath := "/music/My clip.mp3", fileName := "My clip.mp3", size := 1024,
      quality := "medium", format := some "mp3" } rfl).2.2.1⟩

/-! ## Deliveries of a job over a sequence of events -/

theorem progressOf_cons_stdout (data : String) (events : List ProcessEvent) :
    progressOf (.stdout data :: events) =
      (chunkPercent data).toList.map .progress ++ progressOf events := by
  unfold progressOf
  cases h : chunkPercent data <;> simp [List.filterMap_cons, h]

theorem progressOf_cons_other (e : ProcessEvent) (events : List ProcessEvent)
    (h : e.isStdout = false) : progressOf (e :: events) = progressOf events := by
  unfold progressOf
  cases e <;> simp_all [ProcessEvent.isStdout, List.filterMap_cons]

theorem progressOf_not_outcome (events : List ProcessEvent) :
    (progressOf events).filter Delivery.isOutcome = [] := by
  rw [List.filter_eq_nil_iff]
  intro d hd
  unfold progressOf at hd
  rw [List.mem_filterMap] at hd
  obtain ⟨e, _, he⟩ := hd
  cases e with
  | stdout data =>
    simp only [Option.map_eq_some'] at he
    obtain ⟨p, _, rfl⟩ := he
    simp [Delivery.isOutcome]
  | stderr data => simp at he
  | error message => simp at he
  | close code => simp at he

theorem step_stdout (onClose : JobState → Option Int → Settled) (run : JobRun)
    (data : String) :
    (JobRun.step onClose run (.stdout data)).deliveries =
      run.deliveries ++ (chunkPercent data).toList.map .progress ∧
    (JobRun.step onClose run (.stdout data)).settled = run.settled := by
  unfold JobRun.step
  simp only [onStdoutData_progress, List.drop_left, and_self]

theorem run_quiet (onClose : JobState → Option Int → Settled) (events : List ProcessEvent) :
    ∀ run : JobRun, (run.settled = true ∨ ∀ e ∈ events, e.isTerminal = false) →
      (JobRun.run onClose run events).deliveries = run.deliveries ++ progressOf events ∧
      (JobRun.run onClose run events).settled = run.settled := by
  induction events with
  | nil => intro run _; simp [JobRun.run, progressOf]
  | cons e es ih =>
    intro run h
    have hrun : JobRun.run onClose run (e :: es) =
        JobRun.run onClose (JobRun.step onClose run e) es := rfl
    rw [hrun]
    cases e with
    | stdout data =>
      obtain ⟨hd, hs⟩ := step_stdout onClose run data
      have h1 := ih (JobRun.step onClose run (.stdout data)) (by
        rcases h with h | h
        · left; rw [hs]; exact h
        · right; intro e he; exact h e (List.mem_cons_of_mem _ he))
      rw [h1.1, h1.2, hd, hs, progressOf_cons_stdout, List.append_assoc]
      exact ⟨rfl, rfl⟩
    | stderr data =>
      have h1 := ih (JobRun.step onClose run (.stderr data)) (by
        rcases h with h | h
        · left; exact h
        · right; intro e he; exact h e (List.mem_cons_of_mem _ he))
      rw [h1.1, h1.2, progressOf_cons_other (.stderr data) es rfl]
      exact ⟨rfl, rfl⟩
    | error message =>
      rcases h with h | h
      · have hstep : JobRun.step onClose run (.error message) = run := by
          simp [JobRun.step, h]
        rw [hstep, progressOf_cons_other (.error message) es rfl]
        exact ih run (Or.inl h)
      · have := h (.error message) (List.mem_cons_self _ _)
        simp [ProcessEvent.isTerminal] at this
    | close code =>
      rcases h with h | h
      · have hstep : JobRun.step onClose run (.close code) = run := by
          simp [JobRun.step, h]
        rw [hstep, progressOf_cons_other (.close code) es rfl]
        exact ih run (Or.inl h)
      · have := h (.close code) (List.mem_cons_self _ _)
        simp [ProcessEvent.isTerminal] at this

theorem step_terminal (onClose : JobState → Option Int → Settled) (run : JobRun)
    (t : ProcessEvent) (ht : t.isTerminal = true) (hs : run.settled = false) :
    (JobRun.step onClose run t).deliveries =
      run.deliveries ++ [.outcome (outcomeOf onClose run.st t)] ∧
    (JobRun.step onClose run t).settled = true := by
  cases t with
  | stdout data => simp [ProcessEvent.isTerminal] at ht
  | stderr data => simp [ProcessEvent.isTerminal] at ht
  | error message => simp [JobRun.step, hs, outcomeOf]
  | close code => simp [JobRun.step, hs, outcomeOf]

theorem run_first_terminal (onClose : JobState → Option Int → Settled)
    (pre post : List ProcessEvent) (t : ProcessEvent)
    (hpre : ∀ e ∈ pre, e.isTerminal = false) (ht : t.isTerminal = true) :
    (JobRun.run onClose JobRun.init (pre ++ t :: post)).deliveries =
      progressOf pre ++
        Delivery.outcome (outcomeOf onClose (JobRun.run onClose JobRun.init pre).st t) ::
          progressOf post := by
  have h0 := run_quiet onClose pre JobRun.init (Or.inr hpre)
  have h1 := step_terminal onClose (JobRun.run onClose JobRun.init pre) t ht
    (by rw [h0.2]; rfl)
  have h2 := run_quiet onClose post (JobRun.step onClose (JobRun.run onClose JobRun.init pre) t)
    (Or.inl h1.2)
  have hrun : JobRun.run onClose JobRun.init (pre ++ t :: post) =
      JobRun.run onClose (JobRun.step onClose (JobRun.run onClose JobRun.init pre) t) post := by
    simp [JobRun.run, List.foldl_append]
  rw [hrun, h2.1, h1.1, h0.1]
  simp [JobRun.init]

theorem first_terminal_split (events : List ProcessEvent)
    (h : ∃ e ∈ events, e.isTerminal = true) :
    ∃ pre t post, events = pre ++ t :: post ∧ (∀ e ∈ pre, e.isTerminal = false) ∧
      t.isTerminal = true := by
  induction events with
  | nil => simp at h
  | cons e es ih =>
    cases he : e.isTerminal with
    | true => exact ⟨[], e, es, rfl, by simp, he⟩
    | false =>
      obtain ⟨x, hx, hxt⟩ := h
      rcases List.mem_cons.mp hx with rfl | hx
      · rw [he] at hxt; cases hxt
      · obtain ⟨pre, t, post, rfl, hpre, ht⟩ := ih ⟨x, hx, hxt⟩
        refine ⟨e :: pre, t, post, rfl, ?_, ht⟩
        intro y hy
        rcases List.mem_cons.mp hy with rfl | hy
        · exact he
        · exact hpre y hy

theorem renderer_resolved_unsubscribes (ipc : IpcBridge) (url : String)
    (options : DownloadOptions) (result : DownloadResult)
    (h : (DownloadManager.downloadTwitterVideo ipc url options).outcome = .ok result) :
    (DownloadManager.downloadTwitterVideo ipc url options).effects.getLast? =
      some (.unsubscribe "twitter-download-progress") := by
  unfold DownloadManager.downloadTwitterVideo at h ⊢
  simp only at h ⊢
  split
  · rename_i hv; simp only [hv, if_true] at h; cases h
  · rename_i hv
    simp only [hv, if_false] at h
    split
    · rename_i hi; rw [hi] at h; cases h
    · rename_i hi
      rw [hi] at h
      simp only at h
      split
      · rename_i hd; rw [hd] at h; cases h
      · exact List.getLast?_concat _

/-- C23 as stated fails: after an `error` event has rejected the promise, a
stdout chunk with a progress line still calls `onProgress`: the deliveries are
the outcome first and a progress update after it. -/
theorem progress_after_terminal_event :
    (JobRun.run (downloadTwitterVideo.onClose sampleEnv sampleFs noOptions) JobRun.init
      [.error "kill EPERM", .stdout "[download]  50.0% of 3.00MiB"]).deliveries.map
        Delivery.isOutcome = [true, false] := by
  decide

/-- C23, amended: for every sequence of process events a download job
delivers at most one outcome, and exactly one if and only if the sequence
holds an `error` or `close` event; the outcome is the one asked for by the
first such event, and it comes after the progress updates of the stdout chunks
before that event. The stdout listener stays attached: the chunks after the
first terminal event add their progress updates after the outcome. In the
renderer, a download that resolves ends with the removal of its progress
listener. -/
theorem job_settles_once (env : MainEnv) (fs : FsEnv) (options : DownloadOptions)
    (events : List ProcessEvent) :
    ((∀ e ∈ events, e.isTerminal = false) →
      (JobRun.run (downloadTwitterVideo.onClose env fs options) JobRun.init events).deliveries =
        progressOf events) ∧
    (∀ pre t post, events = pre ++ t :: post → (∀ e ∈ pre, e.isTerminal = false) →
      t.isTerminal = true →
      (JobRun.run (downloadTwitterVideo.onClose env fs options) JobRun.init events).deliveries =
        progressOf pre ++
          Delivery.outcome (outcomeOf (downloadTwitterVideo.onClose env fs options)
            (JobRun.run (downloadTwitterVideo.onClose env fs options) JobRun.init pre).st t) ::
            progressOf post) ∧
    ((JobRun.run (downloadTwitterVideo.onClose env fs options) JobRun.init
        events).deliveries.filter Delivery.isOutcome).length ≤ 1 ∧
    (((JobRun.run (downloadTwitterVideo.onClose env fs options) JobRun.init
        events).deliveries.filter Delivery.isOutcome).length = 1 ↔
      ∃ e ∈ events, e.isTerminal = true) ∧
    (∀ ipc url result,
      (DownloadManager.downloadTwitterVideo ipc url options).outcome = .ok result →
      (DownloadManager.downloadTwitterVideo ipc url options).effects.getLast? =
        some (.unsubscribe "twitter-download-progress")) := by
  have hquiet : (∀ e ∈ events, e.isTerminal = false) →
      (JobRun.run (downloadTwitterVideo.onClose env fs options) JobRun.init events).deliveries =
        progressOf events := by
    intro h
    have := (run_quiet (downloadTwitterVideo.onClose env fs options) events JobRun.init
      (Or.inr h)).1
    simpa [JobRun.init] using this
  have hsplit : ∀ pre t post, events = pre ++ t :: post → (∀ e ∈ pre, e.isTerminal = false) →
      t.isTerminal = true →
      (JobRun.run (downloadTwitterVideo.onClose env fs options) JobRun.init events).deliveries =
        progressOf pre ++
          Delivery.outcome (outcomeOf (downloadTwitterVideo.onClose env fs options)
            (JobRun.run (downloadTwitterVideo.onClose env fs options) JobRun.init pre).st t) ::
            progressOf post := by
    intro pre t post he hpre ht
    subst he
    exact run_first_terminal _ pre post t hpre ht
  have hcount : (∃ e ∈ events, e.isTerminal = true) →
      ((JobRun.run (downloadTwitterVideo.onClose env fs options) JobRun.init
        events).deliveries.filter Delivery.isOutcome).length = 1 := by
    intro h
    obtain ⟨pre, t, post, he, hpre, ht⟩ := first_terminal_split events h
    rw [hsplit pre t post he hpre ht, List.filter_append, List.filter_cons,
      progressOf_not_outcome, progressOf_not_outcome]
    simp [Delivery.isOutcome]
  have hnone : ¬ (∃ e ∈ events, e.isTerminal = true) →
      ((JobRun.run (downloadTwitterVideo.onClose env fs options) JobRun.init
        events).deliveries.filter Delivery.isOutcome).length = 0 := by
    intro h
    rw [hquiet (by
      intro e he
      cases hb : e.isTerminal with
      | false => rfl
      | true => exact absurd ⟨e, he, hb⟩ h), progressOf_not_outcome]
    rfl
  refine ⟨hquiet, hsplit, ?_, ?_, ?_⟩
  · by_cases h : ∃ e ∈ events, e.isTerminal = true
    · rw [hcount h]
    · rw [hnone h]; exact Nat.zero_le _
  · constructor
    · intro h1
      by_contra h
      rw [hnone h] at h1
      cases h1
    · exact hcount
  · intro ipc url result h
    exact renderer_resolved_unsubscribes ipc url options result h

/-! ## Location of yt-dlp -/

/-- C24: `getYtDlpPath` is a total function of the environment: the `bin`
directory two levels above the module, joined with `yt-dlp.exe` on `win32` and
with `yt-dlp` on every other platform; on a platform that the installer
supports, the installer writes a file of the same name in its `bin` directory,
so that with the same directory it writes the very path of `getYtDlpPath`;
`checkYtDlpInstalled` is the presence of that path, and `false` when the file
is absent. -/
theorem ytdlp_path_matches_installer (env : MainEnv) :
    (env.platform = "win32" →
      getYtDlpPath env = env.join [env.join [env.dirname, "..", "..", "bin"], "yt-dlp.exe"]) ∧
    (env.platform ≠ "win32" →
      getYtDlpPath env = env.join [env.join [env.dirname, "..", "..", "bin"], "yt-dlp"]) ∧
    (∀ binDir target, installYtDlp.ytdlpPath env.join binDir env.platform = some target →
      (env.platform = "win32" → target = env.join [binDir, "yt-dlp.exe"]) ∧
      (env.platform ≠ "win32" → target = env.join [binDir, "yt-dlp"])) ∧
    (∀ target, installYtDlp.ytdlpPath env.join (env.join [env.dirname, "..", "..", "bin"])
        env.platform = some target → target = getYtDlpPath env) ∧
    (∀ binDir, env.platform ∈ ytdlpPlatforms →
      (installYtDlp.ytdlpPath env.join binDir env.platform).isSome = true) ∧
    checkYtDlpInstalled env = env.existsSync (getYtDlpPath env) ∧
    (env.existsSync (getYtDlpPath env) = false → checkYtDlpInstalled env = false) := by
  refine ⟨?_, ?_, ?_, ?_, ?_, rfl, fun h => h⟩
  · intro h
    simp [getYtDlpPath, h]
  · intro h
    simp [getYtDlpPath, h]
  · intro binDir target h
    unfold installYtDlp.ytdlpPath at h
    split at h
    · simp only [Option.some.injEq] at h
      subst h
      constructor
      · intro hp; simp [hp]
      · intro hp; simp [hp]
    · cases h
  · intro target h
    unfold installYtDlp.ytdlpPath at h
    split at h
    · simp only [Option.some.injEq] at h
      subst h
      rfl
    · cases h
  · intro binDir h
    simp [installYtDlp.ytdlpPath, h]

/-! ## Allow-lists of the preload bridge -/

/-- C25: `invoke` of the preload bridge throws, without a call of
`ipcRenderer.invoke`, exactly when the channel is not in
`validInvokeChannels`; `on` and `once` throw, without registering a listener,
exactly when the channel is not in `validOnChannels`; on an allowed channel
the call is made on that channel with the arguments as given. -/
theorem bridge_enforces_allow_lists {α : Type} (channel : String) (args : List α) :
    ((∃ message, electronHandler.invoke channel args = .error message) ↔
      channel ∉ validInvokeChannels) ∧
    (channel ∈ validInvokeChannels →
      electronHandler.invoke channel args = .ok (.invoke channel args)) ∧
    ((∃ message, (electronHandler.on channel : Except String (BridgeCall α)) = .error message) ↔
      channel ∉ validOnChannels) ∧
    (channel ∈ validOnChannels →
      (electronHandler.on channel : Except String (BridgeCall α)) = .ok (.on channel)) ∧
    ((∃ message, (electronHandler.once channel : Except String (BridgeCall α)) = .error message) ↔
      channel ∉ validOnChannels) ∧
    (channel ∈ validOnChannels →
      (electronHandler.once channel : Except String (BridgeCall α)) = .ok (.once channel)) := by
  refine ⟨?_, ?_, ?_, ?_, ?_, ?_⟩
  · by_cases h : channel ∈ validInvokeChannels <;> simp [electronHandler.invoke, h]
  · intro h
    simp [electronHandler.invoke, h]
  · by_cases h : channel ∈ validOnChannels <;> simp [electronHandler.on, h]
  · intro h
    simp [electronHandler.on, h]
  · by_cases h : channel ∈ validOnChannels <;> simp [electronHandler.once, h]
  · intro h
    simp [electronHandler.once, h]

/-! ## Analytics -/

theorem track_disabled (svc : AnalyticsService) (now : Nat) (call : TrackCall)
    (h : svc.isEnabled = false) : svc.track now call = svc := by
  cases call <;>
    simp [AnalyticsService.track, AnalyticsService.trackEvent, AnalyticsService.trackScreenView,
      AnalyticsService.trackError, AnalyticsService.trackTiming,
      AnalyticsService.trackFeatureUse, h]

theorem track_enabled (svc : AnalyticsService) (now : Nat) (call : TrackCall)
    (h : svc.isEnabled = true) :
    ∃ e, (svc.track now call).events = svc.events ++ [e] ∧ e.timestamp = now ∧
      (svc.track now call).isEnabled = true := by
  cases call <;>
    simp [AnalyticsService.track, AnalyticsService.trackEvent, AnalyticsService.trackScreenView,
      AnalyticsService.trackError, AnalyticsService.trackTiming,
      AnalyticsService.trackFeatureUse, h]

theorem trackAll_disabled (calls : List (Nat × TrackCall)) :
    ∀ svc : AnalyticsService, svc.isEnabled = false → svc.trackAll calls = svc := by
  induction calls with
  | nil => intro svc _; rfl
  | cons c rest ih =>
    intro svc h
    have hstep : svc.trackAll (c :: rest) = (svc.track c.1 c.2).trackAll rest := rfl
    rw [hstep, track_disabled svc c.1 c.2 h]
    exact ih svc h

theorem trackAll_enabled (calls : List (Nat × TrackCall)) :
    ∀ svc : AnalyticsService, svc.isEnabled = true →
      (svc.trackAll calls).events.length = svc.events.length + calls.length ∧
      svc.events <+: (svc.trackAll calls).events := by
  induction calls with
  | nil => intro svc _; exact ⟨rfl, List.prefix_refl _⟩
  | cons c rest ih =>
    intro svc h
    have hstep : svc.trackAll (c :: rest) = (svc.track c.1 c.2).trackAll rest := rfl
    obtain ⟨e, he, _, hen⟩ := track_enabled svc c.1 c.2 h
    obtain ⟨h1, h2⟩ := ih (svc.track c.1 c.2) hen
    rw [hstep, h1, he]
    refine ⟨by simp; omega, ?_⟩
    rw [he] at h2
    exact (List.prefix_append _ _).trans h2

/-- C29: a new service is disabled and has no event; `setEnabled(false)`
disables the service and leaves the events as they are; while the service is
disabled every call of `trackEvent`, `trackScreenView`, `trackError`,
`trackTiming` or `trackFeatureUse` leaves the service unchanged, also over a
whole sequence of calls; while it is enabled each such call appends exactly one
event to the list. -/
theorem analytics_off_without_consent (svc : AnalyticsService) (now : Nat) (call : TrackCall)
    (calls : List (Nat × TrackCall)) :
    (AnalyticsService.new now).isEnabled = false ∧
    (AnalyticsService.new now).events = [] ∧
    ((AnalyticsService.new now).trackAll calls).events = [] ∧
    (svc.setEnabled now false).isEnabled = false ∧
    (svc.setEnabled now false).events = svc.events ∧
    ((svc.setEnabled now false).trackAll calls).events = svc.events ∧
    (svc.isEnabled = false → svc.track now call = svc) ∧
    (svc.isEnabled = false → svc.trackAll calls = svc) ∧
    (svc.isEnabled = true →
      ∃ e, (svc.track now call).events = svc.events ++ [e] ∧ e.timestamp = now ∧
        (svc.track now call).isEnabled = true) ∧
    (svc.isEnabled = true →
      (svc.trackAll calls).events.length = svc.events.length + calls.length ∧
      svc.events <+: (svc.trackAll calls).events) ∧
    ((svc.track now call).events ≠ svc.events → svc.isEnabled = true) := by
  have hoff : (svc.setEnabled now false).isEnabled = false := by
    simp [AnalyticsService.setEnabled]
  have hev : (svc.setEnabled now false).events = svc.events := by
    simp [AnalyticsService.setEnabled]
  refine ⟨rfl, rfl, ?_, hoff, hev, ?_, track_disabled svc now call, trackAll_disabled calls svc,
    track_enabled svc now call, trackAll_enabled calls svc, ?_⟩
  · rw [trackAll_disabled calls _ rfl]
    rfl
  · rw [trackAll_disabled calls _ hoff, hev]
  · intro h
    cases hb : svc.isEnabled with
    | true => rfl
    | false => exact absurd (by rw [track_disabled svc now call hb]) h

/-! ## Registration of the IPC handlers -/

/-- C30 fails in the code: the channel `show-item-in-folder` is
registered when the module is loaded and once more by `setupIpcHandlers`, so
the channel names are not pairwise distinct, and `setupIpcHandlers` after the
load throws at its second registration, with only two channels handled. -/
theorem setup_registers_channel_twice :
    ¬ (moduleLevelChannels ++ setupIpcHandlers.channels).Nodup ∧
    "show-item-in-folder" ∈ moduleLevelChannels ∧
    "show-item-in-folder" ∈ setupIpcHandlers.channels ∧
    loadIpcModule [] = (["show-item-in-folder"], none) ∧
    setupIpcHandlers (loadIpcModule []).1 =
      (["show-item-in-folder", "check-ytdlp-installed"],
        some "Attempted to register a second handler for 'show-item-in-folder'") := by
  refine ⟨by decide, by decide, by decide, by decide, by decide⟩

/-! ## Removal of PDF pages -/

theorem copyPages_range {α : Type} (pdf : List α) (pagesToRemove : List Int) :
    ∀ m s, s + m ≤ pdf.length →
      copyPages pdf ((List.range' s m).filter
          (fun index => !pagesToRemove.contains (Int.ofNat index))) =
        .ok (pagesKept pagesToRemove s ((pdf.drop s).take m)) := by
  intro m
  induction m with
  | zero => intro s _; simp [copyPages, pagesKept]
  | succ m ih =>
    intro s hs
    have hlt : s < pdf.length := by omega
    have hdrop : pdf.drop s = pdf[s] :: pdf.drop (s + 1) := List.drop_eq_getElem_cons hlt
    have hget : pdf[s]? = some pdf[s] := List.getElem?_eq_getElem hlt
    have ih1 := ih (s + 1) (by omega)
    rw [List.range'_succ, hdrop, List.take_succ_cons, List.filter_cons]
    by_cases hmem : ((s : Nat) : Int) ∈ pagesToRemove
    · have hc : (!pagesToRemove.contains (Int.ofNat s)) = false := by simp [hmem]
      rw [hc]
      simp only [Bool.false_eq_true, if_false]
      rw [ih1]
      simp [pagesKept, hmem]
    · have hc : (!pagesToRemove.contains (Int.ofNat s)) = true := by simp [hmem]
      rw [hc]
      simp only [if_true]
      unfold copyPages
      rw [hget]
      simp only
      rw [ih1]
      simp [pagesKept, hmem]

theorem pagesKept_congr {α : Type} (l1 l2 : List Int) (pages : List α) :
    ∀ start, (∀ i, start ≤ i → i < start + pages.length →
        (Int.ofNat i ∈ l1 ↔ Int.ofNat i ∈ l2)) →
      pagesKept l1 start pages = pagesKept l2 start pages := by
  induction pages with
  | nil => intro _ _; rfl
  | cons p rest ih =>
    intro start h
    have h0 := h start (Nat.le_refl _) (by simp)
    have h1 := ih (start + 1) (fun i hi1 hi2 => h i (by omega) (by simp; omega))
    unfold pagesKept
    by_cases hm : Int.ofNat start ∈ l1
    · rw [if_pos hm, if_pos (h0.mp hm), h1]
    · rw [if_neg hm, if_neg (fun hx => hm (h0.mpr hx)), h1]

theorem pagesKept_sublist {α : Type} (l : List Int) (pages : List α) :
    ∀ start, (pagesKept l start pages).Sublist pages := by
  induction pages with
  | nil => intro _; exact List.Sublist.slnil
  | cons p rest ih =>
    intro start
    unfold pagesKept
    split
    · exact (ih (start + 1)).cons p
    · exact (ih (start + 1)).cons₂ p

theorem pagesKept_enum {α : Type} (l : List Int) (pages : List α) :
    ∀ start, pagesKept l start pages =
      ((pages.enumFrom start).filter (fun ip => decide (Int.ofNat ip.1 ∉ l))).map Prod.snd := by
  induction pages with
  | nil => intro _; rfl
  | cons p rest ih =>
    intro start
    unfold pagesKept
    rw [List.enumFrom_cons, List.filter_cons]
    by_cases hm : ((start : Nat) : Int) ∈ l
    · simp [hm, ih (start + 1)]
    · simp [hm, ih (start + 1)]

theorem removePages_saved {α : Type} (pdf : List α) (pagesToRemove : List Int) :
    removePages pdf pagesToRemove =
      .ok (savePdf ((pagesKept pagesToRemove 0 pdf).map .copy)) := by
  have h := copyPages_range pdf pagesToRemove pdf.length 0 (by omega)
  rw [List.drop_zero, List.take_length] at h
  unfold removePages
  simp only [List.range_eq_range']
  rw [h]

/-- C28 fails in the code: when `pagesToRemove` holds every index of the
document no original page is kept, and the document that `removePages` returns
has one page, the blank page that `save` adds, where the claim gives a document
without pages (five pages, indices 0 to 4). Whenever at least one page is kept
the returned pages are the copies of the pages whose index is not in
`pagesToRemove`, in the order of the original. -/
theorem remove_all_pages_adds_blank :
    removePages ["p0", "p1", "p2", "p3", "p4"] [0, 1, 2, 3, 4] = .ok [PdfPage.blank] ∧
    pagesKept [0, 1, 2, 3, 4] 0 ["p0", "p1", "p2", "p3", "p4"] = [] ∧
    (∀ (pdf : List String) (pagesToRemove : List Int),
      pagesKept pagesToRemove 0 pdf = [] →
      removePages pdf pagesToRemove = .ok [PdfPage.blank]) ∧
    (∀ (pdf : List String) (pagesToRemove : List Int),
      pagesKept pagesToRemove 0 pdf ≠ [] →
      removePages pdf pagesToRemove = .ok ((pagesKept pagesToRemove 0 pdf).map .copy)) ∧
    (∀ (pdf : List String) (pagesToRemove : List Int),
      pagesKept pagesToRemove 0 pdf =
        (pdf.enum.filter (fun ip => decide (Int.ofNat ip.1 ∉ pagesToRemove))).map Prod.snd) := by
  refine ⟨?_, by decide, ?_, ?_, fun pdf l => pagesKept_enum l pdf 0⟩
  · rw [removePages_saved]
    rfl
  · intro pdf l h
    rw [removePages_saved, h]
    rfl
  · intro pdf l h
    rw [removePages_saved]
    cases hk : pagesKept l 0 pdf with
    | nil => exact absurd hk h
    | cons p rest => rfl

/-! ## Doubles -/

theorem logFuel_eq_log (b : Nat) (hb : 1 < b) :
    ∀ fuel n, n ≤ fuel → logFuel b fuel n = Nat.log b n := by
  intro fuel
  induction fuel with
  | zero =>
    intro n hn
    have : n = 0 := by omega
    subst this
    simp [logFuel]
  | succ fuel ih =>
    intro n hn
    unfold logFuel
    by_cases h : n < b
    · rw [if_pos h, Nat.log_of_lt h]
    · rw [if_neg h, Nat.log_of_one_lt_of_le hb (by omega)]
      have hdiv : n / b ≤ fuel := by
        have : n / b < n := Nat.div_lt_self (by omega) hb
        omega
      rw [ih (n / b) hdiv]

theorem floorLog_eq_log (b n : Nat) (hb : 1 < b) : floorLog b n = Nat.log b n :=
  logFuel_eq_log b hb n n (Nat.le_refl n)

theorem roundHalfEven_one (a : Nat) : roundHalfEven a 1 = a := by
  simp [roundHalfEven, Nat.mod_one]

theorem roundHalfEven_bounds (a b : Nat) :
    a / b ≤ roundHalfEven a b ∧ roundHalfEven a b ≤ a / b + 1 := by
  unfold roundHalfEven
  split
  · omega
  · split
    · omega
    · split <;> omega

theorem roundHalfEven_le (a b c : Nat) (hb : 0 < b) (h : a ≤ c * b) :
    roundHalfEven a b ≤ c := by
  have hq : a / b ≤ c := by
    rw [Nat.div_le_iff_le_mul_add_pred hb]
    have hc : c * b = b * c := Nat.mul_comm c b
    omega
  rcases Nat.lt_or_ge (a / b) c with hlt | hge
  · have := (roundHalfEven_bounds a b).2
    omega
  · have hqc : a / b = c := by omega
    have hmul : b * (a / b) + a % b = a := Nat.div_add_mod a b
    have hmod : a % b = 0 := by
      rw [hqc] at hmul
      have : b * c = c * b := Nat.mul_comm b c
      omega
    unfold roundHalfEven
    rw [hmod, if_pos (by omega)]
    omega

theorem roundHalfEven_mul_div (a b T : Nat) (hb : 0 < b) (hT : b < 2 * T) :
    roundHalfEven (a * T) b / T = a / b := by
  have hTpos : 0 < T := by omega
  have ha : b * (a / b) + a % b = a := Nat.div_add_mod a b
  have hR : a % b < b := Nat.mod_lt a hb
  -- the product as a multiple of b plus the scaled remainder
  have hprod : a * T = a % b * T + b * (a / b * T) := by
    calc a * T = (b * (a / b) + a % b) * T := by rw [ha]
      _ = a % b * T + b * (a / b * T) := by ring
  have hdiv : a * T / b = a % b * T / b + a / b * T := by
    rw [hprod, Nat.add_mul_div_left _ _ hb]
  have hmod : a * T % b = a % b * T % b := by
    rw [hprod, Nat.add_mul_mod_self_left]
  have h2 : b * (a % b * T / b) + a % b * T % b = a % b * T := Nat.div_add_mod _ b
  have hr2 : a % b * T % b < b := Nat.mod_lt _ hb
  have hRT : a % b * T + T ≤ b * T := by
    have : (a % b + 1) * T ≤ b * T := Nat.mul_le_mul_right T (by omega)
    calc a % b * T + T = (a % b + 1) * T := by ring
      _ ≤ b * T := this
  -- the quotient of the scaled remainder stays below T, also after rounding up
  have hq2 : a % b * T / b < T := by
    by_contra hcon
    have hge : T ≤ a % b * T / b := by omega
    have : b * T ≤ b * (a % b * T / b) := Nat.mul_le_mul_left b hge
    omega
  have hup : b ≤ 2 * (a % b * T % b) → a % b * T / b + 1 < T := by
    intro hhalf
    by_contra hcon
    have hge : T ≤ a % b * T / b + 1 := by omega
    have h3 : b * T ≤ b * (a % b * T / b + 1) := Nat.mul_le_mul_left b hge
    have h4 : b * (a % b * T / b + 1) = b * (a % b * T / b) + b := by ring
    omega
  have hval : ∃ x, x < T ∧ roundHalfEven (a * T) b = x + a / b * T := by
    unfold roundHalfEven
    rw [hdiv, hmod]
    split
    · exact ⟨_, hq2, rfl⟩
    · split
      · exact ⟨a % b * T / b + 1, hup (by omega), by omega⟩
      · split
        · exact ⟨_, hq2, rfl⟩
        · exact ⟨a % b * T / b + 1, hup (by omega), by omega⟩
  obtain ⟨x, hx, hv⟩ := hval
  rw [hv, Nat.add_mul_div_right _ _ hTpos, Nat.div_eq_of_lt hx, Nat.zero_add]

theorem toDouble_nat (s : Nat) (h : s ≤ 2 ^ 53) : (toDouble s 1).floor = s := by
  by_cases h0 : s = 0
  · subst h0
    rfl
  · by_cases h53 : s = 2 ^ 53
    · subst h53
      decide
    · have hlt : s < 2 ^ 53 := by omega
      have hl : floorLog 2 (s / 1) ≤ 52 := by
        rw [Nat.div_one, floorLog_eq_log 2 s (by omega)]
        have := Nat.log_lt_of_lt_pow h0 hlt
        omega
      unfold toDouble Frac.floor
      simp only [h0, if_false]
      rw [if_pos (by omega), if_pos hl]
      simp only [roundHalfEven_one]
      exact Nat.mul_div_cancel _ (Nat.pos_pow_of_pos _ (by omega))

theorem toDouble_floor (a b : Nat) (hb0 : 0 < b) (hb : b < 4096) (hq : a / b < 2 ^ 42) :
    (toDouble a b).floor = a / b := by
  by_cases h0 : a = 0
  · subst h0
    simp [toDouble, Frac.floor]
  · unfold toDouble Frac.floor
    simp only [h0, if_false]
    by_cases hba : b ≤ a
    · rw [if_pos hba]
      have hqpos : a / b ≠ 0 := by
        have : 0 < a / b := Nat.div_pos hba hb0
        omega
      have hl : floorLog 2 (a / b) < 42 := by
        rw [floorLog_eq_log 2 _ (by omega)]
        exact Nat.log_lt_of_lt_pow hqpos hq
      rw [if_pos (by omega)]
      apply roundHalfEven_mul_div a b _ hb0
      have : 2 ^ 11 ≤ 2 ^ (52 - floorLog 2 (a / b)) :=
        Nat.pow_le_pow_right (by omega) (by omega)
      omega
    · rw [if_neg hba]
      have hdiv : a / b = 0 := Nat.div_eq_of_lt (by omega)
      rw [hdiv]
      have hk : ∀ k, roundHalfEven (a * 2 ^ (52 + k)) b / 2 ^ (52 + k) = 0 := by
        intro k
        rw [roundHalfEven_mul_div a b _ hb0, hdiv]
        have : 2 ^ 12 ≤ 2 ^ (52 + k) := Nat.pow_le_pow_right (by omega) (by omega)
        omega
      split
      · exact hk _
      · exact hk _

theorem numberToString_nat (n : Nat) (h : n < 2 ^ 53) :
    numberToString { num := n, den := 1 } = toString n := by
  unfold numberToString
  by_cases h0 : n = 0
  · subst h0
    rfl
  · simp only [h0, if_false, Nat.mod_one, Nat.div_one, true_and]
    rw [if_pos h]

/-! ## Durations -/

theorem padStart2_toString (n : Nat) (h : n < 100) : padStart2 (toString n) = twoDigits n := by
  interval_cases n <;> rfl

/-- C26 as stated fails: the integer `2 ^ 53 + 1` is not a number of the
language; the call receives `2 ^ 53`, and the fields that it prints,
2501999792983 hours, 36 minutes and 32 seconds, add up to `2 ^ 53` and not to
the integer. For `3600 * 2 ^ 70` seconds, which is a number of the language,
the hours are printed in the exponent form and not as the integer `2 ^ 70`. -/
theorem duration_beyond_safe_integers :
    DownloadManager.formatDuration (2 ^ 53 + 1) = "2501999792983:36:32" ∧
    2501999792983 * 3600 + 36 * 60 + 32 ≠ 2 ^ 53 + 1 ∧
    DownloadManager.formatDuration (3600 * 2 ^ 70) = "1.1805916207174113e+21:00:00" ∧
    DownloadManager.formatDuration (3600 * 2 ^ 70) ≠ toString (2 ^ 70) ++ ":00:00" := by
  decide

/-- C26, amended: for every non-negative integer number of seconds `s` up to
`2 ^ 53`, `formatDuration` prints minutes and seconds, `M:SS` with
`M = s / 60`, when `s < 3600`, and hours, minutes and seconds, `H:MM:SS` with
`H = s / 3600`, otherwise; the minutes of the hour form and the seconds are
below 60 and are written with two digits, and the printed fields add up to
`s`. -/
theorem format_duration_fields (s : Nat) (hs : s ≤ 2 ^ 53) :
    (s < 3600 →
      DownloadManager.formatDuration s = toString (s / 60) ++ ":" ++ twoDigits (s % 60)) ∧
    (3600 ≤ s →
      DownloadManager.formatDuration s =
        toString (s / 3600) ++ ":" ++ twoDigits (s % 3600 / 60) ++ ":" ++ twoDigits (s % 60)) ∧
    s % 3600 / 60 < 60 ∧ s % 60 < 60 ∧
    (s < 3600 → s / 60 * 60 + s % 60 = s) ∧
    s / 3600 * 3600 + s % 3600 / 60 * 60 + s % 60 = s ∧
    (twoDigits (s % 3600 / 60)).length = 2 ∧ (twoDigits (s % 60)).length = 2 := by
  have hm : s % 3600 / 60 < 60 := by omega
  have hsec : s % 60 < 60 := by omega
  have hfin : ¬ (1024 ≤ floorLog 2 s) := by
    rw [floorLog_eq_log 2 s (by omega)]
    have : Nat.log 2 s ≤ Nat.log 2 (2 ^ 53) := Nat.log_mono_right hs
    rw [Nat.log_pow (by omega)] at this
    omega
  have hhours : (toDouble s 3600).floor = s / 3600 :=
    toDouble_floor s 3600 (by omega) (by omega) (by omega)
  have hmin : (toDouble (s % 3600) 60).floor = s % 3600 / 60 :=
    toDouble_floor (s % 3600) 60 (by omega) (by omega) (by omega)
  have hform : DownloadManager.formatDuration s =
      if s / 3600 > 0 then
        toString (s / 3600) ++ ":" ++ twoDigits (s % 3600 / 60) ++ ":" ++ twoDigits (s % 60)
      else toString (s % 3600 / 60) ++ ":" ++ twoDigits (s % 60) := by
    unfold DownloadManager.formatDuration
    simp only [toDouble_nat s hs, hfin, if_false, hhours, hmin]
    rw [numberToString_nat (s / 3600) (by omega), numberToString_nat (s % 3600 / 60) (by omega),
      numberToString_nat (s % 60) (by omega), padStart2_toString _ (by omega),
      padStart2_toString _ (by omega)]
  refine ⟨?_, ?_, hm, hsec, ?_, ?_, rfl, rfl⟩
  · intro h
    have h0 : ¬ (s / 3600 > 0) := by omega
    have h1 : s % 3600 / 60 = s / 60 := by omega
    rw [hform, if_neg h0, h1]
  · intro h
    have h0 : s / 3600 > 0 := by omega
    rw [hform, if_pos h0]
  · intro h
    omega
  · omega

theorem format_duration_fields_witness :
    DownloadManager.formatDuration 3725 = "1:02:05" ∧ 3725 / 3600 * 3600 + 3725 % 3600 / 60 * 60
      + 3725 % 60 = 3725 :=
  ⟨((format_duration_fields 3725 (by decide)).2.1 (by decide)).trans (by decide),
   (format_duration_fields 3725 (by decide)).2.2.2.2.2.1⟩

/-! ## File sizes -/

theorem roundHalfUp_bounds (bytes K P : Nat) (hK : 0 < K) (hP : 0 < P)
    (hlo : K ≤ bytes) (hhi : bytes < 1024 * K) :
    2 * K * roundHalfUp (bytes * P) K ≤ 2 * bytes * P + K ∧
    2 * bytes * P + K < 2 * K * (roundHalfUp (bytes * P) K + 1) ∧
    P ≤ roundHalfUp (bytes * P) K ∧
    roundHalfUp (bytes * P) K ≤ 1024 * P := by
  have h2K : 0 < 2 * K := by omega
  have he : 2 * (bytes * P) + K = 2 * bytes * P + K := by ring
  unfold roundHalfUp
  rw [he]
  refine ⟨Nat.mul_div_le _ _, Nat.lt_mul_div_succ _ h2K, ?_, ?_⟩
  · rw [Nat.le_div_iff_mul_le h2K]
    have : K * P ≤ bytes * P := Nat.mul_le_mul_right P hlo
    nlinarith
  · have h1 : (2 * bytes * P + K) / (2 * K) < 1024 * P + 1 := by
      rw [Nat.div_lt_iff_lt_mul h2K]
      have : bytes * P < 1024 * K * P := Nat.mul_lt_mul_of_pos_right hhi hP
      nlinarith
    omega

theorem sizes_get (i : Nat) (h : i < 4) :
    ∃ u, sizes[i]? = some u ∧ u ∈ sizes := by
  interval_cases i <;> exact ⟨_, rfl, by decide⟩

theorem toDouble_bounds (a b : Nat) (hb : 0 < b) (h1 : b ≤ a) (h2 : a ≤ 1024 * b) :
    (toDouble a b).den ≤ (toDouble a b).num ∧ (toDouble a b).num ≤ 1024 * (toDouble a b).den ∧
    0 < (toDouble a b).den := by
  have h0 : a ≠ 0 := by omega
  have hq : a / b ≤ 1024 := by
    rw [Nat.div_le_iff_le_mul_add_pred hb]
    have : b * 1024 = 1024 * b := Nat.mul_comm _ _
    omega
  have hl : floorLog 2 (a / b) ≤ 10 := by
    rw [floorLog_eq_log 2 _ (by omega)]
    have h := Nat.log_mono_right (b := 2) hq
    have h10 : Nat.log 2 1024 = 10 := by
      have : (1024 : Nat) = 2 ^ 10 := by norm_num
      rw [this, Nat.log_pow (by omega)]
    omega
  unfold toDouble
  simp only [h0, if_false]
  rw [if_pos h1, if_pos (by omega)]
  have hT : 0 < 2 ^ (52 - floorLog 2 (a / b)) := Nat.pos_pow_of_pos _ (by omega)
  refine ⟨?_, ?_, hT⟩
  · refine Nat.le_trans ?_ (roundHalfEven_bounds _ _).1
    rw [Nat.le_div_iff_mul_le hb]
    rw [Nat.mul_comm]
    exact Nat.mul_le_mul_right _ h1
  · apply roundHalfEven_le _ _ _ hb
    calc a * 2 ^ (52 - floorLog 2 (a / b))
        ≤ 1024 * b * 2 ^ (52 - floorLog 2 (a / b)) := Nat.mul_le_mul_right _ h2
      _ = 1024 * 2 ^ (52 - floorLog 2 (a / b)) * b := by ring

theorem numberToString_toDouble_nat (n : Nat) (h0 : n ≠ 0) (h : n < 2 ^ 53) :
    numberToString (toDouble n 1) = toString n := by
  have hl : floorLog 2 (n / 1) ≤ 52 := by
    rw [Nat.div_one, floorLog_eq_log 2 n (by omega)]
    have := Nat.log_lt_of_lt_pow h0 h
    omega
  have hT : 0 < 2 ^ (52 - floorLog 2 (n / 1)) := Nat.pos_pow_of_pos _ (by omega)
  have hd : toDouble n 1 =
      { num := n * 2 ^ (52 - floorLog 2 (n / 1)), den := 2 ^ (52 - floorLog 2 (n / 1)) } := by
    unfold toDouble
    simp only [h0, if_false]
    rw [if_pos (by omega), if_pos hl, roundHalfEven_one]
  rw [hd]
  unfold numberToString
  simp only
  rw [if_neg (by
    intro hz
    rcases Nat.mul_eq_zero.mp hz with hz | hz
    · exact h0 hz
    · omega)]
  rw [Nat.mul_mod_left, Nat.mul_div_cancel _ hT, if_pos ⟨rfl, h⟩]

theorem formatFileSize_beyond_units :
    DownloadManager.formatFileSize (1024 ^ 4) 2 = .ok "1 undefined" := by
  rfl

theorem formatFileSize_many_decimals :
    DownloadManager.formatFileSize 5368709121 20 = .ok "5.000000000931323 GB" := by
  rfl

theorem formatFileSize_too_many_decimals :
    DownloadManager.formatFileSize 1536 101 =
      .error "toFixed() digits argument must be between 0 and 100" := by
  rfl

/-- C27 as stated fails: for 1048575 bytes and two decimals the unit is `KB`
and the number in front of it is 1024, which is not below 1024. -/
theorem size_number_reaches_1024 :
    DownloadManager.formatFileSize 1048575 2 = .ok "1024 KB" := by
  rfl

/-- C27, amended: `formatFileSize(0)` is `0 Bytes`; a negative `decimals` is
treated as 0; and for every positive integer byte count below `1024 ^ 4` and
at most 100 decimals the result is a number, a space and a unit, where the
unit is the entry `i` of Bytes, KB, MB, GB for the `i` with
`1024 ^ i ≤ bytes < 1024 ^ (i + 1)`, and the number is the text of the double
nearest to `fixed / 10 ^ decimals`, where `fixed / 10 ^ decimals` is
`bytes / 1024 ^ i` rounded to the nearest multiple of `10 ^ -decimals`,
upwards on a tie; the rounded quotient and the double are at least 1 and at
most 1024; without decimals the number is printed as the integer `fixed`. -/
theorem format_file_size_rounds (bytes : Nat) (decimals : Int) (hpos : 0 < bytes)
    (hlt : bytes < 1024 ^ 4) (hd : decimals ≤ 100) :
    (∀ d : Int, DownloadManager.formatFileSize 0 d = .ok "0 Bytes") ∧
    (decimals < 0 →
      DownloadManager.formatFileSize bytes decimals = DownloadManager.formatFileSize bytes 0) ∧
    ∃ (dm i fixed : Nat) (unit : String),
      dm = (if decimals < 0 then 0 else decimals.toNat) ∧
      DownloadManager.formatFileSize bytes decimals =
        .ok (numberToString (toDouble fixed (10 ^ dm)) ++ " " ++ unit) ∧
      i < 4 ∧ sizes[i]? = some unit ∧ unit ∈ sizes ∧
      1024 ^ i ≤ bytes ∧ bytes < 1024 ^ (i + 1) ∧
      2 * 1024 ^ i * fixed ≤ 2 * bytes * 10 ^ dm + 1024 ^ i ∧
      2 * bytes * 10 ^ dm + 1024 ^ i < 2 * 1024 ^ i * (fixed + 1) ∧
      10 ^ dm ≤ fixed ∧ fixed ≤ 1024 * 10 ^ dm ∧
      (toDouble fixed (10 ^ dm)).den ≤ (toDouble fixed (10 ^ dm)).num ∧
      (toDouble fixed (10 ^ dm)).num ≤ 1024 * (toDouble fixed (10 ^ dm)).den ∧
      0 < (toDouble fixed (10 ^ dm)).den ∧
      (dm = 0 →
        DownloadManager.formatFileSize bytes decimals = .ok (toString fixed ++ " " ++ unit)) := by
  have hne : bytes ≠ 0 := by omega
  have hb53 : bytes ≤ 2 ^ 53 := by omega
  have hdbl : (toDouble bytes 1).floor = bytes := toDouble_nat bytes hb53
  have hfin : ¬ (1024 ≤ floorLog 2 bytes) := by
    rw [floorLog_eq_log 2 bytes (by omega)]
    have : Nat.log 2 bytes ≤ Nat.log 2 (2 ^ 53) := Nat.log_mono_right hb53
    rw [Nat.log_pow (by omega)] at this
    omega
  have hlog : floorLog 1024 bytes = Nat.log 1024 bytes := floorLog_eq_log 1024 bytes (by omega)
  have hform : ∀ d : Int, d ≤ 100 → DownloadManager.formatFileSize bytes d =
      .ok (numberToString (toDouble
          (roundHalfUp (bytes * 10 ^ (if d < 0 then 0 else d.toNat)) (1024 ^ Nat.log 1024 bytes))
          (10 ^ (if d < 0 then 0 else d.toNat))) ++ " " ++
        (sizes[Nat.log 1024 bytes]?).getD "undefined") := by
    intro d hd100
    have hdm : ¬ ((if d < 0 then 0 else d.toNat) > 100) := by
      split <;> omega
    unfold DownloadManager.formatFileSize
    simp only [hne, if_false, hdbl, hfin, hlog, hdm]
  refine ⟨fun d => rfl, ?_, ?_⟩
  · intro hneg
    rw [hform decimals hd, hform 0 (by omega)]
    simp [hneg]
  · have hlo : 1024 ^ Nat.log 1024 bytes ≤ bytes := Nat.pow_log_le_self 1024 hne
    have hhi : bytes < 1024 ^ (Nat.log 1024 bytes + 1) :=
      Nat.lt_pow_succ_log_self (by norm_num) bytes
    have hi : Nat.log 1024 bytes < 4 := Nat.log_lt_of_lt_pow hne hlt
    obtain ⟨u, hu, hmem⟩ := sizes_get _ hi
    have hK : 0 < 1024 ^ Nat.log 1024 bytes := Nat.pos_pow_of_pos _ (by norm_num)
    have hP : 0 < 10 ^ (if decimals < 0 then 0 else decimals.toNat) :=
      Nat.pos_pow_of_pos _ (by norm_num)
    have hhi2 : bytes < 1024 * 1024 ^ Nat.log 1024 bytes := by
      rw [pow_succ] at hhi
      omega
    obtain ⟨b1, b2, b3, b4⟩ := roundHalfUp_bounds bytes _ _ hK hP hlo hhi2
    obtain ⟨c1, c2, c3⟩ := toDouble_bounds _ _ hP b3 b4
    have hres := hform decimals hd
    rw [hu, Option.getD_some] at hres
    refine ⟨if decimals < 0 then 0 else decimals.toNat, Nat.log 1024 bytes,
      roundHalfUp (bytes * 10 ^ (if decimals < 0 then 0 else decimals.toNat))
        (1024 ^ Nat.log 1024 bytes), u,
      rfl, hres, hi, hu, hmem, hlo, hhi, b1, b2, b3, b4, c1, c2, c3, ?_⟩
    intro hdm0
    rw [hres, hdm0, pow_zero, numberToString_toDouble_nat _ (by
      rw [hdm0, pow_zero] at b3
      omega) (by
      rw [hdm0, pow_zero] at b4
      omega)]

theorem format_file_size_rounds_witness :
    ∃ number unit, DownloadManager.formatFileSize 1536 2 = .ok (number ++ " " ++ unit) ∧
      unit ∈ sizes := by
  obtain ⟨_, _, dm, i, fixed, unit, _, h2, _, _, h5, _⟩ :=
    format_file_size_rounds 1536 2 (by decide) (by norm_num) (by decide)
  exact ⟨numberToString (toDouble fixed (10 ^ dm)), unit, h2, h5⟩

end Multitool
